import Mathlib

/-! Essence chunk index, read window and KL walker of the bmx MXF reader.

A shallow embedding of `src/mxf_reader/EssenceChunkHelper.cpp` (lookups,
index-building calls, construction of the index of a complete file) and of
the constructor and the read-window, edit-unit grouping, clip-wrapped read,
seek, KL-walking and completion-flag parts of
`src/mxf_reader/EssenceReader.cpp`.

Modelling conventions.

* `int64_t` values are `Int`, `size_t` / `uint64_t` / `uint8_t` values are `Nat`.
* The conversions between `uint64_t` and `int64_t` that the source performs
  (`(uint64_t)(...)`, `essence_chunk.essence_offset = body_offset`,
  `essence_chunk.size = klv_len`) are explicit: `toUInt64`, `toInt64`.
* Signed arithmetic on chunk fields (file positions, essence offsets, byte
  counts) is exact integer arithmetic: signed overflow is undefined in C++.
  The sum `start_position + duration - 1` of `SetReadLimits`, whose operands
  are caller supplied and include the `INT64_MAX` default of the constructor,
  is reduced to 64 bits with `wrapInt64`; so are the other sums of caller or
  file supplied operands that a test depends on: the window end and
  `mPosition + num_samples` in `Read`, `essence_offset + size` in the
  two-argument `GetFilePosition`, and the subtraction of
  `mAvidFirstFrameOffset` from the converted KLV length in `AppendChunk`.
* A C++ exception is an `Except.error`; a member function that updates the
  object before it may throw returns the updated object next to the result.
* `std::vector` is `List`; `v[i]` is `List.getD i default`.
* The KLV source, the index table helper and the frame buffers are outside
  these two files; they enter as functions of the file cursor (`Env`,
  `IndexTable`, `fileRead`) and as the record `Frame`.
* A loop whose number of iterations depends on the file takes a bound on its
  iterations and returns `none` when the bound is reached.
-/

namespace Bmx

/-! ## Machine integers -/

/-- Two to the power 63, one past `INT64_MAX`. -/
def INT64_BOUND : Int := 9223372036854775808

/-- Two to the power 64, the modulus of `uint64_t`. -/
def UINT64_MOD : Int := 18446744073709551616

/-- The largest `int64_t` value. -/
def INT64_MAX : Int := 9223372036854775807

/-- The value is representable as an `int64_t`. -/
def Int64Range (x : Int) : Prop := -INT64_BOUND ≤ x ∧ x < INT64_BOUND

instance (x : Int) : Decidable (Int64Range x) := by
  unfold Int64Range; infer_instance

/-- Conversion of an integer value to `uint64_t` (reduction modulo 2^64). -/
def toUInt64 (x : Int) : Int := x % UINT64_MOD

/-- Conversion of an integer value to `int64_t` (two's complement). -/
def toInt64 (x : Int) : Int :=
  if x % UINT64_MOD < INT64_BOUND then x % UINT64_MOD else x % UINT64_MOD - UINT64_MOD

/-- The 64-bit result of a signed computation whose exact result is `x`. -/
def wrapInt64 (x : Int) : Int := toInt64 x

/-! ## Data model -/

/-- Modelled from the spec: `mxfKey_extlen`, the length in bytes of a KLV key,
a constant of libMXF that is not part of the sources at hand; the spec gives
the key length as 16 bytes. -/
def mxfKey_extlen : Int := 16

/-- The failures raised by the chunk index: `BMX_CHECK` failures and the
`BMX_EXCEPTION`s of the lookups ("Failed to find edit unit ..."). -/
inductive BMXException where
  | checkFailed
  | notFound
  deriving DecidableEq, Repr

/-- The record `EssenceChunk`: a run of essence bytes within one partition. -/
structure EssenceChunk where
  file_position : Int
  essence_offset : Int
  size : Int
  is_complete : Bool
  partition_id : Nat
  deriving DecidableEq, Repr

/-- The constructor `EssenceChunk::EssenceChunk()`: all fields zero, not complete. -/
instance : Inhabited EssenceChunk := ⟨⟨0, 0, 0, false, 0⟩⟩

/-- The class `EssenceChunkHelper`. `isFrameWrapped` stands for
`mFileReader->IsFrameWrapped()`, which is fixed for a file reader. -/
structure EssenceChunkHelper where
  isFrameWrapped : Bool
  mAvidFirstFrameOffset : Int
  mEssenceChunks : List EssenceChunk
  mLastEssenceChunk : Nat
  mNumIndexedPartitions : Nat
  mIsComplete : Bool
  deriving DecidableEq, Repr

namespace EssenceChunkHelper

/-- The state left by the constructor: no chunks, last-accessed index 0. -/
def create (frameWrapped : Bool) (avidFirstFrameOffset : Int) : EssenceChunkHelper :=
  { isFrameWrapped := frameWrapped
    mAvidFirstFrameOffset := avidFirstFrameOffset
    mEssenceChunks := []
    mLastEssenceChunk := 0
    mNumIndexedPartitions := 0
    mIsComplete := false }

/-- The element `mEssenceChunks[i]`. -/
def chunk (h : EssenceChunkHelper) (i : Nat) : EssenceChunk :=
  h.mEssenceChunks.getD i default

/-- The chunk `mEssenceChunks.back()`. -/
def back (h : EssenceChunkHelper) : EssenceChunk :=
  h.chunk (h.mEssenceChunks.length - 1)

/-- The reconciliation of the partition's `BodyOffset` at the start of
`AppendChunk`: the value of the local `body_offset` (a `uint64_t`) after the
`if` / `else if` chain. -/
def reconcileBodyOffset (h : EssenceChunkHelper) (body_offset : Nat) : Int :=
  if h.mEssenceChunks.isEmpty then
    if (body_offset : Int) > 0 then 0 else (body_offset : Int)
  else if (body_offset : Int) > toUInt64 (h.back.essence_offset + h.back.size) then
    toUInt64 (h.back.essence_offset + h.back.size)
  else if (body_offset : Int) < toUInt64 (h.back.essence_offset + h.back.size) then
    toUInt64 (h.back.essence_offset + h.back.size)
  else (body_offset : Int)

/-- The function `EssenceChunkHelper::AppendChunk`. The argument `body_offset` is the value
of `partition->getBodyOffset()` for the partition `partition_id`; the partition
list belongs to the file object. The `BMX_CHECK` throws before the object is
changed. `essence_chunk.size -= mAvidFirstFrameOffset` is a 64-bit
subtraction from the converted `klv_len`. -/
def AppendChunk (h : EssenceChunkHelper) (body_offset : Nat) (partition_id : Nat)
    (file_position : Int) (klv_llen : Nat) (klv_len : Nat) :
    Except BMXException EssenceChunkHelper :=
  let essence_offset := toInt64 (h.reconcileBodyOffset body_offset)
  if h.isFrameWrapped then
    .ok { h with
      mEssenceChunks := h.mEssenceChunks ++
        [{ file_position := file_position - (mxfKey_extlen + (klv_llen : Int))
           essence_offset := essence_offset
           size := 0
           is_complete := false
           partition_id := partition_id }]
      mNumIndexedPartitions := partition_id + 1 }
  else
    let adjust := decide (h.mAvidFirstFrameOffset > 0) && h.mEssenceChunks.isEmpty
    let fp := if adjust then file_position + h.mAvidFirstFrameOffset else file_position
    let sz := if adjust then wrapInt64 (toInt64 (klv_len : Int) - h.mAvidFirstFrameOffset)
              else toInt64 (klv_len : Int)
    if sz ≥ 0 then
      .ok { h with
        mEssenceChunks := h.mEssenceChunks ++
          [{ file_position := fp
             essence_offset := essence_offset
             size := sz
             is_complete := true
             partition_id := partition_id }]
        mNumIndexedPartitions := partition_id + 1 }
    else .error .checkFailed

/-- The function `EssenceChunkHelper::UpdateLastChunk`. -/
def UpdateLastChunk (h : EssenceChunkHelper) (file_position : Int) (is_end : Bool) :
    EssenceChunkHelper :=
  if !h.mEssenceChunks.isEmpty && !h.back.is_complete &&
      decide (file_position ≥ h.back.file_position + h.back.size) then
    { h with
      mEssenceChunks := h.mEssenceChunks.dropLast ++
        [{ h.back with
           size := file_position - h.back.file_position
           is_complete := is_end }] }
  else h

/-- The function `EssenceChunkHelper::GetEssenceDataSize`. -/
def GetEssenceDataSize (h : EssenceChunkHelper) : Int :=
  if h.mEssenceChunks.isEmpty then 0 else h.back.essence_offset + h.back.size

/-- The backward loop of `EssenceOffsetUpdate`,
`for (i = mLastEssenceChunk; i > 0; i--)`: the index `i - 1` at which it
breaks, or `none` when it runs to `i = 0`. -/
def essenceBackScan (h : EssenceChunkHelper) (essence_offset : Int) : Nat → Option Nat
  | 0 => none
  | i + 1 =>
    if (h.chunk i).essence_offset ≤ essence_offset then some i
    else essenceBackScan h essence_offset i

/-- The forward loop of `EssenceOffsetUpdate`,
`for (i = mLastEssenceChunk + 1; i < size; i++)`: the first argument counts the
iterations left, `size - i`, so the loop condition holds exactly while it is
positive. -/
def essenceFwdScan (h : EssenceChunkHelper) (essence_offset : Int) : Nat → Nat → Option Nat
  | 0, _ => none
  | n + 1, i =>
    if (h.chunk i).essence_offset + (h.chunk i).size > essence_offset then some i
    else essenceFwdScan h essence_offset n (i + 1)

/-- The function `EssenceChunkHelper::EssenceOffsetUpdate`. -/
def EssenceOffsetUpdate (h : EssenceChunkHelper) (essence_offset : Int) :
    Except BMXException EssenceChunkHelper :=
  if h.mEssenceChunks.isEmpty then .error .checkFailed
  else if (h.chunk h.mLastEssenceChunk).essence_offset > essence_offset then
    match h.essenceBackScan essence_offset h.mLastEssenceChunk with
    | some j => .ok { h with mLastEssenceChunk := j }
    | none => .ok h
  else if (h.chunk h.mLastEssenceChunk).essence_offset +
      (h.chunk h.mLastEssenceChunk).size ≤ essence_offset then
    match h.essenceFwdScan essence_offset
        (h.mEssenceChunks.length - (h.mLastEssenceChunk + 1)) (h.mLastEssenceChunk + 1) with
    | some j => .ok { h with mLastEssenceChunk := j }
    | none => .ok h
  else .ok h

/-- The backward loop of `FilePositionUpdate`. -/
def fileBackScan (h : EssenceChunkHelper) (file_position : Int) : Nat → Option Nat
  | 0 => none
  | i + 1 =>
    if (h.chunk i).file_position ≤ file_position then some i
    else fileBackScan h file_position i

/-- The forward loop of `FilePositionUpdate`; the first argument counts the
iterations left. -/
def fileFwdScan (h : EssenceChunkHelper) (file_position : Int) : Nat → Nat → Option Nat
  | 0, _ => none
  | n + 1, i =>
    if (h.chunk i).file_position + (h.chunk i).size > file_position then some i
    else fileFwdScan h file_position n (i + 1)

/-- The function `EssenceChunkHelper::FilePositionUpdate`. -/
def FilePositionUpdate (h : EssenceChunkHelper) (file_position : Int) :
    Except BMXException EssenceChunkHelper :=
  if h.mEssenceChunks.isEmpty then .error .checkFailed
  else if (h.chunk h.mLastEssenceChunk).file_position > file_position then
    match h.fileBackScan file_position h.mLastEssenceChunk with
    | some j => .ok { h with mLastEssenceChunk := j }
    | none => .ok h
  else if (h.chunk h.mLastEssenceChunk).file_position +
      (h.chunk h.mLastEssenceChunk).size ≤ file_position then
    match h.fileFwdScan file_position
        (h.mEssenceChunks.length - (h.mLastEssenceChunk + 1)) (h.mLastEssenceChunk + 1) with
    | some j => .ok { h with mLastEssenceChunk := j }
    | none => .ok h
  else .ok h

/-- The function `EssenceChunkHelper::HaveFilePosition`: the result and the object after
the call. -/
def HaveFilePosition (h : EssenceChunkHelper) (essence_offset : Int) :
    Bool × EssenceChunkHelper :=
  if h.mEssenceChunks.isEmpty then (false, h)
  else
    match h.EssenceOffsetUpdate essence_offset with
    | .error _ => (false, h)
    | .ok h1 =>
      (decide ((h1.chunk h1.mLastEssenceChunk).essence_offset ≤ essence_offset) &&
       decide ((h1.chunk h1.mLastEssenceChunk).essence_offset +
          (h1.chunk h1.mLastEssenceChunk).size ≥ essence_offset), h1)

/-- The function `EssenceChunkHelper::GetFilePosition(int64_t essence_offset)`: the result
(or the exception) and the object after the call. -/
def GetFilePosition (h : EssenceChunkHelper) (essence_offset : Int) :
    Except BMXException Int × EssenceChunkHelper :=
  match h.EssenceOffsetUpdate essence_offset with
  | .error e => (.error e, h)
  | .ok h1 =>
    if (h1.chunk h1.mLastEssenceChunk).essence_offset > essence_offset ∨
        (h1.chunk h1.mLastEssenceChunk).essence_offset +
          (h1.chunk h1.mLastEssenceChunk).size < essence_offset then
      (.error .notFound, h1)
    else
      (.ok ((h1.chunk h1.mLastEssenceChunk).file_position +
          (essence_offset - (h1.chunk h1.mLastEssenceChunk).essence_offset)), h1)

/-- The function
`EssenceChunkHelper::GetFilePosition(int64_t essence_offset, int64_t size)`,
the overload that takes the size of the span. The sum `essence_offset + size`
of the two arguments is a 64-bit sum. -/
def GetFilePositionSpan (h : EssenceChunkHelper) (essence_offset : Int) (size : Int) :
    Except BMXException Int × EssenceChunkHelper :=
  match h.EssenceOffsetUpdate essence_offset with
  | .error e => (.error e, h)
  | .ok h1 =>
    let c := h1.chunk h1.mLastEssenceChunk
    let have_position : Bool :=
      if c.essence_offset > essence_offset then false
      else if c.essence_offset + c.size < wrapInt64 (essence_offset + size) then
        if c.essence_offset + c.size < essence_offset then false
        else if c.is_complete then false
        else true
      else true
    if !have_position then (.error .notFound, h1)
    else (.ok (c.file_position + (essence_offset - c.essence_offset)), h1)

/-- The function `EssenceChunkHelper::GetEssenceOffset`: the result (or the exception) and
the object after the call. -/
def GetEssenceOffset (h : EssenceChunkHelper) (file_position : Int) :
    Except BMXException Int × EssenceChunkHelper :=
  match h.FilePositionUpdate file_position with
  | .error e => (.error e, h)
  | .ok h1 =>
    if (h1.chunk h1.mLastEssenceChunk).file_position > file_position ∨
        (h1.chunk h1.mLastEssenceChunk).file_position +
          (h1.chunk h1.mLastEssenceChunk).size < file_position then
      (.error .notFound, h1)
    else
      (.ok ((h1.chunk h1.mLastEssenceChunk).essence_offset +
          (file_position - (h1.chunk h1.mLastEssenceChunk).file_position)), h1)

/-! ## Sequences of index-building calls -/

/-- One call of a member function that builds the index. `append` carries the
`BodyOffset` of the partition next to the arguments of `AppendChunk`. -/
inductive ChunkOp where
  | append (body_offset partition_id : Nat) (file_position : Int) (klv_llen klv_len : Nat)
  | update (file_position : Int) (is_end : Bool)
  deriving DecidableEq, Repr

/-- The object after one call; an `AppendChunk` that throws leaves it as it
was. -/
def applyOp (h : EssenceChunkHelper) : ChunkOp → EssenceChunkHelper
  | .append body_offset partition_id file_position klv_llen klv_len =>
    match h.AppendChunk body_offset partition_id file_position klv_llen klv_len with
    | .ok h1 => h1
    | .error _ => h
  | .update file_position is_end => h.UpdateLastChunk file_position is_end

/-- The object after a sequence of calls, first call first. -/
def runOps (h : EssenceChunkHelper) : List ChunkOp → EssenceChunkHelper
  | [] => h
  | op :: ops => runOps (h.applyOp op) ops

/-- Every `AppendChunk` of the sequence is made when the index is empty or
its last chunk is complete (the previous chunk has been closed). -/
def AppendsAfterClose (h : EssenceChunkHelper) : List ChunkOp → Bool
  | [] => true
  | .append bo pid fp llen len :: ops =>
    (h.mEssenceChunks.isEmpty || h.back.is_complete) &&
      AppendsAfterClose (h.applyOp (.append bo pid fp llen len)) ops
  | .update fp e :: ops => AppendsAfterClose (h.applyOp (.update fp e)) ops

/-! ## Well-formed indexes -/

/-- The chunks are contiguous in essence offset: the first chunk starts at
offset 0, every later chunk starts where the previous one ends, and sizes are
byte counts (not negative). -/
def Contiguous (h : EssenceChunkHelper) : Prop :=
  (h.chunk 0).essence_offset = 0 ∧
  (∀ k, k < h.mEssenceChunks.length - 1 →
    (h.chunk (k + 1)).essence_offset = (h.chunk k).essence_offset + (h.chunk k).size) ∧
  (∀ k, k < h.mEssenceChunks.length → 0 ≤ (h.chunk k).size)

instance (h : EssenceChunkHelper) : Decidable (Contiguous h) := by
  unfold Contiguous; infer_instance

/-- Chunk `c` covers the essence offset inclusively. -/
def Covers (c : EssenceChunk) (essence_offset : Int) : Prop :=
  c.essence_offset ≤ essence_offset ∧ essence_offset ≤ c.essence_offset + c.size

instance (c : EssenceChunk) (o : Int) : Decidable (Covers c o) := by
  unfold Covers; infer_instance

/-- Chunk `b` starts at the 64-bit value of the end of chunk `a`; this is the
essence offset `AppendChunk` gives a chunk appended after `a`. -/
def Follows (a b : EssenceChunk) : Prop :=
  b.essence_offset = wrapInt64 (a.essence_offset + a.size)

end EssenceChunkHelper

/-! ## Read window of the essence reader -/

namespace EssenceReader

/-- The read window kept by `EssenceReader`. -/
structure ReadLimits where
  mReadStartPosition : Int
  mReadDuration : Int
  deriving DecidableEq, Repr

/-- The function `EssenceReader::LegitimisePosition`; `index_duration` is
`mIndexTableHelper.GetDuration()`. -/
def LegitimisePosition (index_duration : Int) (position : Int) : Int :=
  if position < 0 ∨ index_duration = 0 then 0
  else if position ≥ index_duration then index_duration - 1
  else position

/-- The function `EssenceReader::SetReadLimits`; `index_complete` is
`mIndexTableHelper.IsComplete()` and `index_duration` is
`mIndexTableHelper.GetDuration()`. The sum `start_position + duration - 1` is a
64-bit sum. -/
def SetReadLimits (index_complete : Bool) (index_duration : Int)
    (start_position : Int) (duration : Int) : ReadLimits :=
  if index_complete then
    { mReadStartPosition := LegitimisePosition index_duration start_position
      mReadDuration :=
        if duration ≤ 0 ∨ index_duration = 0 then 0
        else LegitimisePosition index_duration (wrapInt64 (start_position + duration - 1)) -
          LegitimisePosition index_duration start_position + 1 }
  else
    { mReadStartPosition := if start_position < 0 then 0 else start_position
      mReadDuration := if duration < 0 then 0 else duration }

/-- The clamp of the specification of `set_read_limits`: 0 for a negative
position or an empty index table, `D - 1` for a position at or past the
duration `D`, the position itself otherwise. -/
def clamp (D : Int) (x : Int) : Int :=
  if x < 0 ∨ D = 0 then 0 else if x ≥ D then D - 1 else x

/-- Conversion of an integer value to `uint32_t` (reduction modulo 2^32). -/
def toUInt32 (x : Int) : Int := x % 4294967296

/-- The part of the `EssenceReader` object that `Read` and `Seek` use to
place a read: the read window and the current edit-unit position. -/
structure ReadState where
  mReadStartPosition : Int
  mReadDuration : Int
  mPosition : Int
  deriving DecidableEq, Repr

/-- What a call of `Read` determines about the samples it materialises: the
returned sample count `read_num_samples`, the position `start_position` at
which reading starts (the `ec_position` given to the frames of a frame-wrapped
read), the `first_sample_offset` written to every pushed frame, and the
object after the call. -/
structure ReadResult where
  read_num_samples : Int
  start_position : Int
  first_sample_offset : Int
  state : ReadState
  deriving DecidableEq, Repr

/-- The function `EssenceReader::Seek`, as far as the position is concerned:
it stores the position; the call of `SeekEssence` moves the file cursor only. -/
def Seek (s : ReadState) (position : Int) : ReadState :=
  { s with mPosition := position }

/-- The function `EssenceReader::Read` on a call that returns normally or
fails its `BMX_ASSERT`: the file accesses of `SeekEssence`,
`ReadClipWrappedSamples` and `ReadFrameWrappedSamples` are taken to succeed,
and these two advance `mPosition` by the number of samples asked of them.
`num_samples`, `first_sample_offset` and `read_num_samples` are `uint32_t`;
the window end `mReadStartPosition + mReadDuration` and the sum
`mPosition + num_samples` of the third skip test are 64-bit sums. When the
read is not skipped the sums behind the test are representable for a 64-bit
position, and the positions given to `Seek` are taken exactly. -/
def Read (s : ReadState) (num_samples : Nat) : Except BMXException ReadResult :=
  let window_end := wrapInt64 (s.mReadStartPosition + s.mReadDuration)
  if s.mReadDuration = 0 ∨ s.mPosition ≥ window_end ∨
      wrapInt64 (s.mPosition + (num_samples : Int)) ≤ 0 then
    .ok { read_num_samples := 0
          start_position := s.mPosition
          first_sample_offset := 0
          state := Seek s (s.mPosition + (num_samples : Int)) }
  else
    let first_sample_offset := if s.mPosition < 0 then toUInt32 (-s.mPosition) else 0
    let read_num_1 :=
      if s.mPosition < 0 then toUInt32 ((num_samples : Int) - first_sample_offset)
      else (num_samples : Int)
    let s1 := if s.mPosition < 0 then Seek s 0 else s
    let read_num_samples :=
      if s1.mPosition + read_num_1 > window_end then
        toUInt32 (read_num_1 - toUInt32 (s1.mPosition + read_num_1 - window_end))
      else read_num_1
    if read_num_samples > 0 then
      let s2 : ReadState := { s1 with mPosition := s1.mPosition + read_num_samples }
      let s3 :=
        if read_num_samples < (num_samples : Int) then
          Seek s2 (s2.mPosition + ((num_samples : Int) - read_num_samples))
        else s2
      .ok { read_num_samples := read_num_samples
            start_position := s1.mPosition
            first_sample_offset := first_sample_offset
            state := s3 }
    else .error .checkFailed

/-- The object after a sequence of `Read` calls that all return normally, or
`none` when one of them does not. -/
def readAll (s : ReadState) : List Nat → Option ReadState
  | [] => some s
  | n :: ns =>
    match Read s n with
    | .ok r => readAll r.state ns
    | .error _ => none

/-- The read-window part of a freshly constructed reader: position 0, read
start 0 and the given read duration (the duration of a complete index table,
or `INT64_MAX`). -/
def fresh (read_duration : Int) : ReadState :=
  { mReadStartPosition := 0, mReadDuration := read_duration, mPosition := 0 }

/-- The number of edit-unit positions of `[p, p + n)` that lie inside the
window `[read_start, read_start + read_duration)`. -/
def inWindowCount (read_start read_duration p : Int) (n : Nat) : Int :=
  max 0 (min (p + (n : Int)) (read_start + read_duration) - max p read_start)

/-- The `while` loop of `EssenceReader::GetEditUnitGroup`. `getEditUnit` is
`EssenceReader::GetEditUnit` (file position and size of an edit unit, or the
exception of the index table or the chunk index), `E` is
`mIndexTableHelper.GetEditUnitSize()`. The counters `left_num_samples`,
`right_num_samples` and `last_num_samples` are `uint32_t`, so the sums and
`right_num_samples - 1` are reduced modulo 2^32; the product with `E` and the
sums of file positions are 64-bit values, taken exactly. The first argument
bounds the number of iterations; `none` reports that it ran out. -/
def editUnitGroupLoop (getEditUnit : Int → Except BMXException (Int × Int))
    (E first_file_position position : Int) :
    Nat → Int → Int → Int → Except BMXException (Option Int)
  | 0, _, _, _ => .ok none
  | fuel + 1, left, right, last =>
    if right ≠ left then
      match getEditUnit (position + right - 1) with
      | .error e => .error e
      | .ok (right_file_position, right_size) =>
        if right_size ≠ E then .error .checkFailed
        else if right_file_position > first_file_position + E * toUInt32 (right - 1) then
          editUnitGroupLoop getEditUnit E first_file_position position fuel
            left (toUInt32 (left + right) / 2) right
        else if right_file_position ≠ first_file_position + E * toUInt32 (right - 1) then
          .error .checkFailed
        else
          editUnitGroupLoop getEditUnit E first_file_position position fuel
            right (toUInt32 (right + last + 1) / 2) last
    else .ok (some left)

/-- The function `EssenceReader::GetEditUnitGroup`: the values written to
`*file_position`, `*size` and `*num_samples`. `haveConstantEditUnitSize` is
`mIndexTableHelper.HaveConstantEditUnitSize()`. The first argument bounds the
number of iterations of the loop; `none` reports that it ran out. -/
def GetEditUnitGroup (fuel : Nat) (haveConstantEditUnitSize : Bool)
    (getEditUnit : Int → Except BMXException (Int × Int)) (E : Int)
    (position : Int) (max_samples : Nat) :
    Except BMXException (Option (Int × Int × Int)) :=
  if ¬ (max_samples > 0) then .error .checkFailed
  else if !haveConstantEditUnitSize || max_samples == 1 then
    match getEditUnit position with
    | .error e => .error e
    | .ok (file_position, size) => .ok (some (file_position, size, 1))
  else
    match getEditUnit position with
    | .error e => .error e
    | .ok (first_file_position, first_size) =>
      match editUnitGroupLoop getEditUnit E first_file_position position fuel
          1 (max_samples : Int) (max_samples : Int) with
      | .error e => .error e
      | .ok none => .ok none
      | .ok (some left) => .ok (some (first_file_position, first_size * left, left))

/-- Edit units of constant size `E` stored without a gap from file position
`start`: edit unit `q` is at `start + E * q`. -/
def contiguousUnits (start E : Int) (q : Int) : Except BMXException (Int × Int) :=
  .ok (start + E * q, E)

/-- Edit units of constant size `E` stored from file position `start` with a
gap of `gap` bytes before edit unit `cut`. -/
def unitsWithGap (start E cut gap : Int) (q : Int) : Except BMXException (Int × Int) :=
  .ok (if q < cut then start + E * q else start + E * q + gap, E)

/-- Edit units of constant size `E` stored without a gap from file position
`start` in an index table of `duration` edit units: a lookup outside
`[0, duration)` throws. -/
def indexedUnits (start E duration : Int) (q : Int) : Except BMXException (Int × Int) :=
  if 0 ≤ q ∧ q < duration then .ok (start + E * q, E) else .error .notFound

/-- Lookups that are all answered "contiguous": the edit unit at distance `d`
from `position` is reported at `start + E * d`, with the distance taken as a
32-bit unsigned value. -/
def wrappedUnits (start E position : Int) (q : Int) : Except BMXException (Int × Int) :=
  .ok (start + E * toUInt32 (q - position), E)

/-! ### Keys, partitions and the KLV source -/

/-- Modelled from the spec: the KLV keys as the key predicates of libMXF,
which are not part of the sources at hand, classify them (`is_partition_pack`,
`is_footer_partition_pack`, `is_header_metadata`, `is_index_table_segment`,
`is_gc_essence_element` / `avid_is_essence_element` with `get_track_number`,
the constants `null_key` and `random_index_pack_key`). Two keys are equal when
they are the same value; `item` tells apart keys of one class. -/
inductive Key where
  | null
  | partitionPack (footer : Bool) (item : Nat)
  | headerMetadata (item : Nat)
  | indexTableSegment (item : Nat)
  | essenceElement (track_number : Nat) (item : Nat)
  | randomIndexPack
  | other (item : Nat)
  deriving DecidableEq, Repr

namespace Key

/-- Modelled from the spec: the predicate `mxf_is_partition_pack`. -/
def isPartitionPack : Key → Bool
  | .partitionPack _ _ => true
  | _ => false

/-- Modelled from the spec: the predicate `mxf_is_footer_partition_pack`. -/
def isFooterPartitionPack : Key → Bool
  | .partitionPack footer _ => footer
  | _ => false

/-- Modelled from the spec: the predicate `mxf_is_header_metadata`. -/
def isHeaderMetadata : Key → Bool
  | .headerMetadata _ => true
  | _ => false

/-- Modelled from the spec: the predicate `mxf_is_index_table_segment`. -/
def isIndexTableSegment : Key → Bool
  | .indexTableSegment _ => true
  | _ => false

/-- Modelled from the spec: the test
`mxf_is_gc_essence_element(&key) || mxf_avid_is_essence_element(&key)`. -/
def isEssenceElement : Key → Bool
  | .essenceElement _ _ => true
  | _ => false

/-- Modelled from the spec: the function `mxf_get_track_number`. -/
def trackNumber : Key → Nat
  | .essenceElement track_number _ => track_number
  | _ => 0

end Key

/-- A KL as `readKL` returns it: key, length of the length field, length of
the value. -/
structure KL where
  key : Key
  llen : Nat
  len : Nat
  deriving DecidableEq, Repr

/-- The properties of a partition pack that the reader uses. -/
structure Partition where
  thisPartition : Nat
  bodySID : Nat
  indexSID : Nat
  headerByteCount : Nat
  indexByteCount : Nat
  bodyOffset : Nat
  isFooter : Bool
  deriving DecidableEq, Repr

instance : Inhabited Partition := ⟨⟨0, 0, 0, 0, 0, 0, false⟩⟩

/-- The failures of the essence reader: the exceptions raised by the KLV source
and the parsers it calls, failed `BMX_ASSERT` / `BMX_CHECK`s, and the
`BMX_EXCEPTION`s of the reader. -/
inductive ReaderError where
  | source
  | assertFailed
  | checkFailed
  | startKeyMismatch
  | ripBeforeFooter
  | indexMismatch
  | chunkIndex (e : BMXException)
  deriving DecidableEq, Repr

/-- The collaborators of the essence reader that are outside the sources at
hand, as functions of the file cursor: the KLV source (`readKL`,
`readNextNonFillerKL`, which return the KL at the cursor and leave the cursor
behind it; `readNextPartition`, which parses the partition pack whose KL has
been read and returns it with the cursor behind the pack), the index table
segment parser (it returns the duration of the index table and the cursor
behind the segment), the handling of the value of an essence KLV by the frame
metadata reader and the frame buffers, the track readers, and the constants
of the file reader. -/
structure Env where
  readKL : Int → Except ReaderError (KL × Int)
  readNextNonFillerKL : Int → Except ReaderError (KL × Int)
  readNextPartition : Int → Key → Nat → Except ReaderError (Partition × Int)
  readIndexTableSegment : Int → Nat → Except ReaderError (Int × Int)
  processValue : Int → KL → Except ReaderError Unit
  haveTrackReader : Nat → Bool
  isFrameWrapped : Bool
  isClipWrapped : Bool
  mBodySID : Nat
  mIndexSID : Nat

/-- The members of `EssenceReader` that the KL walker reads and writes, with
the file cursor `mFile->tell()`, the partition list of the file and the state
of the index table helper that the walker uses. -/
structure Reader where
  cursor : Int
  partitions : List Partition
  mNextKey : Key
  mNextLLen : Nat
  mNextLen : Nat
  mAtCPStart : Bool
  mEssenceStartKey : Key
  mBasePosition : Int
  mFilePosition : Int
  mLastKnownBasePosition : Int
  mLastKnownFilePosition : Int
  mPreviousPartitionId : Nat
  mPreviousFilePosition : Int
  mHaveFooter : Bool
  mFileIsComplete : Bool
  mEssenceChunkHelper : EssenceChunkHelper
  indexIsComplete : Bool
  indexDuration : Int
  indexEssenceDataSize : Int
  mReadStartPosition : Int
  mReadDuration : Int

namespace Reader

/-- The function `EssenceReader::SetNextKL`. -/
def SetNextKL (r : Reader) (key : Key) (llen len : Nat) : Reader :=
  { r with mNextKey := key, mNextLLen := llen, mNextLen := len }

/-- The function `EssenceReader::ResetNextKL`. -/
def ResetNextKL (r : Reader) : Reader :=
  r.SetNextKL .null 0 0

/-- The function `EssenceReader::ResetState`. -/
def ResetState (r : Reader) : Reader :=
  { r.ResetNextKL with mAtCPStart := false }

/-- The function `EssenceReader::SetHaveFooter`. -/
def SetHaveFooter (r : Reader) : Reader :=
  { r with
    mHaveFooter := true
    mEssenceChunkHelper := { r.mEssenceChunkHelper with mIsComplete := true }
    indexEssenceDataSize := r.mEssenceChunkHelper.GetEssenceDataSize }

/-- The function `EssenceReader::SetFileIsComplete`. -/
def SetFileIsComplete (r : Reader) : Reader :=
  let r1 := if !r.mHaveFooter then r.SetHaveFooter else r
  let limits := SetReadLimits true r1.indexDuration r1.mReadStartPosition r1.mReadDuration
  { r1 with
    mFileIsComplete := true
    indexIsComplete := true
    mReadStartPosition := limits.mReadStartPosition
    mReadDuration := limits.mReadDuration }

/-- The function `EssenceReader::SetContentPackageStart`: the result and the
object after the call. A negative `file_position_in` stands for the file
cursor. When the `BMX_ASSERT` fails the two positions have been written. -/
def SetContentPackageStart (env : Env) (r : Reader) (base_position file_position_in : Int)
    (pos_at_key : Bool) : Except ReaderError Unit × Reader :=
  let fp0 := if file_position_in < 0 then r.cursor else file_position_in
  if env.isFrameWrapped && !pos_at_key && r.mNextLLen == 0 then
    (.error .assertFailed, { r with mBasePosition := base_position, mFilePosition := fp0 })
  else
    let fp :=
      if env.isFrameWrapped && !pos_at_key then fp0 - (mxfKey_extlen + (r.mNextLLen : Int))
      else fp0
    let r1 : Reader := { r with mBasePosition := base_position, mFilePosition := fp }
    let r2 : Reader :=
      if base_position > r.mLastKnownBasePosition then
        { r1 with
          mLastKnownBasePosition := base_position
          mLastKnownFilePosition := fp
          mEssenceChunkHelper :=
            if !r.mEssenceChunkHelper.mIsComplete then
              r.mEssenceChunkHelper.UpdateLastChunk fp false
            else r.mEssenceChunkHelper }
      else r1
    let r3 := if pos_at_key then r2.ResetNextKL else r2
    (.ok (), { r3 with mAtCPStart := true })

/-- The loop of `EssenceReader::GetPartitionId`,
`for (i = mPreviousPartitionId; i < partitions.size(); i++)`: the value of `i`
after the loop; the first argument counts the iterations left. -/
def partitionScan (partitions : List Partition) (file_position : Int) : Nat → Nat → Nat
  | 0, i => i
  | n + 1, i =>
    if ((partitions.getD i default).thisPartition : Int) > toUInt64 file_position then i
    else partitionScan partitions file_position n (i + 1)

/-- The function `EssenceReader::GetPartitionId`: the result and the object
after the call. -/
def GetPartitionId (r : Reader) (file_position : Int) : Nat × Reader :=
  let r1 : Reader :=
    if file_position < r.mPreviousFilePosition then
      { r with mPreviousPartitionId := 0, mPreviousFilePosition := 0 }
    else r
  let i := partitionScan r1.partitions file_position
    (r1.partitions.length - r1.mPreviousPartitionId) r1.mPreviousPartitionId
  let i := if i > 0 then i - 1 else i
  (i, { r1 with mPreviousFilePosition := file_position, mPreviousPartitionId := i })

/-- The function `EssenceReader::ReadNextPartition`: the result and the object
after the call. -/
def ReadNextPartition (env : Env) (r : Reader) (key : Key) (llen len : Nat) :
    Except ReaderError Unit × Reader :=
  let partition_pos := r.cursor - mxfKey_extlen - (llen : Int)
  if ¬ (partition_pos ≥ 0 ∧
      ((r.partitions.getD (r.partitions.length - 1) default).thisPartition : Int) <
        toUInt64 partition_pos) then
    (.error .assertFailed, r)
  else
    match env.readNextPartition r.cursor key len with
    | .error e => (.error e, r)
    | .ok (parsed, cursor) =>
      let partition : Partition :=
        if (parsed.thisPartition : Int) ≠ toUInt64 partition_pos then
          { parsed with thisPartition := partition_pos.toNat }
        else parsed
      let r1 : Reader := { r with cursor := cursor, partitions := r.partitions ++ [partition] }
      if !r1.mHaveFooter && partition.isFooter then
        let r2 := r1.SetHaveFooter
        if partition.indexByteCount == 0 then (.ok (), r2.SetFileIsComplete)
        else (.ok (), r2)
      else (.ok (), r1)

/-- The call `mFile->skip(n)`. -/
def skip (r : Reader) (n : Int) : Reader :=
  { r with cursor := r.cursor + n }

/-- The `while (true)` loop of `EssenceReader::SeekContentPackageStart` with
the locals `have_start_key` and `partition_id`: the result and the object
after the loop. The first argument bounds the number of iterations; `none`
reports that it ran out. -/
def seekLoop (env : Env) (have_start_key : Bool) :
    Nat → Reader → Nat → Option (Except ReaderError Unit × Reader)
  | 0, _, _ => none
  | fuel + 1, r0, partition_id =>
    match env.readNextNonFillerKL r0.cursor with
    | .error e => some (.error e, r0)
    | .ok (kl, cursor) =>
      let r : Reader := { r0 with cursor := cursor }
      let partition := r.partitions.getD partition_id default
      if kl.key.isPartitionPack then
        if r.mFileIsComplete then
          let r1 := r.skip kl.len
          seekLoop env have_start_key fuel (GetPartitionId r1 r1.cursor).2
            (GetPartitionId r1 r1.cursor).1
        else
          let r1 : Reader :=
            if partition.bodySID == env.mBodySID then
              { r with mEssenceChunkHelper :=
                  (r.mEssenceChunkHelper.UpdateLastChunk
                    (r.cursor - mxfKey_extlen - (kl.llen : Int)) true) }
            else r
          match ReadNextPartition env r1 kl.key kl.llen kl.len with
          | (.error e, r2) => some (.error e, r2)
          | (.ok _, r2) => seekLoop env have_start_key fuel r2 (partition_id + 1)
      else if kl.key.isHeaderMetadata then
        if (partition.headerByteCount : Int) > mxfKey_extlen + (kl.llen : Int) + (kl.len : Int) then
          seekLoop env have_start_key fuel
            (r.skip ((partition.headerByteCount : Int) - mxfKey_extlen - (kl.llen : Int)))
            partition_id
        else seekLoop env have_start_key fuel (r.skip kl.len) partition_id
      else if kl.key.isIndexTableSegment then
        if !r.indexIsComplete && partition.indexSID == env.mIndexSID then
          match env.readIndexTableSegment r.cursor kl.len with
          | .error e => some (.error e, r)
          | .ok (duration, cursor1) =>
            seekLoop env have_start_key fuel
              { r with cursor := cursor1, indexDuration := duration } partition_id
        else if (partition.indexByteCount : Int) >
            mxfKey_extlen + (kl.llen : Int) + (kl.len : Int) then
          seekLoop env have_start_key fuel
            (r.skip ((partition.indexByteCount : Int) - mxfKey_extlen - (kl.llen : Int)))
            partition_id
        else seekLoop env have_start_key fuel (r.skip kl.len) partition_id
      else if partition.bodySID == env.mBodySID &&
          ((have_start_key && kl.key == r.mEssenceStartKey) ||
           (!have_start_key && kl.key.isEssenceElement)) then
        if env.isClipWrapped && !env.haveTrackReader kl.key.trackNumber then
          seekLoop env have_start_key fuel (r.skip kl.len) partition_id
        else
          let append : Bool :=
            if env.isClipWrapped then !r.mEssenceChunkHelper.mIsComplete
            else !r.mEssenceChunkHelper.mIsComplete &&
              decide (r.mEssenceChunkHelper.mNumIndexedPartitions < r.partitions.length)
          let appended : Except BMXException EssenceChunkHelper :=
            if append then
              r.mEssenceChunkHelper.AppendChunk partition.bodyOffset partition_id r.cursor
                kl.llen kl.len
            else .ok r.mEssenceChunkHelper
          match appended with
          | .error e => some (.error (.chunkIndex e), r)
          | .ok helper =>
            let r1 : Reader := { r with mEssenceChunkHelper := helper }
            let r2 : Reader :=
              if !have_start_key then { r1 with mEssenceStartKey := kl.key } else r1
            some (.ok (), r2.SetNextKL kl.key kl.llen kl.len)
      else if !r.mFileIsComplete && kl.key == Key.randomIndexPack then
        if !r.mHaveFooter then some (.error .ripBeforeFooter, r)
        else seekLoop env have_start_key fuel (r.SetFileIsComplete.skip kl.len) partition_id
      else seekLoop env have_start_key fuel (r.skip kl.len) partition_id

/-- The function `EssenceReader::SeekContentPackageStart`: the result and the
object after the call, or `none` when the bound on the iterations of its loop
ran out. -/
def SeekContentPackageStart (env : Env) (fuel : Nat) (r : Reader) :
    Option (Except ReaderError Unit × Reader) :=
  let have_start_key : Bool := r.mEssenceStartKey != Key.null
  let first : Except ReaderError Unit × Reader :=
    if r.mNextKey.isPartitionPack then
      if r.mFileIsComplete then (.ok (), r.skip r.mNextLen)
      else ReadNextPartition env r r.mNextKey r.mNextLLen r.mNextLen
    else (.ok (), r)
  match first with
  | (.error e, r1) => some (.error e, r1)
  | (.ok _, r1) =>
    let r2 := r1.ResetNextKL
    if r2.mFileIsComplete then
      seekLoop env have_start_key fuel (GetPartitionId r2 r2.cursor).2
        (GetPartitionId r2 r2.cursor).1
    else seekLoop env have_start_key fuel r2 (r2.partitions.length - 1)

/-- The function `EssenceReader::ReadFirstEssenceKL`: the KL written to the
output arguments (or the exception, after `ResetState`) and the object after
the call; `none` when the bound on the iterations of
`SeekContentPackageStart` ran out. -/
def ReadFirstEssenceKL (env : Env) (fuel : Nat) (r : Reader) :
    Option (Except ReaderError KL × Reader) :=
  if !r.mAtCPStart then
    match SeekContentPackageStart env fuel r with
    | none => none
    | some (.error e, r1) => some (.error e, r1.ResetState)
    | some (.ok _, r1) =>
      match SetContentPackageStart env r1 (r1.mBasePosition + 1) (-1) false with
      | (.error e, r2) => some (.error e, r2.ResetState)
      | (.ok _, r2) => some (.ok ⟨r2.mNextKey, r2.mNextLLen, r2.mNextLen⟩, r2)
  else if r.mNextKey == Key.null then
    match env.readKL r.cursor with
    | .error e => some (.error e, r.ResetState)
    | .ok (kl, cursor) =>
      let r1 : Reader := { (r.SetNextKL kl.key kl.llen kl.len) with cursor := cursor }
      if r1.mEssenceStartKey == Key.null then
        let r2 : Reader := { r1 with mEssenceStartKey := r1.mNextKey }
        some (.ok ⟨r2.mNextKey, r2.mNextLLen, r2.mNextLen⟩, r2)
      else if r1.mNextKey != r1.mEssenceStartKey then
        some (.error .startKeyMismatch, r1.ResetState)
      else some (.ok ⟨r1.mNextKey, r1.mNextLLen, r1.mNextLen⟩, r1)
  else some (.ok ⟨r.mNextKey, r.mNextLLen, r.mNextLen⟩, r)

/-- The function `EssenceReader::ReadNonfirstEssenceKL`: `some` KL when it
returns true, `none` when it returns false (the KL belongs to the next content
package or a partition has started), or the exception after `ResetState`; and
the object after the call. -/
def ReadNonfirstEssenceKL (env : Env) (r : Reader) :
    Except ReaderError (Option KL) × Reader :=
  if ¬ (r.mNextKey = Key.null ∧ r.mAtCPStart = false) then
    (.error .assertFailed, r.ResetState)
  else
    match env.readKL r.cursor with
    | .error e => (.error e, r.ResetState)
    | .ok (kl, cursor) =>
      let r1 : Reader := { r with cursor := cursor }
      if kl.key == r1.mEssenceStartKey then
        match SetContentPackageStart env (r1.SetNextKL kl.key kl.llen kl.len)
            (r1.mBasePosition + 1) (-1) false with
        | (.error e, r2) => (.error e, r2.ResetState)
        | (.ok _, r2) => (.ok none, r2)
      else if kl.key.isPartitionPack then
        let r2 : Reader :=
          { r1 with mEssenceChunkHelper :=
              (r1.mEssenceChunkHelper.UpdateLastChunk
                (r1.cursor - mxfKey_extlen - (kl.llen : Int)) true) }
        let r3 := if !r2.mHaveFooter && kl.key.isFooterPartitionPack then r2.SetHaveFooter else r2
        (.ok none, r3.SetNextKL kl.key kl.llen kl.len)
      else (.ok (some kl), r1)

/-- The function `EssenceReader::ReadEssenceKL`. -/
def ReadEssenceKL (env : Env) (fuel : Nat) (r : Reader) (first_element : Bool) :
    Option (Except ReaderError (Option KL) × Reader) :=
  if first_element then
    match ReadFirstEssenceKL env fuel r with
    | none => none
    | some (.error e, r1) => some (.error e, r1)
    | some (.ok kl, r1) => some (.ok (some kl), r1.ResetState)
  else some (ReadNonfirstEssenceKL env r)

/-- The number of bytes of a KLV: 16 bytes of key, the length field and the
value. -/
def klvBytes (kl : KL) : Int :=
  mxfKey_extlen + (kl.llen : Int) + (kl.len : Int)

/-- The `while` loop of `EssenceReader::ReadFrameWrappedSamples` that reads
the KLVs of one content package, from the value `cp_num_read` of its counter:
the KLs for which `ReadEssenceKL` returned true, in the order read, and the
final `cp_num_read` (or the exception), and the object after the loop.
`size` is the size of the edit unit taken from the index table, 0 when the
index table does not have it. `env.processValue` stands for the handling of
the value; it leaves the cursor behind the value. The second argument bounds
the iterations of `SeekContentPackageStart`, the fourth those of this loop;
`none` reports that one of them ran out. -/
def contentPackageLoop (env : Env) (fuel : Nat) (size : Int) :
    Nat → Reader → List KL → Int → Option (Except ReaderError (List KL × Int) × Reader)
  | 0, _, _, _ => none
  | n + 1, r, consumed, cp_num_read =>
    if size = 0 ∨ cp_num_read < size then
      match ReadEssenceKL env fuel r (cp_num_read == 0) with
      | none => none
      | some (.error e, r1) => some (.error e, r1)
      | some (.ok none, r1) => some (.ok (consumed, cp_num_read), r1)
      | some (.ok (some kl), r1) =>
        match env.processValue r1.cursor kl with
        | .error e => some (.error e, r1)
        | .ok _ =>
          contentPackageLoop env fuel size n (r1.skip kl.len) (consumed ++ [kl])
            (cp_num_read + (mxfKey_extlen + (kl.llen : Int)) + (kl.len : Int))
    else some (.ok (consumed, cp_num_read), r)

/-- The reading of one content package in
`EssenceReader::ReadFrameWrappedSamples`: the `while` loop from
`cp_num_read = 0` and the check of `cp_num_read` against `size` that follows
it. The result is the list of the KLs consumed, or the exception. -/
def readContentPackage (env : Env) (fuel n : Nat) (size : Int) (r : Reader) :
    Option (Except ReaderError (List KL) × Reader) :=
  match contentPackageLoop env fuel size n r [] 0 with
  | none => none
  | some (.error e, r1) => some (.error e, r1)
  | some (.ok (consumed, cp_num_read), r1) =>
    if size ≠ 0 ∧ cp_num_read ≠ size then some (.error .indexMismatch, r1)
    else some (.ok consumed, r1)

/-- The calls that change the look-ahead KL, `mAtCPStart` or
`mEssenceStartKey`, as they occur in `SeekEssence`, `Read`, `Seek`,
`ReadFrameWrappedSamples` and `ReadClipWrappedSamples`: the three KL
functions, `ReadEssenceKL`, `ResetState`, a seek to an indexed content package
(`mFile->seek(file_position)` followed by
`SetContentPackageStart(base_position, file_position, true)`), the search of
the first content package (`SeekContentPackageStart()` followed by
`SetContentPackageStart(0, -1, false)`, with the `ResetState` of the handler
when one of them throws), and a move of the file cursor (`seek`, `skip`,
`read`). -/
inductive Op where
  | readFirstEssenceKL
  | readNonfirstEssenceKL
  | readEssenceKL (first_element : Bool)
  | seekContentPackageStart
  | resetState
  | seekIndexed (base_position file_position : Int)
  | seekFirst
  | moveCursor (position : Int)
  deriving DecidableEq, Repr

/-- The object after one of the calls of `Op`, whether it returned or threw;
`none` when a bound on iterations ran out. -/
def runOp (env : Env) (fuel : Nat) (r : Reader) : Op → Option Reader
  | .readFirstEssenceKL => (ReadFirstEssenceKL env fuel r).map (·.2)
  | .readNonfirstEssenceKL => some (ReadNonfirstEssenceKL env r).2
  | .readEssenceKL first_element => (ReadEssenceKL env fuel r first_element).map (·.2)
  | .seekContentPackageStart => (SeekContentPackageStart env fuel r).map (·.2)
  | .resetState => some r.ResetState
  | .seekIndexed base_position file_position =>
    some (SetContentPackageStart env { r with cursor := file_position }
      base_position file_position true).2
  | .seekFirst =>
    match SeekContentPackageStart env fuel r with
    | none => none
    | some (.error _, r1) => some r1.ResetState
    | some (.ok _, r1) =>
      match SetContentPackageStart env r1 0 (-1) false with
      | (.error _, r2) => some r2.ResetState
      | (.ok _, r2) => some r2
  | .moveCursor position => some { r with cursor := position }

/-- The object after a sequence of calls, first call first. -/
def runOps (env : Env) (fuel : Nat) (r : Reader) : List Op → Option Reader
  | [] => some r
  | op :: ops =>
    match runOp env fuel r op with
    | none => none
    | some r1 => runOps env fuel r1 ops

/-- The look-ahead KL of a reader that is at a content-package start is
either empty or the KL of the essence start key. -/
def LookAheadInv (r : Reader) : Prop :=
  r.mAtCPStart = true → r.mNextKey ≠ Key.null → r.mNextKey = r.mEssenceStartKey

end Reader

/-- The index table helper `mIndexTableHelper`, which is outside the sources
at hand, as the essence reader uses it to place edit units:
`HaveEditUnitOffset`, `GetEditUnitOffset`, and `UpdateIndex` (which may
throw). -/
structure IndexTable where
  haveEditUnitOffset : Int → Bool
  getEditUnitOffset : Int → Int
  updateIndex : Int → Int → Int → Except ReaderError Unit

/-- The function `EssenceReader::GetIndexedFilePosition`: the file position
of the edit unit, or -1, or the exception of the chunk index; and the chunk
index after the call. -/
def GetIndexedFilePosition (index : IndexTable) (h : EssenceChunkHelper)
    (base_position : Int) : Except BMXException Int × EssenceChunkHelper :=
  if index.haveEditUnitOffset base_position then
    let ess_offset := index.getEditUnitOffset base_position
    match h.HaveFilePosition ess_offset with
    | (true, h1) => h1.GetFilePosition ess_offset
    | (false, h1) => (.ok (-1), h1)
  else (.ok (-1), h)

namespace Reader

/-- The results of a sequence of `GetPartitionId` calls, first call first,
and the object after them. -/
def getPartitionIds (r : Reader) : List Int → List Nat × Reader
  | [] => ([], r)
  | file_position :: rest =>
    ((GetPartitionId r file_position).1 ::
      (getPartitionIds (GetPartitionId r file_position).2 rest).1,
     (getPartitionIds (GetPartitionId r file_position).2 rest).2)

/-- The partition lookup without the cached hint: `GetPartitionId` with the
scan started at index 0. -/
def partitionIdFromStart (partitions : List Partition) (file_position : Int) : Nat :=
  if partitionScan partitions file_position partitions.length 0 > 0 then
    partitionScan partitions file_position partitions.length 0 - 1
  else partitionScan partitions file_position partitions.length 0

end Reader

/-! ### Frames of a clip-wrapped read -/

/-- Modelled from the spec: the frame record of the frame buffers, which is
outside the sources at hand: an appendable byte buffer (`Grow`,
`GetBytesAvailable`, `IncrementSize`, `IsEmpty`) with the fields the reader
writes. `buffer` holds the allocated bytes; its first `size` bytes are the
payload and `GetBytesAvailable()` points behind them. -/
structure Frame where
  buffer : List Nat
  size : Nat
  num_samples : Int
  ec_position : Int
  temporal_reordering : Bool
  cp_file_position : Int
  file_position : Int
  deriving DecidableEq, Repr

namespace Frame

/-- The payload of the frame: the bytes counted by its size. -/
def payload (f : Frame) : List Nat := f.buffer.take f.size

/-- Modelled from the spec: `Grow(min_size)` makes at least `min_size` bytes
available behind the payload and keeps the bytes present. -/
def Grow (f : Frame) (min_size : Nat) : Frame :=
  { f with buffer := f.buffer ++ List.replicate (f.size + min_size - f.buffer.length) 0 }

/-- Modelled from the spec: `IncrementSize(inc)` adds `inc` to the size of the
payload. -/
def IncrementSize (f : Frame) (inc : Nat) : Frame :=
  { f with size := f.size + inc }

/-- Modelled from the spec: `IsEmpty()` tells whether the payload has no
bytes. -/
def IsEmpty (f : Frame) : Bool := f.size == 0

/-- The effect of `mFile->read(frame->GetBytesAvailable(), n)` on the frame:
the bytes read are stored behind the payload. -/
def writeAvailable (f : Frame) (data : List Nat) : Frame :=
  { f with buffer := f.buffer.take f.size ++ data ++ f.buffer.drop (f.size + data.length) }

/-- The call `memmove(GetBytesAvailable(), GetBytesAvailable() + offset, count)`:
the `count` bytes that start `offset` bytes behind the payload are moved to
the place right behind the payload. Source bytes outside the buffer are not
modelled. -/
def moveAvailable (f : Frame) (offset count : Nat) : Frame :=
  { f with buffer := f.buffer.take f.size ++ (f.buffer.drop (f.size + offset)).take count ++
      f.buffer.drop (f.size + count) }

end Frame

/-- The body of `if (frame) { ... }` in the loop of
`EssenceReader::ReadClipWrappedSamples` for an edit-unit group at
`file_position` of `size` bytes and `num_cont_samples` samples: the frame and
the value of `current_file_position` after it, or the failed `BMX_CHECK`.
`mImageStartOffset` and `mImageEndOffset` are `uint32_t` members (the
constructor computes them in `uint32_t` and prints them with `%u`), so their
sum is a 32-bit sum; `size` is an `int64_t`. `fileRead` gives the bytes that
`mFile->read` delivers at a file position for a requested count, and
`temporal_reordering` is `mIndexTableHelper.GetTemporalReordering(0)`. -/
def readClipWrappedUnit (mImageStartOffset mImageEndOffset : Nat) (temporal_reordering : Bool)
    (fileRead : Int → Nat → List Nat) (mPosition : Int) (frame : Frame)
    (file_position size : Int) (num_cont_samples : Nat) : Except ReaderError (Frame × Int) :=
  if ¬ (size ≥ toUInt32 ((mImageStartOffset : Int) + (mImageEndOffset : Int))) then
    .error .checkFailed
  else if ¬ (size ≤ 4294967295) then .error .checkFailed
  else
    let f1 := frame.Grow (toUInt32 size).toNat
    let data := (fileRead file_position (toUInt32 size).toNat).take (toUInt32 size).toNat
    let f2 := f1.writeAvailable data
    let current_file_position := file_position + (data.length : Int)
    if (data.length : Int) ≠ size then .error .checkFailed
    else
      let size1 := size - (mImageEndOffset : Int)
      let f3 :=
        if mImageStartOffset > 0 then
          f2.moveAvailable mImageStartOffset (toUInt32 (size1 - (mImageStartOffset : Int))).toNat
        else f2
      let size2 := if mImageStartOffset > 0 then size1 - (mImageStartOffset : Int) else size1
      let f4 := f3.IncrementSize (toUInt32 size2).toNat
      let f5 : Frame :=
        { f4 with num_samples := toUInt32 (f4.num_samples + (num_cont_samples : Int)) }
      let f6 : Frame :=
        if f5.IsEmpty then
          { f5 with
            ec_position := mPosition
            temporal_reordering := temporal_reordering
            cp_file_position := current_file_position - (mImageEndOffset : Int) - size2
            file_position := current_file_position - (mImageEndOffset : Int) - size2 }
        else f5
      .ok (f6, current_file_position)

/-- One iteration of the loop of `EssenceReader::ReadClipWrappedSamples` with
`remaining = num_samples - total_num_samples` samples still to read: the
frame, `current_file_position` and the number of samples of the group read
(by which `mPosition` and `total_num_samples` advance), or the exception.
With image padding one edit unit is asked of `GetEditUnitGroup`. Without a
frame the file is positioned behind the group. `none` reports that the bound
on the iterations of `GetEditUnitGroup` ran out. -/
def clipWrappedIteration (mImageStartOffset mImageEndOffset : Nat) (temporal_reordering : Bool)
    (fileRead : Int → Nat → List Nat) (fuel : Nat) (haveConstantEditUnitSize : Bool)
    (getEditUnit : Int → Except BMXException (Int × Int)) (E : Int)
    (mPosition : Int) (frame : Option Frame) (remaining : Nat) :
    Except ReaderError (Option (Option Frame × Int × Int)) :=
  let group :=
    if mImageStartOffset ≠ 0 ∨ mImageEndOffset ≠ 0 then
      GetEditUnitGroup fuel haveConstantEditUnitSize getEditUnit E mPosition 1
    else GetEditUnitGroup fuel haveConstantEditUnitSize getEditUnit E mPosition remaining
  match group with
  | .error e => .error (.chunkIndex e)
  | .ok none => .ok none
  | .ok (some (file_position, size, num_cont_samples)) =>
    match frame with
    | some f =>
      match readClipWrappedUnit mImageStartOffset mImageEndOffset temporal_reordering fileRead
          mPosition f file_position size num_cont_samples.toNat with
      | .error e => .error e
      | .ok (f1, current_file_position) =>
        .ok (some (some f1, current_file_position, num_cont_samples))
    | none => .ok (some (none, file_position + size, num_cont_samples))

/-- The loop `while (total_num_samples < num_samples)` of
`EssenceReader::ReadClipWrappedSamples` from a value of `mPosition`, the frame
and `total_num_samples` (a `uint32_t`): the frame and `mPosition` after the
loop, or the exception. The first numeric argument bounds the iterations;
`none` reports that it, or the bound on the iterations of `GetEditUnitGroup`,
ran out. -/
def clipWrappedLoop (mImageStartOffset mImageEndOffset : Nat) (temporal_reordering : Bool)
    (fileRead : Int → Nat → List Nat) (fuel : Nat) (haveConstantEditUnitSize : Bool)
    (getEditUnit : Int → Except BMXException (Int × Int)) (E : Int) (num_samples : Nat) :
    Nat → Int → Option Frame → Int → Except ReaderError (Option (Option Frame × Int))
  | 0, _, _, _ => .ok none
  | k + 1, mPosition, frame, total_num_samples =>
    if total_num_samples < (num_samples : Int) then
      match clipWrappedIteration mImageStartOffset mImageEndOffset temporal_reordering fileRead
          fuel haveConstantEditUnitSize getEditUnit E mPosition frame
          (toUInt32 ((num_samples : Int) - total_num_samples)).toNat with
      | .error e => .error e
      | .ok none => .ok none
      | .ok (some (frame1, _, num_cont_samples)) =>
        clipWrappedLoop mImageStartOffset mImageEndOffset temporal_reordering fileRead fuel
          haveConstantEditUnitSize getEditUnit E num_samples k (mPosition + num_cont_samples)
          frame1 (toUInt32 (total_num_samples + num_cont_samples))
    else .ok (some (frame, mPosition))

/-- The function `EssenceReader::ReadClipWrappedSamples`: the frame
`mTrackFrames[0]` and `mPosition` after the call, or the exception. `created`
is the frame that `CreateFrame()` returns when the track reader is enabled,
`none` when it is not; the frame buffers are outside the sources at hand, so
the fields of a created frame are whatever `created` holds. The call of
`SeekEssence` at position 0 of an incomplete file moves the file cursor only
and is taken to succeed. `k` bounds the iterations of the loop. -/
def ReadClipWrappedSamples (mImageStartOffset mImageEndOffset : Nat)
    (temporal_reordering : Bool) (fileRead : Int → Nat → List Nat) (fuel : Nat)
    (haveConstantEditUnitSize : Bool) (getEditUnit : Int → Except BMXException (Int × Int))
    (E : Int) (k : Nat) (mPosition : Int) (created : Option Frame) (num_samples : Nat) :
    Except ReaderError (Option (Option Frame × Int)) :=
  clipWrappedLoop mImageStartOffset mImageEndOffset temporal_reordering fileRead fuel
    haveConstantEditUnitSize getEditUnit E num_samples k mPosition created 0

namespace Reader

/-- The inner loop of `EssenceReader::SeekEssence`,
`while (ReadNonfirstEssenceKL(...)) { cp_num_read += ...; mFile->skip(len); }`:
the final `cp_num_read` (or the exception) and the object after the loop.
The first argument bounds the number of iterations; `none` reports that it
ran out. -/
def skipPackageLoop (env : Env) : Nat → Reader → Int → Option (Except ReaderError Int × Reader)
  | 0, _, _ => none
  | n + 1, r, cp_num_read =>
    match ReadNonfirstEssenceKL env r with
    | (.error e, r1) => some (.error e, r1)
    | (.ok none, r1) => some (.ok cp_num_read, r1)
    | (.ok (some kl), r1) =>
      skipPackageLoop env n (r1.skip kl.len)
        (cp_num_read + (mxfKey_extlen + (kl.llen : Int) + (kl.len : Int)))

/-- The loop `while (mBasePosition < base_position)` of
`EssenceReader::SeekEssence`: the result and the object after the loop.
`fuel` bounds the iterations of `SeekContentPackageStart`, `n` those of the
inner loop and the last numeric argument those of this loop; `none` reports
that one of them ran out. -/
def seekWalkLoop (env : Env) (index : IndexTable) (fuel n : Nat) (base_position : Int) :
    Nat → Reader → Option (Except ReaderError Unit × Reader)
  | 0, _ => none
  | m + 1, r =>
    if r.mBasePosition < base_position then
      match ReadFirstEssenceKL env fuel r with
      | none => none
      | some (.error e, r1) => some (.error e, r1)
      | some (.ok kl, r1) =>
        if r1.mBasePosition < base_position then
          match skipPackageLoop env n (r1.skip kl.len).ResetState
              (mxfKey_extlen + (kl.llen : Int) + (kl.len : Int)) with
          | none => none
          | some (.error e, r2) => some (.error e, r2)
          | some (.ok cp_num_read, r2) =>
            match r2.mEssenceChunkHelper.GetEssenceOffset r1.mFilePosition with
            | (.error e, helper) =>
              some (.error (.chunkIndex e), { r2 with mEssenceChunkHelper := helper })
            | (.ok essence_offset, helper) =>
              match index.updateIndex r1.mBasePosition essence_offset cp_num_read with
              | .error e => some (.error e, { r2 with mEssenceChunkHelper := helper })
              | .ok _ =>
                seekWalkLoop env index fuel n base_position m
                  { r2 with mEssenceChunkHelper := helper }
        else seekWalkLoop env index fuel n base_position m r1
    else some (.ok (), r)

/-- The `try` block of `EssenceReader::SeekEssence`: the result and the
object when it returns or throws. -/
def seekEssenceBody (env : Env) (index : IndexTable) (fuel n m : Nat) (r : Reader)
    (base_position : Int) (for_read : Bool) : Option (Except ReaderError Unit × Reader) :=
  if ¬ (base_position ≥ 0) then some (.error .assertFailed, r)
  else if r.mAtCPStart && decide (base_position = r.mBasePosition) then some (.ok (), r)
  else
    match GetIndexedFilePosition index r.mEssenceChunkHelper base_position with
    | (.error e, helper) => some (.error (.chunkIndex e), { r with mEssenceChunkHelper := helper })
    | (.ok file_position, helper) =>
      let r0 : Reader := { r with mEssenceChunkHelper := helper }
      if file_position ≥ 0 then
        some (SetContentPackageStart env { r0 with cursor := file_position }
          base_position file_position true)
      else if ¬ (!r0.mEssenceChunkHelper.mIsComplete || !r0.indexIsComplete) then
        some (.error .assertFailed, r0)
      else if !for_read then some (.ok (), r0)
      else
        let positioned : Option (Except ReaderError Unit × Reader) :=
          if r0.mBasePosition < 0 then
            match SeekContentPackageStart env fuel r0 with
            | none => none
            | some (.error e, r1) => some (.error e, r1)
            | some (.ok _, r1) => some (SetContentPackageStart env r1 0 (-1) false)
          else if r0.mBasePosition < r0.mLastKnownBasePosition then
            if ¬ (r0.mLastKnownBasePosition < base_position) then some (.error .assertFailed, r0)
            else
              some (SetContentPackageStart env { r0 with cursor := r0.mLastKnownFilePosition }
                r0.mLastKnownBasePosition r0.mLastKnownFilePosition true)
          else some (.ok (), r0)
        match positioned with
        | none => none
        | some (.error e, r1) => some (.error e, r1)
        | some (.ok _, r1) => seekWalkLoop env index fuel n base_position m r1

/-- The function `EssenceReader::SeekEssence`: the `try` block and the handler,
which resets the state when the block throws. -/
def SeekEssence (env : Env) (index : IndexTable) (fuel n m : Nat) (r : Reader)
    (base_position : Int) (for_read : Bool) : Option (Except ReaderError Unit × Reader) :=
  match seekEssenceBody env index fuel n m r base_position for_read with
  | none => none
  | some (.error e, r1) => some (.error e, r1.ResetState)
  | some (.ok u, r1) => some (.ok u, r1)

end Reader

namespace Reader

/-- The content-package start and the last-known anchor of the reader:
`mBasePosition`, `mFilePosition`, `mLastKnownBasePosition` and
`mLastKnownFilePosition`. -/
def anchor (r : Reader) : Int × Int × Int × Int :=
  (r.mBasePosition, r.mFilePosition, r.mLastKnownBasePosition, r.mLastKnownFilePosition)

end Reader

end EssenceReader

/-! ## Construction of the chunk index of a complete file -/

namespace EssenceChunkHelper

open EssenceReader

/-- The value of `partition_end` in `CreateEssenceChunkIndex` for partition
`i`: the `ThisPartition` of the next partition (a `uint64_t` stored in an
`int64_t`), or the size of the file for the last partition. -/
def partitionEnd (partitions : List Partition) (fileSize : Int) (i : Nat) : Int :=
  if i + 1 < partitions.length then
    toInt64 ((partitions.getD (i + 1) default).thisPartition : Int)
  else fileSize

/-- The loop `while (!mxf_file->eof())` of
`EssenceChunkHelper::CreateEssenceChunkIndex` for partition `i`, from a file
cursor: the chunk index after the loop, or the exception. `eof` is
`mxf_file->eof()` as a function of the file cursor. The first numeric
argument bounds the iterations; `none` reports that it ran out. -/
def partitionLoop (env : Env) (eof : Int → Bool) (partition : Partition) (i : Nat)
    (partition_end : Int) :
    Nat → Int → EssenceChunkHelper → Option (Except ReaderError EssenceChunkHelper)
  | 0, _, _ => none
  | fuel + 1, cursor, h =>
    if eof cursor then some (.ok h)
    else
      match env.readNextNonFillerKL cursor with
      | .error e => some (.error e)
      | .ok (kl, cursor1) =>
        if kl.key.isPartitionPack then some (.ok h)
        else if kl.key.isHeaderMetadata then
          if (partition.headerByteCount : Int) >
              mxfKey_extlen + (kl.llen : Int) + (kl.len : Int) then
            partitionLoop env eof partition i partition_end fuel
              (cursor1 + ((partition.headerByteCount : Int) - (mxfKey_extlen + (kl.llen : Int))))
              h
          else partitionLoop env eof partition i partition_end fuel (cursor1 + (kl.len : Int)) h
        else if kl.key.isIndexTableSegment then
          if (partition.indexByteCount : Int) >
              mxfKey_extlen + (kl.llen : Int) + (kl.len : Int) then
            partitionLoop env eof partition i partition_end fuel
              (cursor1 + ((partition.indexByteCount : Int) - (mxfKey_extlen + (kl.llen : Int))))
              h
          else partitionLoop env eof partition i partition_end fuel (cursor1 + (kl.len : Int)) h
        else if kl.key.isEssenceElement then
          if env.isClipWrapped && !env.haveTrackReader kl.key.trackNumber then
            partitionLoop env eof partition i partition_end fuel (cursor1 + (kl.len : Int)) h
          else
            match h.AppendChunk partition.bodyOffset i cursor1 kl.llen kl.len with
            | .error e => some (.error (.chunkIndex e))
            | .ok h1 =>
              if env.isFrameWrapped then some (.ok (h1.UpdateLastChunk partition_end true))
              else
                partitionLoop env eof partition i partition_end fuel (cursor1 + (kl.len : Int))
                  h1
        else partitionLoop env eof partition i partition_end fuel (cursor1 + (kl.len : Int)) h

/-- The loop over the partitions of
`EssenceChunkHelper::CreateEssenceChunkIndex`, from partition `i` with `n`
partitions left: the chunk index after the loop, or the exception. `fuel`
bounds the iterations of the inner loop. -/
def createLoop (env : Env) (eof : Int → Bool) (fileSize : Int) (partitions : List Partition)
    (fuel : Nat) : Nat → Nat → EssenceChunkHelper →
    Option (Except ReaderError EssenceChunkHelper)
  | 0, _, h => some (.ok h)
  | n + 1, i, h =>
    if (partitions.getD i default).bodySID ≠ env.mBodySID then
      createLoop env eof fileSize partitions fuel n (i + 1) h
    else
      match env.readKL (toInt64 ((partitions.getD i default).thisPartition : Int)) with
      | .error e => some (.error e)
      | .ok (kl, cursor) =>
        match partitionLoop env eof (partitions.getD i default) i
            (partitionEnd partitions fileSize i) fuel (cursor + (kl.len : Int)) h with
        | none => none
        | some (.error e) => some (.error e)
        | some (.ok h1) => createLoop env eof fileSize partitions fuel n (i + 1) h1

/-- The function `EssenceChunkHelper::CreateEssenceChunkIndex` on the
partition list of the file: the chunk index it leaves when it returns, or the
exception that ends the construction of the reader. -/
def CreateEssenceChunkIndex (env : Env) (eof : Int → Bool) (fileSize : Int)
    (partitions : List Partition) (fuel : Nat) (h : EssenceChunkHelper) :
    Option (Except ReaderError EssenceChunkHelper) :=
  match createLoop env eof fileSize partitions fuel partitions.length 0 h with
  | none => none
  | some (.error e) => some (.error e)
  | some (.ok h1) => some (.ok { h1 with mIsComplete := true })

end EssenceChunkHelper

/-! ## Construction of the reader and the calls on it -/

namespace EssenceReader

namespace Reader

/-- The constructor `EssenceReader::EssenceReader`, for the members of
`Reader`: the object it leaves, or the exception that ends the construction;
`none` when the bound on the iterations of `CreateEssenceChunkIndex` ran
out. `partitions` are the partitions known to the file reader, `cursor` is
the file cursor after the construction and `avidFirstFrameOffset` the value
that the constructor of the chunk index takes from the descriptor.
`indexTable` is the index table helper, which is outside the sources at hand,
after the extraction of the index table: `IsComplete()`, `GetDuration()` and
the essence data size it holds before the constructor sets it, or the
exception of the extraction or of the checks on it. -/
def construct (env : Env) (eof : Int → Bool) (fileSize : Int) (partitions : List Partition)
    (fuel : Nat) (avidFirstFrameOffset : Int)
    (indexTable : EssenceChunkHelper → Except ReaderError (Bool × Int × Int)) (cursor : Int)
    (file_is_complete : Bool) : Option (Except ReaderError Reader) :=
  let helper0 := EssenceChunkHelper.create env.isFrameWrapped avidFirstFrameOffset
  let created : Option (Except ReaderError EssenceChunkHelper) :=
    if file_is_complete then
      EssenceChunkHelper.CreateEssenceChunkIndex env eof fileSize partitions fuel helper0
    else some (.ok helper0)
  match created with
  | none => none
  | some (.error e) => some (.error e)
  | some (.ok helper) =>
    match indexTable helper with
    | .error e => some (.error e)
    | .ok (indexIsComplete, indexDuration, essenceDataSize) =>
      some (.ok
        { cursor := cursor
          partitions := partitions
          mNextKey := .null
          mNextLLen := 0
          mNextLen := 0
          mAtCPStart := false
          mEssenceStartKey := .null
          mBasePosition := -1
          mFilePosition := -1
          mLastKnownBasePosition := -1
          mLastKnownFilePosition := -1
          mPreviousPartitionId := 0
          mPreviousFilePosition := 0
          mHaveFooter := file_is_complete
          mFileIsComplete := file_is_complete
          mEssenceChunkHelper := helper
          indexIsComplete := indexIsComplete
          indexDuration := indexDuration
          indexEssenceDataSize :=
            if (env.mIndexSID != 0 && file_is_complete) || helper.mIsComplete then
              helper.GetEssenceDataSize
            else essenceDataSize
          mReadStartPosition := 0
          mReadDuration := if indexIsComplete then indexDuration else INT64_MAX })

/-- The calls that write the completion flags, the chunk index or the read
window of a constructed reader: the calls of `Op`, `SeekEssence`, the reading
of a content package in `ReadFrameWrappedSamples`, `SetReadLimits`, the
lookups in the chunk index, and `SetHaveFooter` and `SetFileIsComplete` on
their own. -/
inductive Call where
  | walker (op : Op)
  | seekEssence (base_position : Int) (for_read : Bool)
  | readContentPackage (size : Int)
  | setReadLimits (start_position duration : Int)
  | haveFilePosition (essence_offset : Int)
  | getFilePosition (essence_offset : Int)
  | getFilePositionSpan (essence_offset size : Int)
  | getEssenceOffset (file_position : Int)
  | setHaveFooter
  | setFileIsComplete

/-- The object after one of the calls of `Call`, whether it returned or
threw; `none` when a bound on iterations ran out. -/
def runCall (env : Env) (index : IndexTable) (fuel n m : Nat) (r : Reader) :
    Call → Option Reader
  | .walker op => runOp env fuel r op
  | .seekEssence base_position for_read =>
    (SeekEssence env index fuel n m r base_position for_read).map (·.2)
  | .readContentPackage size => (readContentPackage env fuel n size r).map (·.2)
  | .setReadLimits start_position duration =>
    some { r with
      mReadStartPosition :=
        (SetReadLimits r.indexIsComplete r.indexDuration start_position
          duration).mReadStartPosition
      mReadDuration :=
        (SetReadLimits r.indexIsComplete r.indexDuration start_position
          duration).mReadDuration }
  | .haveFilePosition essence_offset =>
    some { r with
      mEssenceChunkHelper := (r.mEssenceChunkHelper.HaveFilePosition essence_offset).2 }
  | .getFilePosition essence_offset =>
    some { r with
      mEssenceChunkHelper := (r.mEssenceChunkHelper.GetFilePosition essence_offset).2 }
  | .getFilePositionSpan essence_offset size =>
    some { r with
      mEssenceChunkHelper :=
        (r.mEssenceChunkHelper.GetFilePositionSpan essence_offset size).2 }
  | .getEssenceOffset file_position =>
    some { r with
      mEssenceChunkHelper := (r.mEssenceChunkHelper.GetEssenceOffset file_position).2 }
  | .setHaveFooter => some r.SetHaveFooter
  | .setFileIsComplete => some r.SetFileIsComplete

/-- The object after a sequence of calls, first call first. Every call comes
with the KLV source and the index table as they are when it is made (the file
may have grown between two calls). -/
def runCalls (fuel n m : Nat) (r : Reader) : List (Env × IndexTable × Call) → Option Reader
  | [] => some r
  | (env, index, call) :: calls =>
    match runCall env index fuel n m r call with
    | none => none
    | some r1 => runCalls fuel n m r1 calls

/-- The relation between the completion flags: a complete file has a footer,
and the reader has the footer exactly when the chunk index is marked
complete. -/
def FlagsInv (r : Reader) : Prop :=
  (r.mFileIsComplete = true → r.mHaveFooter = true) ∧
  (r.mHaveFooter = true ↔ r.mEssenceChunkHelper.mIsComplete = true)

/-- No completion flag that is true in `r` is false in `r1`. -/
def FlagsKept (r r1 : Reader) : Prop :=
  (r.mFileIsComplete = true → r1.mFileIsComplete = true) ∧
  (r.mHaveFooter = true → r1.mHaveFooter = true) ∧
  (r.mEssenceChunkHelper.mIsComplete = true → r1.mEssenceChunkHelper.mIsComplete = true)

/-- The completion flags of the reader: `mFileIsComplete`, `mHaveFooter` and
the `mIsComplete` of the chunk index. -/
def flags (r : Reader) : Bool × Bool × Bool :=
  (r.mFileIsComplete, r.mHaveFooter, r.mEssenceChunkHelper.mIsComplete)

/-- A step from `r` to `r1` that keeps the flags that are true and carries
the relation between the flags over. -/
def FlagsStep (r r1 : Reader) : Prop :=
  FlagsKept r r1 ∧ (FlagsInv r → FlagsInv r1)

end Reader

end EssenceReader

/-! ## Example objects -/

namespace Examples

/-- Two complete, non-empty chunks, [0, 10) at file position 100 and
[10, 20) at file position 200. -/
def twoChunks (last : Nat) : EssenceChunkHelper :=
  { isFrameWrapped := false
    mAvidFirstFrameOffset := 0
    mEssenceChunks :=
      [⟨100, 0, 10, true, 0⟩, ⟨200, 10, 10, true, 1⟩]
    mLastEssenceChunk := last
    mNumIndexedPartitions := 2
    mIsComplete := false }

/-- A complete chunk [0, 10) at file position 100 followed by a chunk that is
still growing, empty so far, at file position 200. -/
def growing (last : Nat) : EssenceChunkHelper :=
  { isFrameWrapped := true
    mAvidFirstFrameOffset := 0
    mEssenceChunks :=
      [⟨100, 0, 10, true, 0⟩, ⟨200, 10, 0, false, 1⟩]
    mLastEssenceChunk := last
    mNumIndexedPartitions := 2
    mIsComplete := false }

/-- Three complete chunks of 10 bytes at file positions 100, 200 and 300. -/
def threeChunks (last : Nat) : EssenceChunkHelper :=
  { isFrameWrapped := false
    mAvidFirstFrameOffset := 0
    mEssenceChunks :=
      [⟨100, 0, 10, true, 0⟩, ⟨200, 10, 10, true, 1⟩, ⟨300, 20, 10, true, 2⟩]
    mLastEssenceChunk := last
    mNumIndexedPartitions := 3
    mIsComplete := false }

/-- Two `AppendChunk` calls on a frame-wrapped index with no `UpdateLastChunk`
between them. -/
def twoAppends : List EssenceChunkHelper.ChunkOp :=
  [.append 0 0 120 4 50, .append 0 1 320 4 50]

/-- A frame-wrapped index is built for two partitions: the chunk of the first
is extended and closed before the chunk of the second is appended, and that
one is extended while it grows. The second partition declares a `BodyOffset`
of 7 where the essence so far has 100 bytes. -/
def frameWrappedBuild : List EssenceChunkHelper.ChunkOp :=
  [.append 0 0 120 4 50, .update 150 false, .update 200 true, .append 7 1 320 4 50,
   .update 400 false]

/-- The calls that build `twoChunks` on a clip-wrapped index. -/
def twoChunksBuild : List EssenceChunkHelper.ChunkOp :=
  [.append 0 0 100 4 10, .append 10 1 200 4 10]

/-- The calls that build `growing` on a frame-wrapped index. -/
def growingBuild : List EssenceChunkHelper.ChunkOp :=
  [.append 0 0 120 4 0, .update 110 true, .append 10 1 220 4 0]

/-- A KLV source given by a table of the KLs found at file positions; reading
elsewhere fails. There are no filler KLVs and no further partition packs or
index table segments to parse. -/
def tableEnv (table : List (Int × EssenceReader.KL)) (frameWrapped : Bool) :
    EssenceReader.Env :=
  { readKL := fun cursor =>
      match table.lookup cursor with
      | some kl => .ok (kl, cursor + 16 + (kl.llen : Int))
      | none => .error .source
    readNextNonFillerKL := fun cursor =>
      match table.lookup cursor with
      | some kl => .ok (kl, cursor + 16 + (kl.llen : Int))
      | none => .error .source
    readNextPartition := fun _ _ _ => .error .source
    readIndexTableSegment := fun _ _ => .error .source
    processValue := fun _ _ => .ok ()
    haveTrackReader := fun _ => true
    isFrameWrapped := frameWrapped
    isClipWrapped := !frameWrapped
    mBodySID := 1
    mIndexSID := 2 }

/-- A reader of a growing frame-wrapped file with one partition that carries
the essence, positioned at the start of a content package at file position
`cursor`, with no look-ahead KL and the given essence start key and footer
flag. -/
def readerAt (cursor : Int) (startKey : EssenceReader.Key) (haveFooter : Bool) :
    EssenceReader.Reader :=
  { cursor := cursor
    partitions := [⟨0, 1, 2, 0, 0, 0, false⟩]
    mNextKey := .null
    mNextLLen := 0
    mNextLen := 0
    mAtCPStart := true
    mEssenceStartKey := startKey
    mBasePosition := 0
    mFilePosition := cursor
    mLastKnownBasePosition := 0
    mLastKnownFilePosition := cursor
    mPreviousPartitionId := 0
    mPreviousFilePosition := 0
    mHaveFooter := haveFooter
    mFileIsComplete := false
    mEssenceChunkHelper :=
      { isFrameWrapped := true
        mAvidFirstFrameOffset := 0
        mEssenceChunks := [⟨1000, 0, 0, false, 0⟩]
        mLastEssenceChunk := 0
        mNumIndexedPartitions := 1
        mIsComplete := haveFooter }
    indexIsComplete := false
    indexDuration := 0
    indexEssenceDataSize := 0
    mReadStartPosition := 0
    mReadDuration := 9223372036854775807 }

/-- Two content packages of a picture element (track 1, 100 bytes) and a
sound element (track 2, 40 bytes) at file position 1000, followed by a footer
partition pack at 1360 and a random index pack at 1400. -/
def twoPackages : List (Int × EssenceReader.KL) :=
  [(1000, ⟨.essenceElement 1 0, 4, 100⟩), (1120, ⟨.essenceElement 2 0, 4, 40⟩),
   (1180, ⟨.essenceElement 1 0, 4, 100⟩), (1300, ⟨.essenceElement 2 0, 4, 40⟩),
   (1360, ⟨.partitionPack true 0, 4, 20⟩), (1400, ⟨.randomIndexPack, 4, 12⟩)]

/-- A reader of a complete file with a header partition at 0, a body
partition at 1000 and a footer partition at 5000, with the partition hint of
a fresh reader. -/
def threePartitions : EssenceReader.Reader :=
  { readerAt 0 .null true with
    partitions := [⟨0, 0, 0, 0, 0, 0, false⟩, ⟨1000, 1, 2, 0, 0, 0, false⟩,
      ⟨5000, 0, 2, 0, 0, 0, true⟩]
    mFileIsComplete := true }

/-- A frame as the frame buffer hands it out: no bytes, no samples, and -1 in
the position fields, which the reader has not written yet. -/
def createdFrame : EssenceReader.Frame :=
  { buffer := [], size := 0, num_samples := 0, ec_position := -1,
    temporal_reordering := false, cp_file_position := -1, file_position := -1 }

/-- A file whose byte at position `p` is `p mod 256`; every read is served in
full. -/
def byteFile (position : Int) (count : Nat) : List Nat :=
  (List.range count).map (fun i => (position.toNat + i) % 256)

/-- An index table that knows no edit unit; updates are accepted. -/
def noIndex : EssenceReader.IndexTable :=
  { haveEditUnitOffset := fun _ => false
    getEditUnitOffset := fun _ => 0
    updateIndex := fun _ _ _ => .ok () }

/-- Three content packages of a picture element (track 1, 100 bytes) and a
sound element (track 2, 40 bytes) from file position 1000. -/
def threePackages : List (Int × EssenceReader.KL) :=
  [(1000, ⟨.essenceElement 1 0, 4, 100⟩), (1120, ⟨.essenceElement 2 0, 4, 40⟩),
   (1180, ⟨.essenceElement 1 0, 4, 100⟩), (1300, ⟨.essenceElement 2 0, 4, 40⟩),
   (1360, ⟨.essenceElement 1 0, 4, 100⟩), (1480, ⟨.essenceElement 2 0, 4, 40⟩)]

/-- A reader of a growing frame-wrapped file that has walked the content
packages up to `lastKnown`, found at file position `lastKnownFP`, and has
since been positioned at content package `base`, inside its first element. -/
def walker (base lastKnown lastKnownFP : Int) : EssenceReader.Reader :=
  { readerAt 1020 (.essenceElement 1 0) false with
    mAtCPStart := false
    mBasePosition := base
    mFilePosition := 1000
    mLastKnownBasePosition := lastKnown
    mLastKnownFilePosition := lastKnownFP }

/-- The KLs of a complete frame-wrapped file: a header partition at 0, two
body partitions at 1000 and 2000 whose first essence elements are at 1100 and
2170 (the second behind an index table segment), and a footer partition at
3000. -/
def completeFile : List (Int × EssenceReader.KL) :=
  [(0, ⟨.partitionPack false 0, 4, 100⟩), (120, ⟨.headerMetadata 0, 4, 300⟩),
   (1000, ⟨.partitionPack false 1, 4, 80⟩), (1100, ⟨.essenceElement 1 0, 4, 100⟩),
   (1220, ⟨.essenceElement 2 0, 4, 40⟩),
   (2000, ⟨.partitionPack false 1, 4, 80⟩), (2100, ⟨.indexTableSegment 0, 4, 50⟩),
   (2170, ⟨.essenceElement 1 0, 4, 100⟩),
   (3000, ⟨.partitionPack true 0, 4, 80⟩), (3100, ⟨.randomIndexPack, 4, 12⟩)]

/-- The partitions of `completeFile`; the essence has `BodySID` 1. -/
def completePartitions : List EssenceReader.Partition :=
  [⟨0, 0, 0, 0, 0, 0, false⟩, ⟨1000, 1, 0, 0, 0, 0, false⟩, ⟨2000, 1, 2, 0, 0, 900, false⟩,
   ⟨3000, 0, 2, 0, 0, 0, true⟩]

end Examples

/-! ## Lookups in a contiguous index -/

namespace EssenceChunkHelper

theorem essence_offset_mono {h : EssenceChunkHelper} (hc : Contiguous h) :
    ∀ k, k < h.mEssenceChunks.length → ∀ j, j ≤ k →
      (h.chunk j).essence_offset ≤ (h.chunk k).essence_offset := by
  intro k
  induction k with
  | zero =>
    intro _ j hj
    have : j = 0 := by omega
    subst this
    exact le_refl _
  | succ k ih =>
    intro hk j hj
    rcases Nat.lt_or_ge j (k + 1) with hlt | hge
    · have h1 := ih (by omega) j (by omega)
      have h2 := hc.2.1 k (by omega)
      have h3 := hc.2.2 k (by omega)
      omega
    · have : j = k + 1 := by omega
      subst this
      exact le_refl _

theorem tail_le_essence_offset {h : EssenceChunkHelper} (hc : Contiguous h)
    {j k : Nat} (hjk : j < k) (hk : k < h.mEssenceChunks.length) :
    (h.chunk j).essence_offset + (h.chunk j).size ≤ (h.chunk k).essence_offset := by
  have h1 := hc.2.1 j (by omega)
  have h2 := essence_offset_mono hc k hk (j + 1) (by omega)
  omega

theorem essence_offset_nonneg {h : EssenceChunkHelper} (hc : Contiguous h)
    {k : Nat} (hk : k < h.mEssenceChunks.length) : 0 ≤ (h.chunk k).essence_offset := by
  have h1 := essence_offset_mono hc k hk 0 (by omega)
  have h2 := hc.1
  omega

theorem tail_le_last_tail {h : EssenceChunkHelper} (hc : Contiguous h)
    {k : Nat} (hk : k < h.mEssenceChunks.length) :
    (h.chunk k).essence_offset + (h.chunk k).size ≤ h.back.essence_offset + h.back.size := by
  unfold back
  rcases Nat.lt_or_ge k (h.mEssenceChunks.length - 1) with hlt | hge
  · have h1 := tail_le_essence_offset hc hlt (by omega)
    have h2 := hc.2.2 (h.mEssenceChunks.length - 1) (by omega)
    omega
  · have : k = h.mEssenceChunks.length - 1 := by omega
    rw [← this]

theorem setLast_self (h : EssenceChunkHelper) :
    { h with mLastEssenceChunk := h.mLastEssenceChunk } = h := by
  cases h; rfl

theorem chunk_mem (h : EssenceChunkHelper) {k : Nat} (hk : k < h.mEssenceChunks.length) :
    h.chunk k ∈ h.mEssenceChunks := by
  unfold chunk
  rw [List.getD_eq_getElem _ _ hk]
  exact List.getElem_mem hk

theorem isEmpty_false_of_lt (h : EssenceChunkHelper) {k : Nat}
    (hk : k < h.mEssenceChunks.length) : h.mEssenceChunks.isEmpty = false := by
  cases hl : h.mEssenceChunks with
  | nil => rw [hl] at hk; simp at hk
  | cons a l => rfl

/-- The backward loop stops at the non-empty chunk that holds the offset. -/
theorem essenceBackScan_inside {h : EssenceChunkHelper} (hc : Contiguous h)
    {i : Nat} {o : Int}
    (hlo : (h.chunk i).essence_offset ≤ o)
    (hhi : o < (h.chunk i).essence_offset + (h.chunk i).size) :
    ∀ k, k < h.mEssenceChunks.length → i < k → h.essenceBackScan o k = some i := by
  intro k
  induction k with
  | zero => intro _ hik; omega
  | succ k ih =>
    intro hk hik
    unfold essenceBackScan
    rcases Nat.lt_or_ge i k with hlt | hge
    · have h1 := tail_le_essence_offset hc hlt (by omega)
      rw [if_neg (by omega)]
      exact ih (by omega) hlt
    · have : i = k := by omega
      subst this
      rw [if_pos hlo]

/-- The forward loop stops at the non-empty chunk that holds the offset. -/
theorem essenceFwdScan_inside {h : EssenceChunkHelper} (hc : Contiguous h)
    {i : Nat} {o : Int} (hi : i < h.mEssenceChunks.length)
    (hlo : (h.chunk i).essence_offset ≤ o)
    (hhi : o < (h.chunk i).essence_offset + (h.chunk i).size) :
    ∀ n s, s + n = h.mEssenceChunks.length → s ≤ i → h.essenceFwdScan o n s = some i := by
  intro n
  induction n with
  | zero => intro s hs hsi; omega
  | succ n ih =>
    intro s hs hsi
    unfold essenceFwdScan
    rcases Nat.lt_or_ge s i with hlt | hge
    · have h1 := tail_le_essence_offset hc hlt hi
      rw [if_neg (by omega)]
      exact ih (s + 1) (by omega) (by omega)
    · have : s = i := by omega
      subst this
      rw [if_pos (by omega)]

/-- In a contiguous index `EssenceOffsetUpdate` moves the last-accessed index
to the non-empty chunk that holds the offset, from every starting index. -/
theorem EssenceOffsetUpdate_inside {h : EssenceChunkHelper} (hc : Contiguous h)
    (hl : h.mLastEssenceChunk < h.mEssenceChunks.length)
    {i : Nat} {o : Int} (hi : i < h.mEssenceChunks.length)
    (hlo : (h.chunk i).essence_offset ≤ o)
    (hhi : o < (h.chunk i).essence_offset + (h.chunk i).size) :
    h.EssenceOffsetUpdate o = .ok { h with mLastEssenceChunk := i } := by
  unfold EssenceOffsetUpdate
  rw [isEmpty_false_of_lt h hi]
  simp only [Bool.false_eq_true, if_false]
  rcases Nat.lt_trichotomy h.mLastEssenceChunk i with hlt | heq | hgt
  · have h1 := tail_le_essence_offset hc hlt hi
    have h2 := hc.2.2 _ hl
    rw [if_neg (by omega), if_pos (by omega)]
    rw [essenceFwdScan_inside hc hi hlo hhi _ _ (by omega) (by omega)]
  · rw [if_neg (by rw [heq]; omega), if_neg (by rw [heq]; omega), ← heq, setLast_self]
  · have h1 := tail_le_essence_offset hc hgt hl
    rw [if_pos (by omega)]
    rw [essenceBackScan_inside hc hlo hhi _ hl hgt]

theorem essenceBackScan_lt (h : EssenceChunkHelper) (o : Int) :
    ∀ k j, h.essenceBackScan o k = some j → j < k := by
  intro k
  induction k with
  | zero => intro j hj; simp [essenceBackScan] at hj
  | succ k ih =>
    intro j hj
    unfold essenceBackScan at hj
    split at hj
    · simp at hj; omega
    · have := ih j hj; omega

theorem essenceFwdScan_lt (h : EssenceChunkHelper) (o : Int) :
    ∀ n s j, h.essenceFwdScan o n s = some j → j < s + n := by
  intro n
  induction n with
  | zero => intro s j hj; simp [essenceFwdScan] at hj
  | succ n ih =>
    intro s j hj
    unfold essenceFwdScan at hj
    split at hj
    · simp at hj; omega
    · have := ih (s + 1) j hj; omega

/-- The function `EssenceOffsetUpdate` changes nothing but the last-accessed index, and
keeps it inside the chunk list. -/
theorem EssenceOffsetUpdate_ok {h h1 : EssenceChunkHelper} {o : Int}
    (hu : h.EssenceOffsetUpdate o = .ok h1) :
    h1.mEssenceChunks = h.mEssenceChunks ∧
    (h.mLastEssenceChunk < h.mEssenceChunks.length →
      h1.mLastEssenceChunk < h1.mEssenceChunks.length) := by
  unfold EssenceOffsetUpdate at hu
  split at hu
  · simp at hu
  · split at hu
    · split at hu
      · rename_i j hj
        have := essenceBackScan_lt h o _ _ hj
        simp only [Except.ok.injEq] at hu
        subst hu
        exact ⟨rfl, fun hl => by simp only; omega⟩
      · simp only [Except.ok.injEq] at hu
        subst hu
        exact ⟨rfl, id⟩
    · split at hu
      · split at hu
        · rename_i j hj
          have := essenceFwdScan_lt h o _ _ _ hj
          simp only [Except.ok.injEq] at hu
          subst hu
          exact ⟨rfl, fun hl => by simp only; omega⟩
        · simp only [Except.ok.injEq] at hu
          subst hu
          exact ⟨rfl, id⟩
      · simp only [Except.ok.injEq] at hu
        subst hu
        exact ⟨rfl, id⟩

end EssenceChunkHelper

/-! ## Claims on the lookups -/

namespace EssenceChunkHelper

theorem GetFilePosition_eq_of_inside {h : EssenceChunkHelper} (hc : Contiguous h)
    (hl : h.mLastEssenceChunk < h.mEssenceChunks.length)
    {i : Nat} {o : Int} (hi : i < h.mEssenceChunks.length)
    (hlo : (h.chunk i).essence_offset ≤ o)
    (hhi : o < (h.chunk i).essence_offset + (h.chunk i).size) :
    h.GetFilePosition o =
      (.ok ((h.chunk i).file_position + (o - (h.chunk i).essence_offset)),
       { h with mLastEssenceChunk := i }) := by
  unfold GetFilePosition
  rw [EssenceOffsetUpdate_inside hc hl hi hlo hhi]
  show (if (h.chunk i).essence_offset > o ∨
      (h.chunk i).essence_offset + (h.chunk i).size < o then _ else _) = _
  rw [if_neg (by omega)]
  rfl

end EssenceChunkHelper

/-! ## Failure of the lookups -/

namespace EssenceChunkHelper

/-- A successful `GetFilePosition` answers from a chunk of the list that
covers the offset inclusively. -/
theorem GetFilePosition_ok_covers {h : EssenceChunkHelper} {o p : Int}
    (hl : h.mLastEssenceChunk < h.mEssenceChunks.length)
    (hok : (h.GetFilePosition o).1 = .ok p) :
    ∃ c ∈ h.mEssenceChunks, Covers c o := by
  unfold GetFilePosition at hok
  split at hok
  · simp at hok
  · rename_i h1 hu
    have hu1 := EssenceOffsetUpdate_ok hu
    split at hok
    · simp at hok
    · rename_i hcov
      refine ⟨h1.chunk h1.mLastEssenceChunk, ?_, ?_⟩
      · rw [← hu1.1]
        exact chunk_mem h1 (hu1.2 hl)
      · unfold Covers
        omega

theorem GetFilePosition_error_kind (h : EssenceChunkHelper) (o : Int)
    (hne : ∀ p, (h.GetFilePosition o).1 ≠ .ok p) :
    (h.GetFilePosition o).1 =
      .error (if h.mEssenceChunks.isEmpty then .checkFailed else .notFound) := by
  unfold GetFilePosition at hne ⊢
  split
  · rename_i e hu
    unfold EssenceOffsetUpdate at hu
    split at hu
    · rename_i hemp
      simp only [Except.error.injEq] at hu
      simp [hemp, hu]
    · split at hu
      · split at hu <;> simp at hu
      · split at hu
        · split at hu <;> simp at hu
        · simp at hu
  · rename_i h1 hu
    have hemp : h.mEssenceChunks.isEmpty = false := by
      unfold EssenceOffsetUpdate at hu
      split at hu
      · simp at hu
      · rename_i hemp
        simpa using hemp
    rw [hu] at hne
    simp only at hne
    split
    · simp [hemp]
    · rename_i hcov
      rw [if_neg hcov] at hne
      exact absurd rfl (hne _)

theorem isEmpty_false_of_ne_nil {h : EssenceChunkHelper} (hne : h.mEssenceChunks ≠ []) :
    h.mEssenceChunks.isEmpty = false := by
  cases hm : h.mEssenceChunks with
  | nil => exact absurd hm hne
  | cons a l => rfl

/-- When no chunk covers the offset inclusively `GetFilePosition` throws. -/
theorem GetFilePosition_fails_of_not_covered (h : EssenceChunkHelper) (o : Int)
    (hl : h.mEssenceChunks ≠ [] → h.mLastEssenceChunk < h.mEssenceChunks.length)
    (hno : ∀ c ∈ h.mEssenceChunks, ¬ Covers c o) :
    (h.GetFilePosition o).1 =
      .error (if h.mEssenceChunks.isEmpty then .checkFailed else .notFound) := by
  apply GetFilePosition_error_kind
  intro p hp
  rcases hemp : h.mEssenceChunks with _ | ⟨a, l⟩
  · unfold GetFilePosition EssenceOffsetUpdate at hp
    simp [hemp] at hp
  · have hl1 := hl (by simp [hemp])
    obtain ⟨c, hc, hcov⟩ := GetFilePosition_ok_covers hl1 hp
    exact hno c hc hcov

/-- In a contiguous index no chunk covers a negative offset. -/
theorem not_covers_of_neg {h : EssenceChunkHelper} (hc : Contiguous h) {o : Int}
    (ho : o < 0) : ∀ c ∈ h.mEssenceChunks, ¬ Covers c o := by
  intro c hmem hcov
  obtain ⟨k, hk, rfl⟩ := List.mem_iff_getElem.mp hmem
  have h1 := essence_offset_nonneg hc hk
  unfold chunk at h1
  rw [List.getD_eq_getElem _ _ hk] at h1
  unfold Covers at hcov
  omega

/-- In a contiguous index no chunk covers an offset past the end of the last
chunk. -/
theorem not_covers_of_gt_end {h : EssenceChunkHelper} (hc : Contiguous h) {o : Int}
    (ho : o > h.back.essence_offset + h.back.size) :
    ∀ c ∈ h.mEssenceChunks, ¬ Covers c o := by
  intro c hmem hcov
  obtain ⟨k, hk, rfl⟩ := List.mem_iff_getElem.mp hmem
  have h1 := tail_le_last_tail hc hk
  unfold chunk at h1
  rw [List.getD_eq_getElem _ _ hk] at h1
  unfold Covers at hcov
  omega

/-- C5: `GetFilePosition(off)` fails for every essence offset that no chunk
covers inclusively, whatever the last-accessed index: on an empty index (there
the `BMX_CHECK` of `EssenceOffsetUpdate` raises), and, in a contiguous index,
for a negative offset and for an offset greater than the last chunk's
`essence_offset + size`. -/
theorem GetFilePosition_not_covered (h : EssenceChunkHelper) (o : Int)
    (hl : h.mEssenceChunks ≠ [] → h.mLastEssenceChunk < h.mEssenceChunks.length) :
    ((∀ c ∈ h.mEssenceChunks, ¬ Covers c o) →
      (h.GetFilePosition o).1 =
        .error (if h.mEssenceChunks.isEmpty then .checkFailed else .notFound)) ∧
    (h.mEssenceChunks = [] → (h.GetFilePosition o).1 = .error .checkFailed) ∧
    (Contiguous h → h.mEssenceChunks ≠ [] → o < 0 →
      (h.GetFilePosition o).1 = .error .notFound) ∧
    (Contiguous h → h.mEssenceChunks ≠ [] → o > h.back.essence_offset + h.back.size →
      (h.GetFilePosition o).1 = .error .notFound) := by
  refine ⟨GetFilePosition_fails_of_not_covered h o hl, ?_, ?_, ?_⟩
  · intro hemp
    have := GetFilePosition_fails_of_not_covered h o hl (by simp [hemp])
    simpa [hemp] using this
  · intro hc hne ho
    have := GetFilePosition_fails_of_not_covered h o hl (not_covers_of_neg hc ho)
    simpa [isEmpty_false_of_ne_nil hne] using this
  · intro hc hne ho
    have := GetFilePosition_fails_of_not_covered h o hl (not_covers_of_gt_end hc ho)
    simpa [isEmpty_false_of_ne_nil hne] using this

theorem GetFilePosition_not_covered_witness :
    ((Examples.twoChunks 0).GetFilePosition 21).1 = .error .notFound :=
  (GetFilePosition_not_covered (Examples.twoChunks 0) 21 (fun _ => by decide)).2.2.2
    (by decide) (by decide) (by decide)

/-- In a contiguous index, for every last-accessed index, every offset `off`
inside a non-empty chunk `i` and every `size` for which the sum `off + size`
is representable, `GetFilePosition(off, size)` succeeds iff `off + size` is
at most `essence_offset_i + size_i` or chunk `i` is incomplete; a span that
starts in a complete chunk and runs past its end is rejected; on success the
result is `file_position_i + (off - essence_offset_i)`. -/
theorem GetFilePositionSpan_inside (h : EssenceChunkHelper) (hc : Contiguous h)
    (hl : h.mLastEssenceChunk < h.mEssenceChunks.length)
    (i : Nat) (o size : Int) (hi : i < h.mEssenceChunks.length)
    (hlo : (h.chunk i).essence_offset ≤ o)
    (hhi : o < (h.chunk i).essence_offset + (h.chunk i).size)
    (hsum : Int64Range (o + size)) :
    ((∃ p, (h.GetFilePositionSpan o size).1 = .ok p) ↔
      (o + size ≤ (h.chunk i).essence_offset + (h.chunk i).size ∨
        (h.chunk i).is_complete = false)) ∧
    ((h.chunk i).is_complete = true →
      (h.chunk i).essence_offset + (h.chunk i).size < o + size →
      (h.GetFilePositionSpan o size).1 = .error .notFound) ∧
    (∀ p, (h.GetFilePositionSpan o size).1 = .ok p →
      p = (h.chunk i).file_position + (o - (h.chunk i).essence_offset)) := by
  have e : h.GetFilePositionSpan o size =
      (if (h.chunk i).essence_offset + (h.chunk i).size < o + size ∧
          (h.chunk i).is_complete = true then
        (.error .notFound, { h with mLastEssenceChunk := i })
      else
        (.ok ((h.chunk i).file_position + (o - (h.chunk i).essence_offset)),
         { h with mLastEssenceChunk := i })) := by
    unfold GetFilePositionSpan
    rw [EssenceOffsetUpdate_inside hc hl hi hlo hhi]
    have hw : wrapInt64 (o + size) = o + size := by
      unfold Int64Range INT64_BOUND at hsum
      unfold wrapInt64 toInt64 UINT64_MOD INT64_BOUND
      split <;> omega
    rw [hw]
    have hc1 : ({ h with mLastEssenceChunk := i } : EssenceChunkHelper).chunk
        ({ h with mLastEssenceChunk := i } : EssenceChunkHelper).mLastEssenceChunk =
        h.chunk i := rfl
    simp only [hc1]
    have hA : ¬ (h.chunk i).essence_offset > o := by omega
    have hB : ¬ (h.chunk i).essence_offset + (h.chunk i).size < o := by omega
    simp only [if_neg hA, if_neg hB]
    by_cases h1 : (h.chunk i).essence_offset + (h.chunk i).size < o + size
    · cases hcomp : (h.chunk i).is_complete <;> simp [h1]
    · simp [h1]
  rw [e]
  refine ⟨?_, ?_, ?_⟩
  · constructor
    · rintro ⟨p, hp⟩
      split at hp
      · simp at hp
      · rename_i hn
        by_cases h1 : (h.chunk i).essence_offset + (h.chunk i).size < o + size
        · right
          cases hcomp : (h.chunk i).is_complete
          · rfl
          · exact absurd ⟨h1, hcomp⟩ hn
        · left; omega
    · intro hor
      refine ⟨(h.chunk i).file_position + (o - (h.chunk i).essence_offset), ?_⟩
      rw [if_neg]
      rintro ⟨h1, h2⟩
      rcases hor with h3 | h3
      · omega
      · rw [h2] at h3; exact absurd h3 (by decide)
  · intro hcomp hlt
    rw [if_pos ⟨hlt, hcomp⟩]
  · intro p hp
    split at hp
    · simp at hp
    · simp only [Except.ok.injEq] at hp
      exact hp.symm

theorem GetFilePositionSpan_inside_witness :
    ((Examples.twoChunks 1).GetFilePositionSpan 5 10).1 = .error .notFound :=
  (GetFilePositionSpan_inside (Examples.twoChunks 1) (by decide) (by decide) 0 5 10
    (by decide) (by decide) (by decide) (by decide)).2.1 (by decide) (by decide)

/-- C6, failing input: in the index `twoChunks` the offset 5 lies inside the
complete chunk [0, 10) at file position 100, and a span of `INT64_MAX` bytes
from it runs past the end of the chunk. The 64-bit sum `essence_offset + size`
of the two arguments is negative, so the test of the chunk end against it
does not fire: `GetFilePosition(5, INT64_MAX)` returns 105 from either
last-accessed index, where the span should be rejected. -/
theorem GetFilePositionSpan_sum_wraps :
    ((Examples.twoChunks 0).chunk 0).is_complete = true ∧
    ((Examples.twoChunks 0).chunk 0).essence_offset + ((Examples.twoChunks 0).chunk 0).size <
      5 + 9223372036854775807 ∧
    wrapInt64 (5 + 9223372036854775807) = -9223372036854775804 ∧
    ((Examples.twoChunks 0).GetFilePositionSpan 5 9223372036854775807).1 = .ok 105 ∧
    ((Examples.twoChunks 1).GetFilePositionSpan 5 9223372036854775807).1 = .ok 105 :=
  ⟨by decide, by decide, by decide, rfl, rfl⟩

end EssenceChunkHelper

/-! ## Building the index -/

theorem toInt64_of_range {x : Int} (h : Int64Range x) : toInt64 x = x := by
  unfold Int64Range INT64_BOUND at h
  unfold toInt64 UINT64_MOD INT64_BOUND
  split <;> omega

theorem toInt64_toUInt64 (x : Int) : toInt64 (toUInt64 x) = toInt64 x := by
  unfold toInt64 toUInt64
  rw [Int.emod_emod]

namespace EssenceChunkHelper

theorem back_of_concat {h : EssenceChunkHelper} {D : List EssenceChunk} {x : EssenceChunk}
    (hD : h.mEssenceChunks = D ++ [x]) : h.back = x := by
  unfold back chunk
  rw [hD]
  simp [List.getD_eq_getElem?_getD]

theorem back_of_getLast? {h : EssenceChunkHelper} {x : EssenceChunk}
    (hx : x ∈ h.mEssenceChunks.getLast?) : h.back = x := by
  rcases List.eq_nil_or_concat h.mEssenceChunks with hnil | ⟨D, y, hD⟩
  · rw [hnil] at hx; simp at hx
  · rw [List.concat_eq_append] at hD
    rw [hD, List.getLast?_concat] at hx
    simp at hx
    rw [back_of_concat hD, hx]

theorem reconcileBodyOffset_empty {h : EssenceChunkHelper} (body_offset : Nat)
    (he : h.mEssenceChunks.isEmpty = true) : h.reconcileBodyOffset body_offset = 0 := by
  unfold reconcileBodyOffset
  rw [if_pos he]
  split <;> omega

theorem reconcileBodyOffset_nonempty {h : EssenceChunkHelper} (body_offset : Nat)
    (he : h.mEssenceChunks.isEmpty = false) :
    h.reconcileBodyOffset body_offset = toUInt64 (h.back.essence_offset + h.back.size) := by
  unfold reconcileBodyOffset
  rw [if_neg (by simp [he])]
  split
  · rfl
  · split
    · rfl
    · omega

/-- The shape of the object after a successful `AppendChunk`. -/
theorem AppendChunk_chunks {h h1 : EssenceChunkHelper} {bo pid : Nat} {fp : Int}
    {llen len : Nat} (hok : h.AppendChunk bo pid fp llen len = .ok h1) :
    ∃ c, h1.mEssenceChunks = h.mEssenceChunks ++ [c] ∧
      c.essence_offset = toInt64 (h.reconcileBodyOffset bo) ∧ 0 ≤ c.size ∧
      (h.isFrameWrapped = false → c.is_complete = true) ∧
      h1.isFrameWrapped = h.isFrameWrapped := by
  unfold AppendChunk at hok
  simp only at hok
  split at hok
  · rename_i hfw
    simp only [Except.ok.injEq] at hok
    subst hok
    exact ⟨_, rfl, rfl, le_refl _, fun hf => by rw [hf] at hfw; exact absurd hfw (by decide),
      rfl⟩
  · split at hok
    · split at hok
      · rename_i hsz
        simp only [Except.ok.injEq] at hok
        subst hok
        refine ⟨_, rfl, rfl, ?_, fun _ => rfl, rfl⟩
        dsimp only
        exact hsz
      · simp at hok
    · split at hok
      · rename_i hsz
        simp only [Except.ok.injEq] at hok
        subst hok
        refine ⟨_, rfl, rfl, ?_, fun _ => rfl, rfl⟩
        dsimp only
        exact hsz
      · simp at hok

/-- The shape of the object after `UpdateLastChunk`. -/
theorem UpdateLastChunk_chunks (h : EssenceChunkHelper) (fp : Int) (e : Bool) :
    (h.UpdateLastChunk fp e).isFrameWrapped = h.isFrameWrapped ∧
    (h.UpdateLastChunk fp e = h ∨
      ∃ D x, h.mEssenceChunks = D ++ [x] ∧ x.is_complete = false ∧
        x.file_position + x.size ≤ fp ∧
        (h.UpdateLastChunk fp e).mEssenceChunks =
          D ++ [{ x with size := fp - x.file_position, is_complete := e }]) := by
  unfold UpdateLastChunk
  split
  · rename_i hcond
    refine ⟨rfl, Or.inr ?_⟩
    simp only [Bool.and_eq_true, Bool.not_eq_true', decide_eq_true_eq] at hcond
    obtain ⟨⟨hne, hinc⟩, hge⟩ := hcond
    rcases List.eq_nil_or_concat h.mEssenceChunks with hnil | ⟨D, x, hD⟩
    · rw [hnil] at hne; simp at hne
    · rw [List.concat_eq_append] at hD
      have hb := back_of_concat hD
      refine ⟨D, x, hD, hb ▸ hinc, by rw [← hb]; omega, ?_⟩
      simp only [hb, hD, List.dropLast_concat]
  · exact ⟨rfl, Or.inl rfl⟩

/-- The facts about the chunk list that every call preserves: each chunk
starts at the 64-bit end of its predecessor, sizes are not negative, and the
first chunk starts at offset 0. -/
theorem applyOp_chain (h : EssenceChunkHelper) (op : ChunkOp)
    (hinv : List.Chain' Follows h.mEssenceChunks ∧ (∀ c ∈ h.mEssenceChunks, 0 ≤ c.size) ∧
      (∀ c ∈ h.mEssenceChunks.head?, c.essence_offset = 0)) :
    List.Chain' Follows (h.applyOp op).mEssenceChunks ∧
      (∀ c ∈ (h.applyOp op).mEssenceChunks, 0 ≤ c.size) ∧
      (∀ c ∈ (h.applyOp op).mEssenceChunks.head?, c.essence_offset = 0) := by
  obtain ⟨hch, hsz, hhd⟩ := hinv
  cases op with
  | append bo pid fp llen len =>
    simp only [applyOp]
    split
    · rename_i h1 hok
      obtain ⟨c, hl, heo, hcs, _, _⟩ := AppendChunk_chunks hok
      rw [hl]
      refine ⟨?_, ?_, ?_⟩
      · rw [List.chain'_append]
        refine ⟨hch, List.chain'_singleton c, ?_⟩
        intro x hx y hy
        simp at hy
        subst hy
        have hne : h.mEssenceChunks.isEmpty = false := by
          cases hm : h.mEssenceChunks with
          | nil => rw [hm] at hx; simp at hx
          | cons a l => rfl
        unfold Follows wrapInt64
        rw [heo, reconcileBodyOffset_nonempty bo hne, toInt64_toUInt64, back_of_getLast? hx]
      · intro d hd
        rcases List.mem_append.mp hd with hd | hd
        · exact hsz d hd
        · simp at hd; subst hd; exact hcs
      · intro d hd
        cases hm : h.mEssenceChunks with
        | nil =>
          rw [hm] at hd
          simp at hd
          subst hd
          rw [heo, reconcileBodyOffset_empty bo (by rw [hm]; rfl)]
          rfl
        | cons a l =>
          rw [hm] at hd hhd
          simp at hd hhd
          subst hd
          exact hhd
    · exact ⟨hch, hsz, hhd⟩
  | update fp e =>
    simp only [applyOp]
    rcases (UpdateLastChunk_chunks h fp e).2 with hsame | ⟨D, x, hD, hinc, hge, hnew⟩
    · rw [hsame]; exact ⟨hch, hsz, hhd⟩
    · rw [hnew]
      rw [hD] at hch hsz hhd
      rw [List.chain'_append] at hch ⊢
      refine ⟨⟨hch.1, List.chain'_singleton _, ?_⟩, ?_, ?_⟩
      · intro a ha y hy
        simp at hy
        subst hy
        exact hch.2.2 a ha x (by simp)
      · intro d hd
        rcases List.mem_append.mp hd with hd | hd
        · exact hsz d (List.mem_append_left _ hd)
        · simp at hd
          subst hd
          have := hsz x (by simp)
          show 0 ≤ fp - x.file_position
          omega
      · intro d hd
        cases D with
        | nil =>
          simp at hd hhd
          subst hd
          exact hhd
        | cons a l =>
          simp at hd hhd
          subst hd
          exact hhd

theorem runOps_chain (ops : List ChunkOp) : ∀ (h : EssenceChunkHelper),
    (List.Chain' Follows h.mEssenceChunks ∧ (∀ c ∈ h.mEssenceChunks, 0 ≤ c.size) ∧
      (∀ c ∈ h.mEssenceChunks.head?, c.essence_offset = 0)) →
    List.Chain' Follows (h.runOps ops).mEssenceChunks ∧
      (∀ c ∈ (h.runOps ops).mEssenceChunks, 0 ≤ c.size) ∧
      (∀ c ∈ (h.runOps ops).mEssenceChunks.head?, c.essence_offset = 0) := by
  induction ops with
  | nil => intro h hinv; exact hinv
  | cons op ops ih =>
    intro h hinv
    exact ih (h.applyOp op) (applyOp_chain h op hinv)

end EssenceChunkHelper

/-! ## Claims on building the index -/

namespace EssenceChunkHelper

theorem chunk_eq_getElem (h : EssenceChunkHelper) {k : Nat}
    (hk : k < h.mEssenceChunks.length) : h.chunk k = h.mEssenceChunks[k] := by
  unfold chunk
  exact List.getD_eq_getElem _ _ hk

/-- A chunk list in which each chunk starts at the 64-bit end of its
predecessor is contiguous when the ends are representable. -/
theorem contiguous_of_chain {h : EssenceChunkHelper}
    (hch : List.Chain' Follows h.mEssenceChunks)
    (hsz : ∀ c ∈ h.mEssenceChunks, 0 ≤ c.size)
    (hhd : ∀ c ∈ h.mEssenceChunks.head?, c.essence_offset = 0)
    (hr : ∀ c ∈ h.mEssenceChunks, Int64Range (c.essence_offset + c.size)) :
    Contiguous h := by
  refine ⟨?_, ?_, ?_⟩
  · cases hm : h.mEssenceChunks with
    | nil => unfold chunk; rw [hm]; rfl
    | cons a l =>
      rw [hm] at hhd
      unfold chunk
      rw [hm]
      exact hhd a (by simp)
  · intro k hk
    have h1 := List.chain'_iff_get.mp hch k hk
    unfold Follows wrapInt64 at h1
    rw [toInt64_of_range (hr _ (List.get_mem _ _ _))] at h1
    rw [chunk_eq_getElem h (by omega : k + 1 < h.mEssenceChunks.length),
      chunk_eq_getElem h (by omega : k < h.mEssenceChunks.length)]
    exact h1
  · intro k hk
    exact hsz _ (chunk_mem h hk)

/-- C3: after any sequence of `AppendChunk` and `UpdateLastChunk` calls on an
initially empty index, when the chunk ends `essence_offset + size` are
representable as `int64_t`, every chunk that has a successor is followed by a
chunk starting at its `essence_offset + size` (in particular every complete
one), and chunks are stored in non-decreasing `essence_offset` order. -/
theorem runOps_contiguous (frameWrapped : Bool) (avid : Int) (ops : List ChunkOp)
    (hr : ∀ c ∈ ((create frameWrapped avid).runOps ops).mEssenceChunks,
      Int64Range (c.essence_offset + c.size)) :
    (∀ k, k + 1 < ((create frameWrapped avid).runOps ops).mEssenceChunks.length →
      (((create frameWrapped avid).runOps ops).chunk k).is_complete = true →
      (((create frameWrapped avid).runOps ops).chunk (k + 1)).essence_offset =
        (((create frameWrapped avid).runOps ops).chunk k).essence_offset +
          (((create frameWrapped avid).runOps ops).chunk k).size) ∧
    (∀ j k, j ≤ k → k < ((create frameWrapped avid).runOps ops).mEssenceChunks.length →
      (((create frameWrapped avid).runOps ops).chunk j).essence_offset ≤
        (((create frameWrapped avid).runOps ops).chunk k).essence_offset) := by
  have hinv := runOps_chain ops (create frameWrapped avid)
    ⟨List.chain'_nil, by simp [create], by simp [create]⟩
  have hc := contiguous_of_chain hinv.1 hinv.2.1 hinv.2.2 hr
  refine ⟨?_, ?_⟩
  · intro k hk _
    exact hc.2.1 k (by omega)
  · intro j k hjk hk
    exact essence_offset_mono hc k hk j hjk

theorem runOps_contiguous_witness :
    (((create true 0).runOps Examples.frameWrappedBuild).chunk 1).essence_offset =
      (((create true 0).runOps Examples.frameWrappedBuild).chunk 0).essence_offset +
        (((create true 0).runOps Examples.frameWrappedBuild).chunk 0).size :=
  (runOps_contiguous true 0 Examples.frameWrappedBuild (by decide)).1 0 (by decide)
    (by decide)

/-- C4: `AppendChunk` does not use a declared `BodyOffset` that disagrees with
the running total: for every declared `BodyOffset`, a successful call appends
one chunk whose `essence_offset` is 0 when the index was empty and otherwise
the 64-bit sum of the previous last chunk's `essence_offset` and `size`, which
is `essence_offset + size` when that is representable as `int64_t`. -/
theorem AppendChunk_essence_offset (h h1 : EssenceChunkHelper) (body_offset pid : Nat)
    (fp : Int) (llen len : Nat)
    (hok : h.AppendChunk body_offset pid fp llen len = .ok h1) :
    h1.mEssenceChunks = h.mEssenceChunks ++ [h1.back] ∧
    h1.back.essence_offset =
      (if h.mEssenceChunks.isEmpty then 0
       else wrapInt64 (h.back.essence_offset + h.back.size)) ∧
    (Int64Range (h.back.essence_offset + h.back.size) →
      h1.back.essence_offset =
        (if h.mEssenceChunks.isEmpty then 0 else h.back.essence_offset + h.back.size)) := by
  obtain ⟨c, hl, heo, _, _, _⟩ := AppendChunk_chunks hok
  have hb := back_of_concat hl
  rw [hb]
  have hw : c.essence_offset =
      (if h.mEssenceChunks.isEmpty then 0
       else wrapInt64 (h.back.essence_offset + h.back.size)) := by
    rw [heo]
    cases he : h.mEssenceChunks.isEmpty with
    | true =>
      rw [reconcileBodyOffset_empty body_offset he]
      rfl
    | false =>
      rw [reconcileBodyOffset_nonempty body_offset he, toInt64_toUInt64]
      rfl
  refine ⟨hl, hw, ?_⟩
  intro hr
  rw [hw]
  unfold wrapInt64
  rw [toInt64_of_range hr]

theorem AppendChunk_essence_offset_witness :
    ((Examples.twoChunks 0).runOps [.append 7 2 300 4 10]).back.essence_offset = 20 :=
  (AppendChunk_essence_offset (Examples.twoChunks 0)
    ((Examples.twoChunks 0).runOps [.append 7 2 300 4 10]) 7 2 300 4 10 rfl).2.2
    (by decide)

/-- Counterexample to C9: two `AppendChunk` calls on a frame-wrapped index
leave two incomplete chunks, the first of which is not the last chunk. -/
theorem two_appends_two_incomplete :
    ((create true 0).runOps Examples.twoAppends).mEssenceChunks.length = 2 ∧
    (((create true 0).runOps Examples.twoAppends).chunk 0).is_complete = false ∧
    (((create true 0).runOps Examples.twoAppends).chunk 1).is_complete = false := by
  decide

theorem applyOp_isFrameWrapped (h : EssenceChunkHelper) (op : ChunkOp) :
    (h.applyOp op).isFrameWrapped = h.isFrameWrapped := by
  cases op with
  | append bo pid fp llen len =>
    simp only [applyOp]
    split
    · rename_i h1 hok
      obtain ⟨c, _, _, _, _, hfw⟩ := AppendChunk_chunks hok
      exact hfw
    · rfl
  | update fp e =>
    simp only [applyOp]
    exact (UpdateLastChunk_chunks h fp e).1

/-- Every call keeps all chunks but the last complete, provided an
`AppendChunk` on a frame-wrapped index is made after the last chunk has been
closed; on a clip-wrapped index every chunk is complete. -/
theorem applyOp_complete (h : EssenceChunkHelper) (op : ChunkOp)
    (hpre : ∀ bo pid fp llen len, op = .append bo pid fp llen len →
      h.isFrameWrapped = true →
      h.mEssenceChunks.isEmpty = true ∨ h.back.is_complete = true)
    (hinv : (∀ c ∈ h.mEssenceChunks.dropLast, c.is_complete = true) ∧
      (h.isFrameWrapped = false → ∀ c ∈ h.mEssenceChunks, c.is_complete = true)) :
    (∀ c ∈ (h.applyOp op).mEssenceChunks.dropLast, c.is_complete = true) ∧
      (h.isFrameWrapped = false → ∀ c ∈ (h.applyOp op).mEssenceChunks,
        c.is_complete = true) := by
  obtain ⟨hdl, hclip⟩ := hinv
  cases op with
  | append bo pid fp llen len =>
    simp only [applyOp]
    split
    · rename_i h1 hok
      obtain ⟨c, hl, _, _, hcc, _⟩ := AppendChunk_chunks hok
      rw [hl, List.dropLast_concat]
      have hall : ∀ d ∈ h.mEssenceChunks, d.is_complete = true := by
        cases hfw : h.isFrameWrapped with
        | false => exact hclip hfw
        | true =>
          intro d hd
          rcases List.eq_nil_or_concat h.mEssenceChunks with hnil | ⟨D, x, hD⟩
          · rw [hnil] at hd; simp at hd
          · rw [List.concat_eq_append] at hD
            rcases hpre bo pid fp llen len rfl hfw with hemp | hbc
            · rw [hD] at hemp; simp at hemp
            · rw [back_of_concat hD] at hbc
              rw [hD, List.dropLast_concat] at hdl
              rw [hD] at hd
              rcases List.mem_append.mp hd with hd | hd
              · exact hdl d hd
              · simp at hd; subst hd; exact hbc
      refine ⟨hall, ?_⟩
      intro hfw d hd
      rcases List.mem_append.mp hd with hd | hd
      · exact hall d hd
      · simp at hd; subst hd; exact hcc hfw
    · exact ⟨hdl, hclip⟩
  | update fp e =>
    simp only [applyOp]
    rcases (UpdateLastChunk_chunks h fp e).2 with hsame | ⟨D, x, hD, hinc, _, hnew⟩
    · rw [hsame]; exact ⟨hdl, hclip⟩
    · rw [hnew, List.dropLast_concat]
      rw [hD, List.dropLast_concat] at hdl
      refine ⟨hdl, ?_⟩
      intro hfw
      have := hclip hfw x (by rw [hD]; simp)
      rw [hinc] at this
      exact absurd this (by decide)

theorem runOps_complete (ops : List ChunkOp) : ∀ (h : EssenceChunkHelper),
    (h.isFrameWrapped = true → AppendsAfterClose h ops = true) →
    ((∀ c ∈ h.mEssenceChunks.dropLast, c.is_complete = true) ∧
      (h.isFrameWrapped = false → ∀ c ∈ h.mEssenceChunks, c.is_complete = true)) →
    ∀ c ∈ (h.runOps ops).mEssenceChunks.dropLast, c.is_complete = true := by
  induction ops with
  | nil => intro h _ hinv; exact hinv.1
  | cons op ops ih =>
    intro h hp hinv
    have hstep := applyOp_complete h op (by
      intro bo pid fp llen len hop hfw
      subst hop
      have := hp hfw
      simp only [AppendsAfterClose, Bool.and_eq_true, Bool.or_eq_true] at this
      exact this.1) hinv
    refine ih (h.applyOp op) ?_ ⟨hstep.1, ?_⟩
    · intro hfw
      rw [applyOp_isFrameWrapped] at hfw
      have := hp hfw
      cases op with
      | append bo pid fp llen len =>
        simp only [AppendsAfterClose, Bool.and_eq_true] at this
        exact this.2
      | update fp e =>
        simp only [AppendsAfterClose] at this
        exact this
    · intro hfw
      rw [applyOp_isFrameWrapped] at hfw
      exact hstep.2 hfw

/-- C9, amended: after any sequence of `AppendChunk` and `UpdateLastChunk`
calls on an initially empty index in which, for a frame-wrapped index, every
`AppendChunk` is made when the index is empty or its last chunk is complete
(for a clip-wrapped index the sequence is arbitrary), every incomplete chunk is
the last chunk, so at most one chunk is incomplete. -/
theorem runOps_incomplete_is_last (frameWrapped : Bool) (avid : Int) (ops : List ChunkOp)
    (hp : frameWrapped = true →
      AppendsAfterClose (create frameWrapped avid) ops = true) :
    ∀ k, k < ((create frameWrapped avid).runOps ops).mEssenceChunks.length →
      (((create frameWrapped avid).runOps ops).chunk k).is_complete = false →
      k + 1 = ((create frameWrapped avid).runOps ops).mEssenceChunks.length := by
  intro k hk hinc
  have hall := runOps_complete ops (create frameWrapped avid) hp
    ⟨by simp [create], by simp [create]⟩
  by_contra hne
  have hk1 : k < ((create frameWrapped avid).runOps ops).mEssenceChunks.dropLast.length := by
    rw [List.length_dropLast]; omega
  have hmem := List.getElem_mem hk1
  rw [List.getElem_dropLast] at hmem
  have := hall _ hmem
  rw [chunk_eq_getElem _ hk] at hinc
  rw [hinc] at this
  exact absurd this (by decide)

theorem runOps_incomplete_is_last_witness :
    1 + 1 = ((create true 0).runOps Examples.frameWrappedBuild).mEssenceChunks.length :=
  runOps_incomplete_is_last true 0 Examples.frameWrappedBuild (fun _ => by decide) 1
    (by decide) (by decide)

end EssenceChunkHelper

/-! ## Dependence of the lookups on the last-accessed index -/

namespace EssenceChunkHelper

/-- C7, failing input: on the contiguous index of the two chunks [0, 10) and
[10, 20), built by two `AppendChunk` calls, the second chunk covers offset 20
inclusively; `HaveFilePosition(20)` returns false when the last-accessed index
is 0 and true when it is 1. -/
theorem HaveFilePosition_depends_on_last :
    (create false 0).runOps Examples.twoChunksBuild = Examples.twoChunks 0 ∧
    Contiguous (Examples.twoChunks 0) ∧
    Covers ((Examples.twoChunks 0).chunk 1) 20 ∧
    ((Examples.twoChunks 0).HaveFilePosition 20).1 = false ∧
    ((Examples.twoChunks 1).HaveFilePosition 20).1 = true := by
  decide

/-- C8, failing inputs: the outcome of a lookup changes with the last-accessed
index. With a complete chunk [0, 10) at file position 100 followed by a
growing, still empty chunk at file position 200, `GetFilePosition(10)` returns
110 from last-accessed index 0 and 200 from index 1; with two chunks [0, 10)
and [10, 20), `GetFilePosition(20)` fails from index 0 and returns 210 from
index 1; with three chunks of 10 bytes at file positions 100, 200 and 300,
`GetEssenceOffset(210)` fails from index 0 and returns 20 from index 2. -/
theorem lookups_depend_on_last :
    (create true 0).runOps Examples.growingBuild = Examples.growing 0 ∧
    Contiguous (Examples.growing 0) ∧
    ((Examples.growing 0).GetFilePosition 10).1 = .ok 110 ∧
    ((Examples.growing 1).GetFilePosition 10).1 = .ok 200 ∧
    ((Examples.twoChunks 0).GetFilePosition 20).1 = .error .notFound ∧
    ((Examples.twoChunks 1).GetFilePosition 20).1 = .ok 210 ∧
    Contiguous (Examples.threeChunks 0) ∧
    ((Examples.threeChunks 0).GetEssenceOffset 210).1 = .error .notFound ∧
    ((Examples.threeChunks 2).GetEssenceOffset 210).1 = .ok 20 := by
  refine ⟨by decide, by decide, rfl, rfl, rfl, rfl, by decide, rfl, rfl⟩

/-- No function of the chunk list and the offset alone gives the outcome of
`GetFilePosition` on every contiguous index. -/
theorem GetFilePosition_not_stateless :
    ¬ ∃ lookup : List EssenceChunk → Int → Except BMXException Int,
      ∀ (h : EssenceChunkHelper) (o : Int), Contiguous h →
        h.mLastEssenceChunk < h.mEssenceChunks.length →
        (h.GetFilePosition o).1 = lookup h.mEssenceChunks o := by
  rintro ⟨lookup, hl⟩
  have h0 := hl (Examples.growing 0) 10 (by decide) (by decide)
  have h1 := hl (Examples.growing 1) 10 (by decide) (by decide)
  have e0 : ((Examples.growing 0).GetFilePosition 10).1 = .ok 110 := rfl
  have e1 : ((Examples.growing 1).GetFilePosition 10).1 = .ok 200 := rfl
  have hm : (Examples.growing 0).mEssenceChunks = (Examples.growing 1).mEssenceChunks := rfl
  rw [e0] at h0
  rw [e1, ← hm, ← h0] at h1
  simp at h1

/-- In a non-empty contiguous index every offset from 0 up to, not including,
the end of the essence data lies inside a non-empty chunk. -/
theorem exists_chunk_inside {h : EssenceChunkHelper} (hc : Contiguous h)
    (hne : h.mEssenceChunks ≠ []) {o : Int} (h0 : 0 ≤ o)
    (hT : o < h.back.essence_offset + h.back.size) :
    ∃ i, i < h.mEssenceChunks.length ∧ (h.chunk i).essence_offset ≤ o ∧
      o < (h.chunk i).essence_offset + (h.chunk i).size := by
  have hlen : 0 < h.mEssenceChunks.length := List.length_pos.mpr hne
  have hex : ∃ i, i < h.mEssenceChunks.length ∧
      o < (h.chunk i).essence_offset + (h.chunk i).size :=
    ⟨h.mEssenceChunks.length - 1, by omega, hT⟩
  classical
  refine ⟨Nat.find hex, (Nat.find_spec hex).1, ?_, (Nat.find_spec hex).2⟩
  cases hi : Nat.find hex with
  | zero => rw [hc.1]; exact h0
  | succ j =>
    have hlt : j + 1 < h.mEssenceChunks.length := by
      have := (Nat.find_spec hex).1
      omega
    have hmin := Nat.find_min hex (by omega : j < Nat.find hex)
    have hj : ¬ o < (h.chunk j).essence_offset + (h.chunk j).size := by
      intro hcon
      exact hmin ⟨by omega, hcon⟩
    have := hc.2.1 j (by omega)
    omega

theorem contiguous_of_same_chunks {h h1 : EssenceChunkHelper} (hc : Contiguous h)
    (hs : h1.mEssenceChunks = h.mEssenceChunks) : Contiguous h1 := by
  unfold Contiguous chunk at hc ⊢
  rw [hs]
  exact hc

/-- The outcome of `GetFilePosition` is the same from every last-accessed
index for every offset other than the end of the essence data. -/
theorem GetFilePosition_independent_of_last (h h1 : EssenceChunkHelper)
    (hc : Contiguous h) (hs : h1.mEssenceChunks = h.mEssenceChunks)
    (hl : h.mLastEssenceChunk < h.mEssenceChunks.length)
    (hl1 : h1.mLastEssenceChunk < h1.mEssenceChunks.length)
    (o : Int) (ho : o ≠ h.back.essence_offset + h.back.size) :
    (h.GetFilePosition o).1 = (h1.GetFilePosition o).1 := by
  have hc1 := contiguous_of_same_chunks hc hs
  have hne : h.mEssenceChunks ≠ [] := by
    intro hnil; rw [hnil] at hl; simp at hl
  have hb : h1.back = h.back := by unfold back chunk; rw [hs]
  have hch : ∀ i, h1.chunk i = h.chunk i := by intro i; unfold chunk; rw [hs]
  rcases lt_trichotomy o (h.back.essence_offset + h.back.size) with hlt | heq | hgt
  · rcases lt_or_le o 0 with hneg | hpos
    · rw [GetFilePosition_fails_of_not_covered h o (fun _ => hl) (not_covers_of_neg hc hneg),
        GetFilePosition_fails_of_not_covered h1 o (fun _ => hl1) (not_covers_of_neg hc1 hneg),
        hs]
    · obtain ⟨i, hi, hlo, hhi⟩ := exists_chunk_inside hc hne hpos hlt
      rw [GetFilePosition_eq_of_inside hc hl hi hlo hhi,
        GetFilePosition_eq_of_inside hc1 hl1 (by rw [hs]; exact hi)
          (by rw [hch]; exact hlo) (by rw [hch]; exact hhi), hch]
  · exact absurd heq ho
  · rw [GetFilePosition_fails_of_not_covered h o (fun _ => hl) (not_covers_of_gt_end hc hgt),
      GetFilePosition_fails_of_not_covered h1 o (fun _ => hl1)
        (not_covers_of_gt_end hc1 (by rw [hb]; exact hgt)),
      hs]

/-- For every offset other than the end of the essence data,
`HaveFilePosition` returns true iff some chunk covers the offset
inclusively. -/
theorem HaveFilePosition_iff_covers (h : EssenceChunkHelper) (hc : Contiguous h)
    (hl : h.mLastEssenceChunk < h.mEssenceChunks.length)
    (o : Int) (ho : o ≠ h.back.essence_offset + h.back.size) :
    (h.HaveFilePosition o).1 = true ↔ ∃ c ∈ h.mEssenceChunks, Covers c o := by
  have hne : h.mEssenceChunks ≠ [] := by
    intro hnil; rw [hnil] at hl; simp at hl
  constructor
  · intro ht
    unfold HaveFilePosition at ht
    rw [isEmpty_false_of_ne_nil hne] at ht
    simp only [Bool.false_eq_true, if_false] at ht
    split at ht
    · simp at ht
    · rename_i h1 hu
      have hu1 := EssenceOffsetUpdate_ok hu
      simp only [Bool.and_eq_true, decide_eq_true_eq] at ht
      refine ⟨h1.chunk h1.mLastEssenceChunk, ?_, ?_⟩
      · rw [← hu1.1]
        exact chunk_mem h1 (hu1.2 hl)
      · unfold Covers
        omega
  · rintro ⟨c, hmem, hcov⟩
    have hpos : 0 ≤ o := by
      by_contra hneg
      exact not_covers_of_neg hc (by omega) c hmem hcov
    have hlt : o < h.back.essence_offset + h.back.size := by
      by_contra hge
      exact not_covers_of_gt_end hc (by omega) c hmem hcov
    obtain ⟨i, hi, hlo, hhi⟩ := exists_chunk_inside hc hne hpos hlt
    unfold HaveFilePosition
    rw [isEmpty_false_of_ne_nil hne, EssenceOffsetUpdate_inside hc hl hi hlo hhi]
    have hc1 : ({ h with mLastEssenceChunk := i } : EssenceChunkHelper).chunk
        ({ h with mLastEssenceChunk := i } : EssenceChunkHelper).mLastEssenceChunk =
        h.chunk i := rfl
    simp only [Bool.false_eq_true, if_false, hc1, Bool.and_eq_true, decide_eq_true_eq]
    omega

end EssenceChunkHelper

/-! ## Read window -/

namespace EssenceReader

theorem LegitimisePosition_eq_clamp (D x : Int) : LegitimisePosition D x = clamp D x := rfl

theorem clamp_bounds {D : Int} (hD : 0 < D) (x : Int) : 0 ≤ clamp D x ∧ clamp D x ≤ D - 1 := by
  unfold clamp
  split
  · omega
  · split <;> omega

/-- With a complete index table of duration `D`, `SetReadLimits` stores the
clamped start; the stored duration is 0 for a non-positive duration or an
empty index table and otherwise
`clamp(start + duration - 1) - clamp(start) + 1`, provided the sum
`start + duration - 1` is representable as `int64_t`; for `D > 0` the window
lies inside the index table whether or not the sum is representable. -/
theorem SetReadLimits_complete_in_range (D start duration : Int) :
    (SetReadLimits true D start duration).mReadStartPosition = clamp D start ∧
    (Int64Range (start + duration - 1) →
      (SetReadLimits true D start duration).mReadDuration =
        if duration ≤ 0 ∨ D = 0 then 0
        else clamp D (start + duration - 1) - clamp D start + 1) ∧
    (0 < D →
      0 ≤ (SetReadLimits true D start duration).mReadStartPosition ∧
      (SetReadLimits true D start duration).mReadStartPosition ≤ D - 1 ∧
      (SetReadLimits true D start duration).mReadStartPosition +
        (SetReadLimits true D start duration).mReadDuration ≤ D) := by
  refine ⟨rfl, ?_, ?_⟩
  · intro hr
    show (if duration ≤ 0 ∨ D = 0 then 0
      else LegitimisePosition D (wrapInt64 (start + duration - 1)) -
        LegitimisePosition D start + 1) = _
    unfold wrapInt64
    rw [toInt64_of_range hr]
    rfl
  · intro hD
    show 0 ≤ LegitimisePosition D start ∧ LegitimisePosition D start ≤ D - 1 ∧
      LegitimisePosition D start + (if duration ≤ 0 ∨ D = 0 then 0
        else LegitimisePosition D (wrapInt64 (start + duration - 1)) -
          LegitimisePosition D start + 1) ≤ D
    simp only [LegitimisePosition_eq_clamp]
    have h1 := clamp_bounds hD start
    have h2 := clamp_bounds hD (wrapInt64 (start + duration - 1))
    refine ⟨h1.1, h1.2, ?_⟩
    split <;> omega

/-- C10, failing input: with a complete index table of duration 100,
`SetReadLimits(2, INT64_MAX)` computes `start + duration - 1` past `INT64_MAX`;
the 64-bit sum is negative, so the stored duration is `0 - 2 + 1 = -1`, where
`clamp(start + duration - 1) - clamp(start) + 1` is 98. -/
theorem SetReadLimits_sum_overflow :
    SetReadLimits true 100 2 INT64_MAX = ⟨2, -1⟩ ∧
    wrapInt64 (2 + INT64_MAX - 1) = -INT64_BOUND ∧
    clamp 100 (2 + INT64_MAX - 1) - clamp 100 2 + 1 = 98 := by
  decide

end EssenceReader

/-! ## Placement of a read in the window -/

namespace EssenceReader

/-- From a position that is not negative, a `Read` that returns has started at
the current position, has returned `min(n, window end - position)` samples
(0 when the read is skipped) and has advanced the position by `n`. -/
theorem Read_ok_of_nonneg {s : ReadState} {n : Nat} {r : ReadResult}
    (hp : 0 ≤ s.mPosition) (hn : (n : Int) < 4294967296) (hr : Read s n = .ok r) :
    r.state = { s with mPosition := s.mPosition + (n : Int) } ∧
    r.start_position = s.mPosition ∧ r.first_sample_offset = 0 ∧
    r.read_num_samples =
      (if s.mReadDuration = 0 ∨
          s.mPosition ≥ wrapInt64 (s.mReadStartPosition + s.mReadDuration) ∨
          wrapInt64 (s.mPosition + (n : Int)) ≤ 0 then 0
       else min (n : Int) (wrapInt64 (s.mReadStartPosition + s.mReadDuration) - s.mPosition)) := by
  unfold Read at hr
  generalize wrapInt64 (s.mReadStartPosition + s.mReadDuration) = we at hr ⊢
  generalize wrapInt64 (s.mPosition + (n : Int)) = ws at hr ⊢
  simp only [Seek, toUInt32] at hr
  by_cases hskip : s.mReadDuration = 0 ∨ s.mPosition ≥ we ∨ ws ≤ 0
  · rw [if_pos hskip] at hr
    simp only [Except.ok.injEq] at hr
    subst hr
    simp [hskip]
  · have hneg : ¬ s.mPosition < 0 := by omega
    rw [if_neg hskip] at hr
    simp only [hneg, if_false] at hr
    rw [if_neg hskip]
    by_cases hgt : s.mPosition + (n : Int) > we
    · simp only [if_pos hgt] at hr
      have e1 : ((n : Int) - (s.mPosition + (n : Int) - we) % 4294967296) % 4294967296 =
          we - s.mPosition := by omega
      rw [e1] at hr
      rw [if_pos (by omega), if_pos (by omega)] at hr
      simp only [Except.ok.injEq] at hr
      subst hr
      refine ⟨?_, rfl, rfl, ?_⟩
      · show ({ s with mPosition := _ } : ReadState) = _
        congr 1
        omega
      · show we - s.mPosition = _
        omega
    · simp only [if_neg hgt] at hr
      by_cases hn0 : (n : Int) > 0
      · rw [if_pos hn0, if_neg (by omega)] at hr
        simp only [Except.ok.injEq] at hr
        subst hr
        refine ⟨rfl, rfl, rfl, ?_⟩
        show (n : Int) = _
        omega
      · rw [if_neg hn0] at hr
        simp at hr

/-- From a position that is not negative `Read(n)` with `n >= 1` returns: the
assertion `read_num_samples > 0` holds. -/
theorem Read_returns_of_nonneg (s : ReadState) (n : Nat)
    (hp : 0 ≤ s.mPosition) (hn1 : 1 ≤ n) (hn : (n : Int) < 4294967296) :
    ∃ r, Read s n = .ok r := by
  unfold Read
  generalize wrapInt64 (s.mReadStartPosition + s.mReadDuration) = we
  generalize wrapInt64 (s.mPosition + (n : Int)) = ws
  simp only [Seek, toUInt32]
  by_cases hskip : s.mReadDuration = 0 ∨ s.mPosition ≥ we ∨ ws ≤ 0
  · rw [if_pos hskip]
    exact ⟨_, rfl⟩
  · have hneg : ¬ s.mPosition < 0 := by omega
    rw [if_neg hskip]
    simp only [hneg, if_false]
    by_cases hgt : s.mPosition + (n : Int) > we
    · simp only [if_pos hgt]
      have e1 : ((n : Int) - (s.mPosition + (n : Int) - we) % 4294967296) % 4294967296 =
          we - s.mPosition := by omega
      rw [e1, if_pos (by omega)]
      exact ⟨_, rfl⟩
    · simp only [if_neg hgt]
      rw [if_pos (by omega)]
      exact ⟨_, rfl⟩

/-- Pre-roll: from a negative position, when `[position, position + n)` reaches
past 0 and the window end is positive, `Read(n)` starts at position 0 with
`first_sample_offset = -position`, returns
`min(n + position, window end)` samples and leaves the position at `n`. -/
theorem Read_eq_of_neg (s : ReadState) (n : Nat)
    (hp : s.mPosition < 0) (hpn : 0 < s.mPosition + (n : Int))
    (hn : (n : Int) < 4294967296) (hrd : s.mReadDuration ≠ 0)
    (hwe : 0 < wrapInt64 (s.mReadStartPosition + s.mReadDuration)) :
    Read s n = .ok
      { read_num_samples :=
          min ((n : Int) + s.mPosition) (wrapInt64 (s.mReadStartPosition + s.mReadDuration))
        start_position := 0
        first_sample_offset := -s.mPosition
        state := { s with mPosition := (n : Int) } } := by
  have hws : wrapInt64 (s.mPosition + (n : Int)) = s.mPosition + (n : Int) := by
    unfold wrapInt64 toInt64 UINT64_MOD INT64_BOUND
    split <;> omega
  unfold Read
  rw [hws]
  generalize wrapInt64 (s.mReadStartPosition + s.mReadDuration) = we at hwe ⊢
  simp only [Seek, toUInt32]
  have hskip : ¬ (s.mReadDuration = 0 ∨ s.mPosition ≥ we ∨ s.mPosition + (n : Int) ≤ 0) := by
    omega
  rw [if_neg hskip]
  simp only [hp, if_true]
  have e0 : (-s.mPosition) % 4294967296 = -s.mPosition := by omega
  rw [e0]
  have e1 : ((n : Int) - -s.mPosition) % 4294967296 = (n : Int) + s.mPosition := by omega
  rw [e1]
  by_cases hgt : 0 + ((n : Int) + s.mPosition) > we
  · simp only [if_pos hgt]
    have e2 : ((n : Int) + s.mPosition - (0 + ((n : Int) + s.mPosition) - we) % 4294967296) %
        4294967296 = we := by omega
    rw [e2, if_pos hwe, if_pos (by omega)]
    congr 2
    · omega
    · congr 1; omega
  · simp only [if_neg hgt]
    rw [if_pos (by omega), if_pos (by omega)]
    congr 2
    · omega
    · congr 1; omega

/-- Counterexample to C11: after `SetReadLimits(10, 5)` a `Read(20)` from
position 0 starts at position 0 and returns 15 samples, so it materialises the
positions 0 to 9, which are before the window start 10. -/
theorem Read_before_window_start :
    SetReadLimits true 100 10 5 = ⟨10, 5⟩ ∧
    Read ⟨10, 5, 0⟩ 20 = .ok ⟨15, 0, 0, ⟨10, 5, 20⟩⟩ :=
  ⟨by decide, rfl⟩

/-- C11, amended: for every stored window `[read_start, read_start +
read_duration)` with `read_start >= 0`, `read_duration >= 0` and a
representable end, a `Read(n)` from any position that returns samples starts
at `max(position, 0)` and ends at or before the window end; `Read` does not
look at the window start, so the range lies inside the window when
`max(position, 0)` is at or after `read_start`. -/
theorem Read_range (s : ReadState) (n : Nat) (r : ReadResult)
    (hn : (n : Int) < 4294967296)
    (hrs : 0 ≤ s.mReadStartPosition) (hrd : 0 ≤ s.mReadDuration)
    (hwin : Int64Range (s.mReadStartPosition + s.mReadDuration))
    (hr : Read s n = .ok r) :
    0 ≤ r.read_num_samples ∧
    (0 < r.read_num_samples →
      r.start_position = max s.mPosition 0 ∧
      r.start_position + r.read_num_samples ≤ s.mReadStartPosition + s.mReadDuration ∧
      (s.mReadStartPosition ≤ max s.mPosition 0 →
        s.mReadStartPosition ≤ r.start_position)) := by
  have hw : wrapInt64 (s.mReadStartPosition + s.mReadDuration) =
      s.mReadStartPosition + s.mReadDuration := toInt64_of_range hwin
  rcases lt_or_le s.mPosition 0 with hneg | hpos
  · have hmax : max s.mPosition 0 = 0 := max_eq_right (le_of_lt hneg)
    unfold Read at hr
    generalize wrapInt64 (s.mPosition + (n : Int)) = ws at hr
    simp only [hw, Seek, toUInt32] at hr
    by_cases hskip : s.mReadDuration = 0 ∨
        s.mPosition ≥ s.mReadStartPosition + s.mReadDuration ∨ ws ≤ 0
    · rw [if_pos hskip] at hr
      simp only [Except.ok.injEq] at hr
      subst hr
      exact ⟨le_refl _, fun h => absurd h (lt_irrefl _)⟩
    · rw [if_neg hskip] at hr
      simp only [hneg, if_true] at hr
      split at hr <;> split at hr
      all_goals first
        | (simp at hr; done)
        | (simp only [Except.ok.injEq] at hr
           subst hr
           dsimp only
           rw [hmax]
           exact ⟨by omega, fun _ => ⟨rfl, by omega, fun h => h⟩⟩)
  · obtain ⟨_, hst, _, hnum⟩ := Read_ok_of_nonneg hpos hn hr
    rw [hw] at hnum
    rw [hst, hnum]
    split
    · exact ⟨le_refl _, fun h => absurd h (lt_irrefl _)⟩
    · rename_i hskip
      refine ⟨by omega, fun _ => ⟨by omega, by omega, fun h => by omega⟩⟩

theorem Read_range_witness :
    (12 : Int) = max 12 0 ∧ (12 : Int) + 3 ≤ 10 + 5 ∧ ((10 : Int) ≤ max 12 0 → (10 : Int) ≤ 12) :=
  (Read_range ⟨10, 5, 12⟩ 20 ⟨3, 12, 0, ⟨10, 5, 32⟩⟩ (by decide) (by decide) (by decide)
    (by decide) rfl).2 (by decide)

/-- C12, failing input: with the window [0, 100) and position -3, `Read(10)`
returns 7 samples and leaves the position at 10, where the position before
the call plus 10 is 7. -/
theorem Read_preroll_position :
    Read ⟨0, 100, -3⟩ 10 = .ok ⟨7, 0, 3, ⟨0, 100, 10⟩⟩ ∧ (-3 : Int) + 10 = 7 :=
  ⟨rfl, by decide⟩

theorem readAll_position_of_nonneg (ns : List Nat) : ∀ (s s1 : ReadState),
    0 ≤ s.mPosition → (∀ n ∈ ns, (n : Int) < 4294967296) → readAll s ns = some s1 →
    s1.mPosition = s.mPosition + ((ns.sum : Nat) : Int) := by
  induction ns with
  | nil =>
    intro s s1 _ _ h
    simp only [readAll, Option.some.injEq] at h
    subst h
    simp
  | cons n ns ih =>
    intro s s1 hp hn h
    simp only [readAll] at h
    split at h
    · rename_i r hr
      obtain ⟨hst, _, _, _⟩ := Read_ok_of_nonneg hp (hn n (by simp)) hr
      have := ih r.state s1 (by rw [hst]; show 0 ≤ s.mPosition + (n : Int); omega)
        (fun m hm => hn m (by simp [hm])) h
      rw [this, hst]
      show s.mPosition + (n : Int) + _ = _
      simp only [List.sum_cons, Nat.cast_add]
      omega
    · simp at h

/-- C13: starting from position 0, with any read window, after `Read` calls
`Read(n_1)`, ..., `Read(n_k)` that all return normally the position is
`n_1 + ... + n_k`. -/
theorem readAll_position (s s1 : ReadState) (ns : List Nat)
    (hp : s.mPosition = 0) (hn : ∀ n ∈ ns, (n : Int) < 4294967296)
    (h : readAll s ns = some s1) :
    s1.mPosition = ((ns.sum : Nat) : Int) := by
  have := readAll_position_of_nonneg ns s s1 (by omega) hn h
  omega

theorem readAll_position_witness :
    (⟨0, 100, 100⟩ : ReadState).mPosition = (([10, 90] : List Nat).sum : Nat) :=
  readAll_position (fresh 100) ⟨0, 100, 100⟩ [10, 90] rfl (by decide) (by decide)

/-- Counterexample to C14: with the window [10, 15) and position 0,
`Read(20)` returns 15 where 5 positions of [0, 20) lie inside the window, and
`Read(5)` returns 5 where [0, 5) is entirely outside the window. -/
theorem Read_count_before_window_start :
    Read ⟨10, 5, 0⟩ 20 = .ok ⟨15, 0, 0, ⟨10, 5, 20⟩⟩ ∧ inWindowCount 10 5 0 20 = 5 ∧
    Read ⟨10, 5, 0⟩ 5 = .ok ⟨5, 0, 0, ⟨10, 5, 5⟩⟩ ∧ inWindowCount 10 5 0 5 = 0 :=
  ⟨rfl, by decide, rfl, by decide⟩

/-- With the read window that the constructor stores for an incomplete index
table, `(0, INT64_MAX)`, and the position `INT64_MAX - 1`, the 64-bit sum
`mPosition + num_samples` of `Read(5)` is negative: the read is skipped and
returns 0, where one position of `[p, p + 5)` lies inside the window. -/
theorem Read_skipped_by_overflow :
    wrapInt64 (9223372036854775806 + ((5 : Nat) : Int)) < 0 ∧
    ∃ r, Read ⟨0, 9223372036854775807, 9223372036854775806⟩ 5 = .ok r ∧
      r.read_num_samples = 0 :=
  ⟨by decide, _, rfl, rfl⟩

/-- C14, amended: for every read window with a representable end, every
position `p >= 0` and every `n >= 1` with a representable sum `p + n`,
`Read(n)` returns `min(n, window end - p)` when `read_duration` is not 0 and
`p` is before the window end, whether `p` is inside the window or before its
start, and 0 otherwise; when `p` is at or after `read_start` this is the
number of positions of `[p, p + n)` inside the window. -/
theorem Read_count (s : ReadState) (n : Nat)
    (hp : 0 ≤ s.mPosition) (hn1 : 1 ≤ n) (hn : (n : Int) < 4294967296)
    (hwin : Int64Range (s.mReadStartPosition + s.mReadDuration))
    (hsum : Int64Range (s.mPosition + (n : Int))) :
    ∃ r, Read s n = .ok r ∧
      r.read_num_samples =
        (if s.mReadDuration = 0 ∨ s.mPosition ≥ s.mReadStartPosition + s.mReadDuration then 0
         else min (n : Int) (s.mReadStartPosition + s.mReadDuration - s.mPosition)) ∧
      (s.mReadStartPosition ≤ s.mPosition → 0 ≤ s.mReadDuration →
        r.read_num_samples =
          inWindowCount s.mReadStartPosition s.mReadDuration s.mPosition n) := by
  have hw : wrapInt64 (s.mReadStartPosition + s.mReadDuration) =
      s.mReadStartPosition + s.mReadDuration := toInt64_of_range hwin
  have hws : wrapInt64 (s.mPosition + (n : Int)) = s.mPosition + (n : Int) :=
    toInt64_of_range hsum
  obtain ⟨r, hr⟩ := Read_returns_of_nonneg s n hp hn1 hn
  obtain ⟨_, _, _, hnum⟩ := Read_ok_of_nonneg hp hn hr
  rw [hw, hws] at hnum
  refine ⟨r, hr, ?_, ?_⟩
  · rw [hnum]
    split
    · rename_i h1
      rw [if_pos (by omega)]
    · rename_i h1
      rw [if_neg (by omega)]
  · intro hge hrd
    rw [hnum]
    unfold inWindowCount
    split <;> omega

theorem Read_count_witness :
    ∃ r, Read ⟨0, 100, 10⟩ 90 = .ok r ∧
      r.read_num_samples =
        (if (100 : Int) = 0 ∨ (10 : Int) ≥ 0 + 100 then 0
         else min ((90 : Nat) : Int) (0 + 100 - 10)) ∧
      ((0 : Int) ≤ 10 → (0 : Int) ≤ 100 → r.read_num_samples = inWindowCount 0 100 10 90) :=
  Read_count ⟨0, 100, 10⟩ 90 (by decide) (by decide) (by decide) (by decide) (by decide)

/-- Pre-roll: for every `k > 0` and `n > k`, with position `-k` and a read
window starting at 0 that holds at least `n - k` edit units, `Read(n)`
returns `n - k`, writes `first_sample_offset = k` to every pushed frame and
starts reading at position 0, the position that `ReadFrameWrappedSamples`
writes to the `ec_position` of the frames it creates. -/
theorem Read_preroll (s : ReadState) (n : Nat) (k : Int)
    (hk : 0 < k) (hnk : k < (n : Int)) (hn : (n : Int) < 4294967296)
    (hp : s.mPosition = -k) (hrs : s.mReadStartPosition = 0)
    (hrd : (n : Int) - k ≤ s.mReadDuration) (hr64 : Int64Range s.mReadDuration) :
    ∃ r, Read s n = .ok r ∧ r.read_num_samples = (n : Int) - k ∧
      r.first_sample_offset = k ∧ r.start_position = 0 := by
  have hw : wrapInt64 (s.mReadStartPosition + s.mReadDuration) = s.mReadDuration := by
    rw [hrs, zero_add]
    exact toInt64_of_range hr64
  refine ⟨_, Read_eq_of_neg s n (by omega) (by omega) hn (by omega) (by rw [hw]; omega),
    ?_, ?_, rfl⟩
  · show min ((n : Int) + s.mPosition) (wrapInt64 (s.mReadStartPosition + s.mReadDuration)) = _
    rw [hw]
    omega
  · show -s.mPosition = k
    omega

theorem Read_preroll_witness :
    ∃ r, Read ⟨0, 100, -3⟩ 10 = .ok r ∧ r.read_num_samples = ((10 : Nat) : Int) - 3 ∧
      r.first_sample_offset = 3 ∧ r.start_position = 0 :=
  Read_preroll ⟨0, 100, -3⟩ 10 3 (by decide) (by decide) (by decide) rfl rfl (by decide)
    (by decide)

/-! ## Groups of contiguous edit units -/

/-- One iteration of the loop when the edit unit at `right` is behind a gap. -/
theorem editUnitGroupLoop_gap {getEditUnit : Int → Except BMXException (Int × Int)}
    {E first position : Int} (fuel : Nat) {left right last rfp : Int}
    (hne : right ≠ left) (hr : 1 ≤ right) (hr32 : right < 4294967296)
    (hl : 0 ≤ left) (hsum : left + right < 4294967296)
    (hget : getEditUnit (position + right - 1) = .ok (rfp, E))
    (hgt : rfp > first + E * (right - 1)) :
    editUnitGroupLoop getEditUnit E first position (fuel + 1) left right last =
      editUnitGroupLoop getEditUnit E first position fuel left ((left + right) / 2) right := by
  have e1 : toUInt32 (right - 1) = right - 1 := by unfold toUInt32; omega
  have e2 : toUInt32 (left + right) = left + right := by unfold toUInt32; omega
  rw [editUnitGroupLoop, if_pos hne, hget]
  simp only [e1, e2, ne_eq, not_true_eq_false, if_false, if_pos hgt]

/-- One iteration of the loop when the edit unit at `right` is contiguous. -/
theorem editUnitGroupLoop_contiguous {getEditUnit : Int → Except BMXException (Int × Int)}
    {E first position : Int} (fuel : Nat) {left right last rfp : Int}
    (hne : right ≠ left) (hr : 1 ≤ right) (hr32 : right < 4294967296)
    (hsum : right + last + 1 < 4294967296) (hlast : 0 ≤ last)
    (hget : getEditUnit (position + right - 1) = .ok (rfp, E))
    (heq : rfp = first + E * (right - 1)) :
    editUnitGroupLoop getEditUnit E first position (fuel + 1) left right last =
      editUnitGroupLoop getEditUnit E first position fuel right
        ((right + last + 1) / 2) last := by
  have e1 : toUInt32 (right - 1) = right - 1 := by unfold toUInt32; omega
  have e2 : toUInt32 (right + last + 1) = right + last + 1 := by unfold toUInt32; omega
  rw [editUnitGroupLoop, if_pos hne, hget]
  simp only [e1, e2, ne_eq, not_true_eq_false, if_false]
  rw [if_neg (by omega), if_neg (by simp [heq])]

theorem editUnitGroupLoop_exit {getEditUnit : Int → Except BMXException (Int × Int)}
    {E first position : Int} (fuel : Nat) (left last : Int) :
    editUnitGroupLoop getEditUnit E first position (fuel + 1) left left last =
      .ok (some left) := by
  rw [editUnitGroupLoop]
  simp

/-- The loop finds the number of contiguous edit units: with fewer than 2^31
candidates, edit units that never fall behind the contiguous position and a
gap that never closes, from every state that satisfies the loop invariant the
loop returns, given enough iterations, a count `k` such that unit `k - 1` is
contiguous and unit `k` is not (or `k` is the maximum). -/
theorem editUnitGroupLoop_result {getEditUnit : Int → Except BMXException (Int × Int)}
    {E position : Int} {g : Int → Int} {M : Int} (hM : M < 2147483648)
    (hget : ∀ j, 0 ≤ j → j < M → getEditUnit (position + j) = .ok (g j, E))
    (hge : ∀ j, 0 ≤ j → j < M → g 0 + E * j ≤ g j) :
    ∀ (a b : Nat) (left right last : Int),
      1 ≤ left → left ≤ right → right ≤ last → last ≤ M →
      g (left - 1) = g 0 + E * (left - 1) →
      (g (last - 1) ≠ g 0 + E * (last - 1) ∨ (last = M ∧ (right = left → left = M))) →
      (right = left → last ≤ left + 1) →
      (last - left).toNat = a → (right - left).toNat = b →
      ∃ (k : Int) (fuel0 : Nat), 1 ≤ k ∧ k ≤ M ∧ g (k - 1) = g 0 + E * (k - 1) ∧
        (k = M ∨ g k ≠ g 0 + E * k) ∧
        ∀ fuel, fuel0 ≤ fuel →
          editUnitGroupLoop getEditUnit E (g 0) position fuel left right last =
            .ok (some k) := by
  intro a
  induction a using Nat.strong_induction_on with
  | _ a iha =>
  intro b
  induction b using Nat.strong_induction_on with
  | _ b ihb =>
  intro left right last h1 hlr hrl hlM hC hlast hK ha hb
  by_cases hex : right = left
  · subst hex
    refine ⟨right, 1, h1, by omega, hC, ?_, ?_⟩
    · rcases hlast with hn | ⟨_, hm⟩
      · have hK1 := hK rfl
        by_cases h2 : last = right
        · rw [h2] at hn; exact absurd hC hn
        · have h3 : last - 1 = right := by omega
          rw [h3] at hn
          exact Or.inr hn
      · exact Or.inl (hm rfl)
    · intro fuel hf
      obtain ⟨f, rfl⟩ : ∃ f, fuel = f + 1 := ⟨fuel - 1, by omega⟩
      exact editUnitGroupLoop_exit f right last
  · have hpos : position + right - 1 = position + (right - 1) := by omega
    have hg := hget (right - 1) (by omega) (by omega)
    rw [← hpos] at hg
    by_cases hc : g (right - 1) = g 0 + E * (right - 1)
    · obtain ⟨k, fuel0, hk1, hkM, hkC, hkmax, hrun⟩ :=
        iha (last - right).toNat (by omega) ((right + last + 1) / 2 - right).toNat
          right ((right + last + 1) / 2) last (by omega) (by omega) (by omega) hlM hc
          (by
            rcases hlast with hn | ⟨hm, _⟩
            · exact Or.inl hn
            · exact Or.inr ⟨hm, fun h => by omega⟩)
          (fun h => by omega) rfl rfl
      refine ⟨k, fuel0 + 1, hk1, hkM, hkC, hkmax, ?_⟩
      intro fuel hf
      obtain ⟨f, rfl⟩ : ∃ f, fuel = f + 1 := ⟨fuel - 1, by omega⟩
      rw [editUnitGroupLoop_contiguous f hex (by omega) (by omega) (by omega) (by omega) hg hc]
      exact hrun f (by omega)
    · have hgt : g (right - 1) > g 0 + E * (right - 1) := by
        have := hge (right - 1) (by omega) (by omega)
        omega
      have hstep : ∀ f, editUnitGroupLoop getEditUnit E (g 0) position (f + 1) left right last =
          editUnitGroupLoop getEditUnit E (g 0) position f left ((left + right) / 2) right :=
        fun f => editUnitGroupLoop_gap f hex (by omega) (by omega) (by omega) (by omega) hg hgt
      have hinv : ∃ (k : Int) (fuel0 : Nat), 1 ≤ k ∧ k ≤ M ∧ g (k - 1) = g 0 + E * (k - 1) ∧
          (k = M ∨ g k ≠ g 0 + E * k) ∧
          ∀ fuel, fuel0 ≤ fuel →
            editUnitGroupLoop getEditUnit E (g 0) position fuel left ((left + right) / 2)
              right = .ok (some k) := by
        by_cases hsame : (right - left).toNat = a
        · exact ihb ((left + right) / 2 - left).toNat (by omega) left ((left + right) / 2)
            right h1 (by omega) (by omega) (by omega) hC (Or.inl hc) (fun h => by omega)
            hsame rfl
        · exact iha (right - left).toNat (by omega) ((left + right) / 2 - left).toNat left
            ((left + right) / 2) right h1 (by omega) (by omega) (by omega) hC (Or.inl hc)
            (fun h => by omega) rfl rfl
      obtain ⟨k, fuel0, hk1, hkM, hkC, hkmax, hrun⟩ := hinv
      refine ⟨k, fuel0 + 1, hk1, hkM, hkC, hkmax, ?_⟩
      intro fuel hf
      obtain ⟨f, rfl⟩ : ∃ f, fuel = f + 1 := ⟨fuel - 1, by omega⟩
      rw [hstep f]
      exact hrun f (by omega)

/-- For fewer than 2^31 candidates `GetEditUnitGroup` returns the largest
group of contiguous edit units: when the edit units `p + j`, `j < max`, have
size `E` and file positions `g j` that never fall behind `g 0 + E * j`, and a
gap once opened never closes, then, given enough iterations, the result is
`(g 0, E * k, k)` for the largest `k` in `[1, max]` such that
`g j = g 0 + E * j` for all `j < k`. -/
theorem GetEditUnitGroup_largest_group
    (getEditUnit : Int → Except BMXException (Int × Int)) (E position : Int)
    (g : Int → Int) (max_samples : Nat)
    (hmax1 : 1 ≤ max_samples) (hmax : (max_samples : Int) < 2147483648)
    (hget : ∀ j, 0 ≤ j → j < (max_samples : Int) →
      getEditUnit (position + j) = .ok (g j, E))
    (hge : ∀ j, 0 ≤ j → j < (max_samples : Int) → g 0 + E * j ≤ g j)
    (hgap : ∀ j j1, 0 ≤ j → j ≤ j1 → j1 < (max_samples : Int) →
      g 0 + E * j < g j → g 0 + E * j1 < g j1) :
    ∃ k : Int, 1 ≤ k ∧ k ≤ (max_samples : Int) ∧
      (∀ j, 0 ≤ j → j < k → g j = g 0 + E * j) ∧
      (k = (max_samples : Int) ∨ g k ≠ g 0 + E * k) ∧
      ∃ fuel0 : Nat, ∀ fuel, fuel0 ≤ fuel →
        GetEditUnitGroup fuel true getEditUnit E position max_samples =
          .ok (some (g 0, E * k, k)) := by
  have hfirst : getEditUnit position = .ok (g 0, E) := by
    have := hget 0 (le_refl _) (by omega)
    rwa [add_zero] at this
  have hprefix : ∀ k : Int, 1 ≤ k → k ≤ (max_samples : Int) →
      g (k - 1) = g 0 + E * (k - 1) → ∀ j, 0 ≤ j → j < k → g j = g 0 + E * j := by
    intro k hk1 hkM hkC j hj0 hjk
    by_contra hne
    have h1 := hge j hj0 (by omega)
    have h2 := hgap j (k - 1) hj0 (by omega) (by omega) (by omega)
    omega
  by_cases hone : max_samples = 1
  · subst hone
    refine ⟨1, le_refl _, by simp, ?_, Or.inl (by simp), 0, ?_⟩
    · intro j hj0 hj1
      have : j = 0 := by omega
      subst this
      simp
    · intro fuel _
      unfold GetEditUnitGroup
      simp [hfirst]
  · have hC0 : g (1 - 1) = g 0 + E * (1 - 1) := by simp
    obtain ⟨k, fuel0, hk1, hkM, hkC, hkmax, hrun⟩ :=
      editUnitGroupLoop_result hmax hget hge
        ((max_samples : Int) - 1).toNat ((max_samples : Int) - 1).toNat
        1 (max_samples : Int) (max_samples : Int) (le_refl _) (by omega) (le_refl _)
        (le_refl _) hC0 (Or.inr ⟨rfl, fun h => by omega⟩) (fun h => by omega) rfl rfl
    refine ⟨k, hk1, hkM, hprefix k hk1 hkM hkC, hkmax, fuel0, ?_⟩
    intro fuel hf
    unfold GetEditUnitGroup
    have hpos : max_samples > 0 := by omega
    simp only [hpos, not_true_eq_false, if_false, Bool.not_true, Bool.false_or, beq_iff_eq,
      hone, hfirst, hrun fuel hf]

/-- C16, failing input: with 2^31 candidate edit units of 10 bytes stored
without a gap from file position 1000, `GetEditUnitGroup(5, 2^31)` throws
after two iterations, whatever the iteration bound; with 2^31 - 1 candidates
it returns the whole group. -/
theorem GetEditUnitGroup_overflow :
    (∀ fuel, GetEditUnitGroup (fuel + 2) true (contiguousUnits 1000 10) 10 5 2147483648 =
      .error .checkFailed) ∧
    GetEditUnitGroup 100 true (contiguousUnits 1000 10) 10 5 2147483647 =
      .ok (some (1050, 21474836470, 2147483647)) := by
  refine ⟨fun fuel => ?_, rfl⟩
  rfl

end EssenceReader

/-! ## The KL walker -/

namespace EssenceReader

namespace Reader

/-- C18: when the reader is at a content-package start with no look-ahead KL,
`essence_start_key` is set and the next KL read has a different key,
`ReadFirstEssenceKL` fails with the start-key mismatch; after the failure the
look-ahead KL is the null key with zero lengths, `at_cp_start` is false and
`essence_start_key` is unchanged. -/
theorem ReadFirstEssenceKL_mismatch (env : Env) (fuel : Nat) (r : Reader) (kl : KL)
    (cursor : Int) (hcp : r.mAtCPStart = true) (hnext : r.mNextKey = Key.null)
    (hset : r.mEssenceStartKey ≠ Key.null) (hread : env.readKL r.cursor = .ok (kl, cursor))
    (hkey : kl.key ≠ r.mEssenceStartKey) :
    ∃ r1, ReadFirstEssenceKL env fuel r = some (.error .startKeyMismatch, r1) ∧
      r1.mNextKey = Key.null ∧ r1.mNextLLen = 0 ∧ r1.mNextLen = 0 ∧
      r1.mAtCPStart = false ∧ r1.mEssenceStartKey = r.mEssenceStartKey := by
  unfold ReadFirstEssenceKL
  simp only [hcp, hnext, hread, Bool.not_true, Bool.false_eq_true, if_false, beq_self_eq_true,
    if_true]
  have h1 : ((r.SetNextKL kl.key kl.llen kl.len).mEssenceStartKey == Key.null) = false := by
    simp [SetNextKL, hset]
  have h2 : ((r.SetNextKL kl.key kl.llen kl.len).mNextKey !=
      (r.SetNextKL kl.key kl.llen kl.len).mEssenceStartKey) = true := by
    simp [SetNextKL, hkey]
  simp only [h1, h2, Bool.false_eq_true, if_false, if_true]
  exact ⟨_, rfl, rfl, rfl, rfl, rfl, rfl⟩

theorem ReadFirstEssenceKL_mismatch_witness :
    ∃ r1, ReadFirstEssenceKL (Examples.tableEnv Examples.twoPackages true) 10
        (Examples.readerAt 1120 (.essenceElement 1 0) false) =
        some (.error .startKeyMismatch, r1) ∧
      r1.mNextKey = Key.null ∧ r1.mNextLLen = 0 ∧ r1.mNextLen = 0 ∧
      r1.mAtCPStart = false ∧
      r1.mEssenceStartKey = (Examples.readerAt 1120 (.essenceElement 1 0) false).mEssenceStartKey :=
  ReadFirstEssenceKL_mismatch (Examples.tableEnv Examples.twoPackages true) 10
    (Examples.readerAt 1120 (.essenceElement 1 0) false) ⟨.essenceElement 2 0, 4, 40⟩ 1140
    rfl rfl (by decide) rfl (by decide)

/-- C20: in an incomplete file, when the loop of `SeekContentPackageStart`
reads the random-index-pack key (which is not the essence start key): if
`have_footer` is false the call fails with the error of a RIP before a footer
and `file_is_complete` stays false; if `have_footer` is true
`SetFileIsComplete` sets `file_is_complete` and the loop goes on behind the
value of the KLV. -/
theorem seekLoop_randomIndexPack (env : Env) (have_start_key : Bool) (fuel : Nat)
    (r : Reader) (partition_id : Nat) (kl : KL) (cursor : Int)
    (hread : env.readNextNonFillerKL r.cursor = .ok (kl, cursor))
    (hkey : kl.key = Key.randomIndexPack) (hinc : r.mFileIsComplete = false)
    (hstart : r.mEssenceStartKey ≠ Key.randomIndexPack) :
    (r.mHaveFooter = false →
      seekLoop env have_start_key (fuel + 1) r partition_id =
        some (.error .ripBeforeFooter, { r with cursor := cursor }) ∧
      ({ r with cursor := cursor } : Reader).mFileIsComplete = false) ∧
    (r.mHaveFooter = true →
      seekLoop env have_start_key (fuel + 1) r partition_id =
        seekLoop env have_start_key fuel
          (({ r with cursor := cursor } : Reader).SetFileIsComplete.skip kl.len)
          partition_id ∧
      (({ r with cursor := cursor } : Reader).SetFileIsComplete.skip kl.len).mFileIsComplete =
        true ∧
      (({ r with cursor := cursor } : Reader).SetFileIsComplete.skip kl.len).cursor =
        cursor + (kl.len : Int)) := by
  have hne : (kl.key == r.mEssenceStartKey) = false := by
    rw [hkey]
    simp only [beq_eq_false_iff_ne, ne_eq]
    exact fun h => hstart h.symm
  constructor
  · intro hf
    refine ⟨?_, hinc⟩
    rw [seekLoop, hread]
    simp [hkey, Key.isPartitionPack, Key.isHeaderMetadata, Key.isIndexTableSegment,
      Key.isEssenceElement, hinc, hf, hkey ▸ hne]
  · intro hf
    refine ⟨?_, rfl, ?_⟩
    swap
    · simp only [skip, SetFileIsComplete, hf, Bool.not_true, Bool.false_eq_true, if_false]
    rw [seekLoop, hread]
    simp [hkey, Key.isPartitionPack, Key.isHeaderMetadata, Key.isIndexTableSegment,
      Key.isEssenceElement, hinc, hf, hkey ▸ hne]

theorem seekLoop_randomIndexPack_witness :
    seekLoop (Examples.tableEnv Examples.twoPackages true) true (9 + 1)
        (Examples.readerAt 1400 (.essenceElement 1 0) false) 0 =
      some (.error .ripBeforeFooter,
        { Examples.readerAt 1400 (.essenceElement 1 0) false with cursor := 1420 }) ∧
    ({ Examples.readerAt 1400 (.essenceElement 1 0) false with cursor := 1420 } :
      Reader).mFileIsComplete = false :=
  (seekLoop_randomIndexPack (Examples.tableEnv Examples.twoPackages true) true 9
    (Examples.readerAt 1400 (.essenceElement 1 0) false) 0 ⟨.randomIndexPack, 4, 12⟩ 1420
    rfl rfl rfl (by decide)).1 rfl

/-- The counter `cp_num_read` is the number of bytes of the KLVs consumed. -/
theorem contentPackageLoop_bytes (env : Env) (fuel : Nat) (size : Int) :
    ∀ (n : Nat) (r r1 : Reader) (consumed0 consumed : List KL) (cp0 cp : Int),
      contentPackageLoop env fuel size n r consumed0 cp0 = some (.ok (consumed, cp), r1) →
      ∃ extra, consumed = consumed0 ++ extra ∧ cp = cp0 + (extra.map klvBytes).sum := by
  intro n
  induction n with
  | zero => intro r r1 c0 c cp0 cp h; simp [contentPackageLoop] at h
  | succ n ih =>
    intro r r1 c0 c cp0 cp h
    rw [contentPackageLoop] at h
    split at h
    · split at h
      · simp at h
      · simp at h
      · simp only [Option.some.injEq, Prod.mk.injEq, Except.ok.injEq] at h
        obtain ⟨⟨h1, h2⟩, _⟩ := h
        exact ⟨[], by simp [h1], by simp [h2]⟩
      · rename_i kl r2 _
        split at h
        · simp at h
        · obtain ⟨extra, he, hc⟩ := ih _ _ _ _ _ _ h
          refine ⟨kl :: extra, by simp [he], ?_⟩
          rw [hc]
          simp only [List.map_cons, List.sum_cons, klvBytes]
          omega
    · simp only [Option.some.injEq, Prod.mk.injEq, Except.ok.injEq] at h
      obtain ⟨⟨h1, h2⟩, _⟩ := h
      exact ⟨[], by simp [h1], by simp [h2]⟩

/-- C19: in a frame-wrapped read of an edit unit whose index entry declares
the size `S > 0`, when the loop over the KLVs of the content package ends
without another failure, having consumed the KLVs `kls`, the content package
is accepted iff the bytes of these KLVs (16 + llen + len each) add up to `S`;
otherwise, whether the KLVs run past `S` or the package ends before `S`
bytes at the start key or a partition pack, the read fails with the index
mismatch. -/
theorem readContentPackage_size (env : Env) (fuel n : Nat) (S : Int) (r r1 : Reader)
    (kls : List KL) (cp : Int) (hS : 0 < S)
    (hloop : contentPackageLoop env fuel S n r [] 0 = some (.ok (kls, cp), r1)) :
    cp = (kls.map klvBytes).sum ∧
    readContentPackage env fuel n S r =
      some (if (kls.map klvBytes).sum = S then .ok kls else .error .indexMismatch, r1) := by
  obtain ⟨extra, he, hc⟩ := contentPackageLoop_bytes env fuel S n r r1 [] kls 0 cp hloop
  simp only [List.nil_append] at he
  subst he
  simp only [zero_add] at hc
  refine ⟨hc, ?_⟩
  unfold readContentPackage
  rw [hloop]
  simp only [← hc]
  by_cases h : cp = S
  · simp [h]
  · have hS0 : S ≠ 0 := by omega
    simp [h, hS0]

theorem readContentPackage_size_witness :
    readContentPackage (Examples.tableEnv Examples.twoPackages true) 10 10 200
        (Examples.readerAt 1000 (.essenceElement 1 0) false) =
      some (if (([⟨.essenceElement 1 0, 4, 100⟩, ⟨.essenceElement 2 0, 4, 40⟩] :
            List KL).map klvBytes).sum = 200
          then .ok [⟨.essenceElement 1 0, 4, 100⟩, ⟨.essenceElement 2 0, 4, 40⟩]
          else .error .indexMismatch,
        ((contentPackageLoop (Examples.tableEnv Examples.twoPackages true) 10 200 10
          (Examples.readerAt 1000 (.essenceElement 1 0) false) [] 0).get rfl).2) :=
  (readContentPackage_size (Examples.tableEnv Examples.twoPackages true) 10 10 200
    (Examples.readerAt 1000 (.essenceElement 1 0) false) _
    [⟨.essenceElement 1 0, 4, 100⟩, ⟨.essenceElement 2 0, 4, 40⟩] 180 (by decide) rfl).2

/-! ### The essence start key -/

@[simp] theorem skip_mNextKey (r : Reader) (n : Int) : (r.skip n).mNextKey = r.mNextKey := rfl

@[simp] theorem skip_mAtCPStart (r : Reader) (n : Int) :
    (r.skip n).mAtCPStart = r.mAtCPStart := rfl

@[simp] theorem skip_mEssenceStartKey (r : Reader) (n : Int) :
    (r.skip n).mEssenceStartKey = r.mEssenceStartKey := rfl

@[simp] theorem ResetState_mNextKey (r : Reader) : r.ResetState.mNextKey = Key.null := rfl

@[simp] theorem ResetState_mAtCPStart (r : Reader) : r.ResetState.mAtCPStart = false := rfl

@[simp] theorem ResetState_mEssenceStartKey (r : Reader) :
    r.ResetState.mEssenceStartKey = r.mEssenceStartKey := rfl

@[simp] theorem ResetNextKL_mNextKey (r : Reader) : r.ResetNextKL.mNextKey = Key.null := rfl

@[simp] theorem ResetNextKL_mAtCPStart (r : Reader) :
    r.ResetNextKL.mAtCPStart = r.mAtCPStart := rfl

@[simp] theorem ResetNextKL_mEssenceStartKey (r : Reader) :
    r.ResetNextKL.mEssenceStartKey = r.mEssenceStartKey := rfl

theorem SetFileIsComplete_view (r : Reader) :
    r.SetFileIsComplete.mNextKey = r.mNextKey ∧
    r.SetFileIsComplete.mAtCPStart = r.mAtCPStart ∧
    r.SetFileIsComplete.mEssenceStartKey = r.mEssenceStartKey := by
  unfold SetFileIsComplete SetHaveFooter
  cases r.mHaveFooter <;> exact ⟨rfl, rfl, rfl⟩

theorem GetPartitionId_view (r : Reader) (file_position : Int) :
    (GetPartitionId r file_position).2.mNextKey = r.mNextKey ∧
    (GetPartitionId r file_position).2.mAtCPStart = r.mAtCPStart ∧
    (GetPartitionId r file_position).2.mEssenceStartKey = r.mEssenceStartKey := by
  unfold GetPartitionId
  dsimp only
  split <;> exact ⟨rfl, rfl, rfl⟩

theorem ReadNextPartition_view (env : Env) (r : Reader) (key : Key) (llen len : Nat) :
    (ReadNextPartition env r key llen len).2.mNextKey = r.mNextKey ∧
    (ReadNextPartition env r key llen len).2.mAtCPStart = r.mAtCPStart ∧
    (ReadNextPartition env r key llen len).2.mEssenceStartKey = r.mEssenceStartKey := by
  unfold ReadNextPartition
  dsimp only
  repeat' split
  all_goals exact ⟨rfl, rfl, rfl⟩

/-- The effect of `SetContentPackageStart` on the look-ahead KL, `mAtCPStart`
and `mEssenceStartKey`. -/
theorem SetContentPackageStart_view (env : Env) (r : Reader) (base fp : Int) (atKey : Bool) :
    (SetContentPackageStart env r base fp atKey).2.mEssenceStartKey = r.mEssenceStartKey ∧
    ((SetContentPackageStart env r base fp atKey).1 = .ok () →
      (SetContentPackageStart env r base fp atKey).2.mAtCPStart = true ∧
      (SetContentPackageStart env r base fp atKey).2.mNextKey =
        (if atKey then Key.null else r.mNextKey)) := by
  unfold SetContentPackageStart
  simp only
  split
  · exact ⟨rfl, fun h => by simp at h⟩
  · refine ⟨?_, fun _ => ⟨rfl, ?_⟩⟩
    · cases atKey <;> simp only [Bool.false_eq_true, if_false, if_true] <;> split <;> rfl
    · cases atKey <;> simp only [Bool.false_eq_true, if_false, if_true] <;> split <;> rfl

theorem ReadNextPartition_view_of_eq {env : Env} {r r2 : Reader} {key : Key} {llen len : Nat}
    {res : Except ReaderError Unit}
    (h : ReadNextPartition env r key llen len = (res, r2)) :
    r2.mNextKey = r.mNextKey ∧ r2.mAtCPStart = r.mAtCPStart ∧
    r2.mEssenceStartKey = r.mEssenceStartKey := by
  have hv := ReadNextPartition_view env r key llen len
  rw [h] at hv
  exact hv

/-- The loop of `SeekContentPackageStart` leaves `mAtCPStart` as it is; it
leaves the essence start key as it is when the key was set on entry or the
loop fails; when it fails the look-ahead KL is as before; when it succeeds the
look-ahead KL has the essence start key. -/
theorem seekLoop_view (env : Env) (hsk : Bool) :
    ∀ (fuel : Nat) (r : Reader) (pid : Nat) (res : Except ReaderError Unit) (r1 : Reader),
      seekLoop env hsk fuel r pid = some (res, r1) →
      r1.mAtCPStart = r.mAtCPStart ∧
      (hsk = true → r1.mEssenceStartKey = r.mEssenceStartKey) ∧
      ((∃ e, res = .error e) →
        r1.mNextKey = r.mNextKey ∧ r1.mEssenceStartKey = r.mEssenceStartKey) ∧
      (res = .ok () → r1.mNextKey = r1.mEssenceStartKey) := by
  intro fuel
  induction fuel with
  | zero => intro r pid res r1 h; simp [seekLoop] at h
  | succ fuel ih =>
    intro r pid res r1 h
    have transfer : ∀ (rmid : Reader) (pid1 : Nat), rmid.mNextKey = r.mNextKey →
        rmid.mAtCPStart = r.mAtCPStart → rmid.mEssenceStartKey = r.mEssenceStartKey →
        seekLoop env hsk fuel rmid pid1 = some (res, r1) →
        r1.mAtCPStart = r.mAtCPStart ∧
        (hsk = true → r1.mEssenceStartKey = r.mEssenceStartKey) ∧
        ((∃ e, res = .error e) →
          r1.mNextKey = r.mNextKey ∧ r1.mEssenceStartKey = r.mEssenceStartKey) ∧
        (res = .ok () → r1.mNextKey = r1.mEssenceStartKey) := by
      intro rmid pid1 h1 h2 h3 hrun
      have := ih rmid pid1 res r1 hrun
      rw [h1, h2, h3] at this
      exact this
    have done : ∀ (e : ReaderError) (rmid : Reader), rmid.mNextKey = r.mNextKey →
        rmid.mAtCPStart = r.mAtCPStart → rmid.mEssenceStartKey = r.mEssenceStartKey →
        some ((Except.error e : Except ReaderError Unit), rmid) = some (res, r1) →
        r1.mAtCPStart = r.mAtCPStart ∧
        (hsk = true → r1.mEssenceStartKey = r.mEssenceStartKey) ∧
        ((∃ e, res = .error e) →
          r1.mNextKey = r.mNextKey ∧ r1.mEssenceStartKey = r.mEssenceStartKey) ∧
        (res = .ok () → r1.mNextKey = r1.mEssenceStartKey) := by
      intro e rmid h1 h2 h3 heq
      simp only [Option.some.injEq, Prod.mk.injEq] at heq
      obtain ⟨hres, hr⟩ := heq
      subst hr
      subst hres
      exact ⟨h2, fun _ => h3, fun _ => ⟨h1, h3⟩, fun hh => by simp at hh⟩
    rw [seekLoop] at h
    split at h
    · refine done _ _ ?_ ?_ ?_ h <;> rfl
    · rename_i kl cursor hread
      dsimp only at h
      split at h
      · split at h
        · refine transfer _ _ ?_ ?_ ?_ h
          · exact (GetPartitionId_view _ _).1
          · exact (GetPartitionId_view _ _).2.1
          · exact (GetPartitionId_view _ _).2.2
        · split at h
          · rename_i e r2 hrnp
            have hv := ReadNextPartition_view_of_eq hrnp
            split at hv <;> exact done e r2 hv.1 hv.2.1 hv.2.2 h
          · rename_i u r2 hrnp
            have hv := ReadNextPartition_view_of_eq hrnp
            split at hv <;> exact transfer r2 _ hv.1 hv.2.1 hv.2.2 h
      · split at h
        · split at h
          · refine transfer _ _ ?_ ?_ ?_ h <;> rfl
          · refine transfer _ _ ?_ ?_ ?_ h <;> rfl
        · split at h
          · split at h
            · split at h
              · refine done _ _ ?_ ?_ ?_ h <;> rfl
              · refine transfer _ _ ?_ ?_ ?_ h <;> rfl
            · split at h
              · refine transfer _ _ ?_ ?_ ?_ h <;> rfl
              · refine transfer _ _ ?_ ?_ ?_ h <;> rfl
          · split at h
            · rename_i hcond
              split at h
              · refine transfer _ _ ?_ ?_ ?_ h <;> rfl
              · split at h
                · refine done _ _ ?_ ?_ ?_ h <;> rfl
                · rename_i helper happ
                  simp only [Option.some.injEq, Prod.mk.injEq] at h
                  obtain ⟨hres, hr⟩ := h
                  subst hr
                  subst hres
                  cases hsk with
                  | true =>
                    simp only [Bool.true_and, Bool.not_true, Bool.false_and, Bool.or_false,
                      Bool.and_eq_true, beq_iff_eq] at hcond
                    refine ⟨rfl, fun _ => rfl, fun hh => ?_, fun _ => ?_⟩
                    · obtain ⟨e, he⟩ := hh
                      simp at he
                    · exact hcond.2
                  | false =>
                    refine ⟨rfl, fun hh => by simp at hh, fun hh => ?_, fun _ => rfl⟩
                    obtain ⟨e, he⟩ := hh
                    simp at he
            · split at h
              · split at h
                · refine done _ _ ?_ ?_ ?_ h <;> rfl
                · refine transfer _ _ ?_ ?_ ?_ h
                  · exact (SetFileIsComplete_view _).1
                  · exact (SetFileIsComplete_view _).2.1
                  · exact (SetFileIsComplete_view _).2.2
              · refine transfer _ _ ?_ ?_ ?_ h <;> rfl

/-- The effect of `SeekContentPackageStart` on the look-ahead KL, `mAtCPStart`
and `mEssenceStartKey`. -/
theorem SeekContentPackageStart_view (env : Env) (fuel : Nat) (r r1 : Reader)
    (res : Except ReaderError Unit)
    (h : SeekContentPackageStart env fuel r = some (res, r1)) :
    r1.mAtCPStart = r.mAtCPStart ∧
    (r.mEssenceStartKey ≠ Key.null → r1.mEssenceStartKey = r.mEssenceStartKey) ∧
    ((∃ e, res = .error e) →
      (r1.mNextKey = r.mNextKey ∨ r1.mNextKey = Key.null) ∧
      r1.mEssenceStartKey = r.mEssenceStartKey) ∧
    (res = .ok () → r1.mNextKey = r1.mEssenceStartKey) := by
  have hfirst : ∀ (res0 : Except ReaderError Unit) (r0 : Reader),
      (if r.mNextKey.isPartitionPack then
        if r.mFileIsComplete then ((.ok () : Except ReaderError Unit), r.skip r.mNextLen)
        else ReadNextPartition env r r.mNextKey r.mNextLLen r.mNextLen
      else (.ok (), r)) = (res0, r0) →
      r0.mNextKey = r.mNextKey ∧ r0.mAtCPStart = r.mAtCPStart ∧
      r0.mEssenceStartKey = r.mEssenceStartKey := by
    intro res0 r0 hf
    split at hf
    · split at hf
      · simp only [Prod.mk.injEq] at hf
        obtain ⟨_, rfl⟩ := hf
        exact ⟨rfl, rfl, rfl⟩
      · exact ReadNextPartition_view_of_eq hf
    · simp only [Prod.mk.injEq] at hf
      obtain ⟨_, rfl⟩ := hf
      exact ⟨rfl, rfl, rfl⟩
  have hkey : r.mEssenceStartKey ≠ Key.null → (r.mEssenceStartKey != Key.null) = true := by
    intro hne
    simp [hne]
  unfold SeekContentPackageStart at h
  dsimp only at h
  split at h
  · rename_i e r0 hf
    have hv := hfirst _ _ hf
    simp only [Option.some.injEq, Prod.mk.injEq] at h
    obtain ⟨hres, hr⟩ := h
    subst hr
    subst hres
    exact ⟨hv.2.1, fun _ => hv.2.2, fun _ => ⟨Or.inl hv.1, hv.2.2⟩, fun hh => by simp at hh⟩
  · rename_i u r0 hf
    have hv := hfirst _ _ hf
    split at h
    · have hl := seekLoop_view env _ fuel _ _ res r1 h
      have hg := GetPartitionId_view r0.ResetNextKL r0.ResetNextKL.cursor
      rw [hg.2.1, hg.2.2, hg.1] at hl
      simp only [ResetNextKL_mAtCPStart, ResetNextKL_mEssenceStartKey, ResetNextKL_mNextKey,
        hv.2.1, hv.2.2] at hl
      exact ⟨hl.1, fun hne => hl.2.1 (hkey hne), fun hh => ⟨Or.inr (hl.2.2.1 hh).1,
        (hl.2.2.1 hh).2⟩, hl.2.2.2⟩
    · have hl := seekLoop_view env _ fuel _ _ res r1 h
      simp only [ResetNextKL_mAtCPStart, ResetNextKL_mEssenceStartKey, ResetNextKL_mNextKey,
        hv.2.1, hv.2.2] at hl
      exact ⟨hl.1, fun hne => hl.2.1 (hkey hne), fun hh => ⟨Or.inr (hl.2.2.1 hh).1,
        (hl.2.2.1 hh).2⟩, hl.2.2.2⟩

theorem SetContentPackageStart_view_of_eq {env : Env} {r r2 : Reader} {base fp : Int}
    {atKey : Bool} {res : Except ReaderError Unit}
    (h : SetContentPackageStart env r base fp atKey = (res, r2)) :
    r2.mEssenceStartKey = r.mEssenceStartKey ∧
    (res = .ok () → r2.mAtCPStart = true ∧
      r2.mNextKey = (if atKey then Key.null else r.mNextKey)) := by
  have hv := SetContentPackageStart_view env r base fp atKey
  rw [h] at hv
  exact hv

theorem LookAheadInv_ResetState (r : Reader) : LookAheadInv r.ResetState := by
  intro h
  simp at h

/-- The function `ReadFirstEssenceKL` keeps the look-ahead invariant and a set
essence start key, and a KL that it returns has the essence start key. -/
theorem ReadFirstEssenceKL_view (env : Env) (fuel : Nat) (r r1 : Reader)
    (res : Except ReaderError KL) (hinv : LookAheadInv r)
    (h : ReadFirstEssenceKL env fuel r = some (res, r1)) :
    LookAheadInv r1 ∧
    (r.mEssenceStartKey ≠ Key.null → r1.mEssenceStartKey = r.mEssenceStartKey) ∧
    (∀ kl, res = .ok kl → kl.key = r1.mEssenceStartKey) := by
  unfold ReadFirstEssenceKL at h
  split at h
  · split at h
    · simp at h
    · rename_i e r0 hs
      have hv := SeekContentPackageStart_view env fuel r r0 _ hs
      simp only [Option.some.injEq, Prod.mk.injEq] at h
      obtain ⟨hres, hr⟩ := h
      subst hr
      subst hres
      refine ⟨LookAheadInv_ResetState r0, fun _ => ?_, fun kl hh => by simp at hh⟩
      exact (hv.2.2.1 ⟨e, rfl⟩).2
    · rename_i u r0 hs
      have hv := SeekContentPackageStart_view env fuel r r0 _ hs
      have hnk := hv.2.2.2 rfl
      split at h
      · rename_i e r2 hset
        have hv2 := SetContentPackageStart_view_of_eq hset
        simp only [Option.some.injEq, Prod.mk.injEq] at h
        obtain ⟨hres, hr⟩ := h
        subst hr
        subst hres
        refine ⟨LookAheadInv_ResetState r2, fun hne => ?_, fun kl hh => by simp at hh⟩
        show r2.mEssenceStartKey = _
        rw [hv2.1]
        exact hv.2.1 hne
      · rename_i u2 r2 hset
        have hv2 := SetContentPackageStart_view_of_eq hset
        have hv3 := hv2.2 rfl
        simp only [Bool.false_eq_true, if_false] at hv3
        simp only [Option.some.injEq, Prod.mk.injEq] at h
        obtain ⟨hres, hr⟩ := h
        subst hr
        subst hres
        refine ⟨fun _ _ => ?_, fun hne => ?_, fun kl hh => ?_⟩
        · rw [hv3.2, hv2.1]; exact hnk
        · rw [hv2.1]; exact hv.2.1 hne
        · simp only [Except.ok.injEq] at hh
          subst hh
          show r2.mNextKey = _
          rw [hv3.2, hv2.1]; exact hnk
  · rename_i hcp
    simp only [Bool.not_eq_true', Bool.not_eq_false] at hcp
    split at h
    · split at h
      · simp only [Option.some.injEq, Prod.mk.injEq] at h
        obtain ⟨hres, hr⟩ := h
        subst hr
        subst hres
        exact ⟨LookAheadInv_ResetState r, fun _ => rfl, fun kl hh => by simp at hh⟩
      · rename_i kl cursor hread
        dsimp only at h
        split at h
        · simp only [Option.some.injEq, Prod.mk.injEq] at h
          obtain ⟨hres, hr⟩ := h
          subst hr
          subst hres
          rename_i hnull
          have hnull1 : r.mEssenceStartKey = Key.null := by
            simpa [SetNextKL] using hnull
          refine ⟨fun _ _ => rfl, fun hne => absurd hnull1 hne, fun kl1 hh => ?_⟩
          simp only [Except.ok.injEq] at hh
          subst hh
          rfl
        · split at h
          · simp only [Option.some.injEq, Prod.mk.injEq] at h
            obtain ⟨hres, hr⟩ := h
            subst hr
            subst hres
            exact ⟨LookAheadInv_ResetState _, fun _ => rfl, fun kl hh => by simp at hh⟩
          · rename_i hneq
            simp only [Option.some.injEq, Prod.mk.injEq] at h
            obtain ⟨hres, hr⟩ := h
            subst hr
            subst hres
            have heq : kl.key = r.mEssenceStartKey := by
              simpa [SetNextKL] using hneq
            refine ⟨fun _ _ => heq, fun _ => rfl, fun kl1 hh => ?_⟩
            simp only [Except.ok.injEq] at hh
            subst hh
            exact heq
    · rename_i hnn
      simp only [Option.some.injEq, Prod.mk.injEq] at h
      obtain ⟨hres, hr⟩ := h
      subst hr
      subst hres
      have hne : r.mNextKey ≠ Key.null := by
        intro hc
        rw [hc] at hnn
        simp at hnn
      refine ⟨hinv, fun _ => rfl, fun kl hh => ?_⟩
      simp only [Except.ok.injEq] at hh
      subst hh
      exact hinv hcp hne

/-- The function `ReadNonfirstEssenceKL` keeps the look-ahead invariant and
the essence start key. -/
theorem ReadNonfirstEssenceKL_view (env : Env) (r r1 : Reader)
    (res : Except ReaderError (Option KL)) (hinv : LookAheadInv r)
    (h : ReadNonfirstEssenceKL env r = (res, r1)) :
    LookAheadInv r1 ∧ r1.mEssenceStartKey = r.mEssenceStartKey := by
  unfold ReadNonfirstEssenceKL at h
  split at h
  · simp only [Prod.mk.injEq] at h
    obtain ⟨_, rfl⟩ := h
    exact ⟨LookAheadInv_ResetState r, rfl⟩
  · rename_i hassert
    simp only [not_not] at hassert
    split at h
    · simp only [Prod.mk.injEq] at h
      obtain ⟨_, rfl⟩ := h
      exact ⟨LookAheadInv_ResetState r, rfl⟩
    · rename_i kl cursor hread
      dsimp only at h
      split at h
      · rename_i hkeq
        split at h
        · rename_i e r2 hset
          have hv2 := SetContentPackageStart_view_of_eq hset
          simp only [Prod.mk.injEq] at h
          obtain ⟨_, rfl⟩ := h
          exact ⟨LookAheadInv_ResetState r2, hv2.1⟩
        · rename_i u r2 hset
          have hv2 := SetContentPackageStart_view_of_eq hset
          have hv3 := hv2.2 rfl
          simp only [Bool.false_eq_true, if_false] at hv3
          simp only [Prod.mk.injEq] at h
          obtain ⟨_, rfl⟩ := h
          refine ⟨fun _ _ => ?_, hv2.1⟩
          rw [hv3.2, hv2.1]
          simpa using hkeq
      · split at h
        · simp only [Prod.mk.injEq] at h
          obtain ⟨_, rfl⟩ := h
          refine ⟨fun hcp _ => ?_, ?_⟩
          · have hcp1 : r.mAtCPStart = true := by
              revert hcp
              simp only [SetNextKL]
              split <;> exact id
            rw [hassert.2] at hcp1
            exact absurd hcp1 (by decide)
          · simp only [SetNextKL]
            split <;> rfl
        · simp only [Prod.mk.injEq] at h
          obtain ⟨_, rfl⟩ := h
          exact ⟨hinv, rfl⟩

/-- Every call of `Op` keeps the look-ahead invariant and a set essence start
key. -/
theorem runOp_view (env : Env) (fuel : Nat) (r r1 : Reader) (op : Op)
    (hinv : LookAheadInv r) (h : runOp env fuel r op = some r1) :
    LookAheadInv r1 ∧
    (r.mEssenceStartKey ≠ Key.null → r1.mEssenceStartKey = r.mEssenceStartKey) := by
  cases op with
  | readFirstEssenceKL =>
    simp only [runOp, Option.map_eq_some'] at h
    obtain ⟨⟨res, r2⟩, h1, h2⟩ := h
    simp only at h2
    subst h2
    have := ReadFirstEssenceKL_view env fuel r r2 res hinv h1
    exact ⟨this.1, this.2.1⟩
  | readNonfirstEssenceKL =>
    simp only [runOp, Option.some.injEq] at h
    have := ReadNonfirstEssenceKL_view env r (ReadNonfirstEssenceKL env r).2
      (ReadNonfirstEssenceKL env r).1 hinv rfl
    rw [h] at this
    exact ⟨this.1, fun _ => this.2⟩
  | readEssenceKL first_element =>
    simp only [runOp, Option.map_eq_some'] at h
    obtain ⟨⟨res, r2⟩, h1, h2⟩ := h
    simp only at h2
    subst h2
    unfold ReadEssenceKL at h1
    split at h1
    · split at h1
      · simp at h1
      · rename_i e r3 hf
        simp only [Option.some.injEq, Prod.mk.injEq] at h1
        obtain ⟨_, rfl⟩ := h1
        have := ReadFirstEssenceKL_view env fuel r r3 _ hinv hf
        exact ⟨this.1, this.2.1⟩
      · rename_i kl r3 hf
        simp only [Option.some.injEq, Prod.mk.injEq] at h1
        obtain ⟨_, rfl⟩ := h1
        have := ReadFirstEssenceKL_view env fuel r r3 _ hinv hf
        exact ⟨LookAheadInv_ResetState r3, this.2.1⟩
    · simp only [Option.some.injEq] at h1
      have := ReadNonfirstEssenceKL_view env r r2 res hinv h1
      exact ⟨this.1, fun _ => this.2⟩
  | seekContentPackageStart =>
    simp only [runOp, Option.map_eq_some'] at h
    obtain ⟨⟨res, r2⟩, h1, h2⟩ := h
    simp only at h2
    subst h2
    have hv := SeekContentPackageStart_view env fuel r r2 res h1
    refine ⟨fun hcp hnn => ?_, hv.2.1⟩
    cases res with
    | ok u => exact hv.2.2.2 rfl
    | error e =>
      obtain ⟨hk, hs⟩ := hv.2.2.1 ⟨e, rfl⟩
      rcases hk with hk | hk
      · rw [hk, hs]
        rw [hv.1] at hcp
        rw [hk] at hnn
        exact hinv hcp hnn
      · exact absurd hk hnn
  | resetState =>
    simp only [runOp, Option.some.injEq] at h
    subst h
    exact ⟨LookAheadInv_ResetState r, fun _ => rfl⟩
  | seekIndexed base_position file_position =>
    simp only [runOp, Option.some.injEq] at h
    have hv := SetContentPackageStart_view env { r with cursor := file_position }
      base_position file_position true
    rw [h] at hv
    have hok : (SetContentPackageStart env { r with cursor := file_position }
        base_position file_position true).1 = .ok () := by
      unfold SetContentPackageStart
      simp
    have hv2 := hv.2 hok
    simp only [if_true] at hv2
    exact ⟨fun _ hnn => absurd hv2.2 hnn, fun _ => hv.1⟩
  | seekFirst =>
    simp only [runOp] at h
    split at h
    · simp at h
    · rename_i e r2 hs
      simp only [Option.some.injEq] at h
      subst h
      have hv := SeekContentPackageStart_view env fuel r r2 _ hs
      exact ⟨LookAheadInv_ResetState r2, fun _ => (hv.2.2.1 ⟨_, rfl⟩).2⟩
    · rename_i u r2 hs
      have hv := SeekContentPackageStart_view env fuel r r2 _ hs
      have hnk := hv.2.2.2 rfl
      split at h
      · rename_i e r3 hset
        have hv2 := SetContentPackageStart_view_of_eq hset
        simp only [Option.some.injEq] at h
        subst h
        refine ⟨LookAheadInv_ResetState r3, fun hne => ?_⟩
        show r3.mEssenceStartKey = _
        rw [hv2.1]
        exact hv.2.1 hne
      · rename_i u2 r3 hset
        have hv2 := SetContentPackageStart_view_of_eq hset
        have hv3 := hv2.2 rfl
        simp only [Bool.false_eq_true, if_false] at hv3
        simp only [Option.some.injEq] at h
        subst h
        refine ⟨fun _ _ => ?_, fun hne => ?_⟩
        · rw [hv3.2, hv2.1]; exact hnk
        · rw [hv2.1]; exact hv.2.1 hne
  | moveCursor position =>
    simp only [runOp, Option.some.injEq] at h
    subst h
    exact ⟨hinv, fun _ => rfl⟩

theorem runOps_LookAheadInv (env : Env) (fuel : Nat) (ops : List Op) :
    ∀ (r r1 : Reader), LookAheadInv r → runOps env fuel r ops = some r1 → LookAheadInv r1 := by
  induction ops with
  | nil =>
    intro r r1 hinv h
    simp only [runOps, Option.some.injEq] at h
    subst h
    exact hinv
  | cons op ops ih =>
    intro r r1 hinv h
    simp only [runOps] at h
    split at h
    · simp at h
    · rename_i r2 hop
      exact ih r2 r1 (runOp_view env fuel r r2 op hinv hop).1 h

/-- C17: `essence_start_key` is write-once. In every state reached from a
reader that is not at a content-package start (as the constructor leaves it)
by calls that change the look-ahead KL, `at_cp_start` or the key, once
`essence_start_key` is not null none of these calls changes it, and every KL
that `ReadFirstEssenceKL` returns has that key. -/
theorem essence_start_key_write_once (env : Env) (fuel : Nat) (r0 r : Reader)
    (ops : List Op) (h0 : r0.mAtCPStart = false)
    (hrun : runOps env fuel r0 ops = some r) (hset : r.mEssenceStartKey ≠ Key.null) :
    (∀ op r1, runOp env fuel r op = some r1 → r1.mEssenceStartKey = r.mEssenceStartKey) ∧
    (∀ kl r1, ReadFirstEssenceKL env fuel r = some (.ok kl, r1) →
      kl.key = r.mEssenceStartKey ∧ r1.mEssenceStartKey = r.mEssenceStartKey) := by
  have hinv0 : LookAheadInv r0 := by
    intro h
    rw [h0] at h
    exact absurd h (by decide)
  have hinv := runOps_LookAheadInv env fuel ops r0 r hinv0 hrun
  refine ⟨fun op r1 h => (runOp_view env fuel r r1 op hinv h).2 hset, fun kl r1 h => ?_⟩
  have hv := ReadFirstEssenceKL_view env fuel r r1 _ hinv h
  have hk := hv.2.1 hset
  exact ⟨by rw [← hk]; exact hv.2.2 kl rfl, hk⟩

theorem essence_start_key_write_once_witness :
    (⟨.essenceElement 1 0, 4, 100⟩ : KL).key =
      (Examples.readerAt 1000 (.essenceElement 1 0) false).ResetState.mEssenceStartKey ∧
    ((ReadFirstEssenceKL (Examples.tableEnv Examples.twoPackages true) 10
      (Examples.readerAt 1000 (.essenceElement 1 0) false).ResetState).get rfl).2.mEssenceStartKey =
      (Examples.readerAt 1000 (.essenceElement 1 0) false).ResetState.mEssenceStartKey :=
  (essence_start_key_write_once (Examples.tableEnv Examples.twoPackages true) 10
    (Examples.readerAt 1000 (.essenceElement 1 0) false).ResetState
    (Examples.readerAt 1000 (.essenceElement 1 0) false).ResetState [] rfl rfl
    (by decide)).2 ⟨.essenceElement 1 0, 4, 100⟩ _ rfl

end Reader

end EssenceReader

/-! ## Completion of the file -/

namespace EssenceReader

namespace Reader

/-- After `SetFileIsComplete` the three completion flags are set, whatever the
window; when the stored window has `0 ≤ read_start`, `0 ≤ read_duration` and
a representable sum `read_start + read_duration - 1`, and the index table has
duration `D ≥ 0`, the window left lies inside `[0, D]`. -/
theorem SetFileIsComplete_window (r : Reader) :
    r.SetFileIsComplete.mFileIsComplete = true ∧
    r.SetFileIsComplete.mHaveFooter = true ∧
    r.SetFileIsComplete.indexIsComplete = true ∧
    (0 ≤ r.mReadStartPosition → 0 ≤ r.mReadDuration → 0 ≤ r.indexDuration →
      Int64Range (r.mReadStartPosition + r.mReadDuration - 1) →
      0 ≤ r.SetFileIsComplete.mReadStartPosition ∧
      0 ≤ r.SetFileIsComplete.mReadDuration ∧
      r.SetFileIsComplete.mReadStartPosition + r.SetFileIsComplete.mReadDuration ≤
        r.indexDuration) := by
  have hD : (if (!r.mHaveFooter) = true then r.SetHaveFooter else r).indexDuration =
      r.indexDuration := by split <;> rfl
  have hs : (if (!r.mHaveFooter) = true then r.SetHaveFooter else r).mReadStartPosition =
      r.mReadStartPosition := by split <;> rfl
  have hd : (if (!r.mHaveFooter) = true then r.SetHaveFooter else r).mReadDuration =
      r.mReadDuration := by split <;> rfl
  refine ⟨rfl, ?_, rfl, ?_⟩
  · unfold SetFileIsComplete
    dsimp only
    cases hf : r.mHaveFooter
    · rfl
    · simp [hf]
  · intro h0 h1 h2 h3
    have key : r.SetFileIsComplete.mReadStartPosition =
          (SetReadLimits true r.indexDuration r.mReadStartPosition
            r.mReadDuration).mReadStartPosition ∧
        r.SetFileIsComplete.mReadDuration =
          (SetReadLimits true r.indexDuration r.mReadStartPosition
            r.mReadDuration).mReadDuration := by
      unfold SetFileIsComplete
      dsimp only
      rw [hD, hs, hd]
      exact ⟨rfl, rfl⟩
    rw [key.1, key.2]
    have hc := SetReadLimits_complete_in_range r.indexDuration r.mReadStartPosition
      r.mReadDuration
    rw [hc.1, hc.2.1 h3]
    unfold clamp
    unfold Int64Range INT64_BOUND at h3
    repeat' split
    all_goals omega

/-- C21, failing input: a reader of an incomplete file whose window was set
with `SetReadLimits(2, INT64_MAX)` (stored as given while the index table is
incomplete) reaches `SetFileIsComplete` with an index table of 100 edit
units. The flags are set, but `start + duration - 1` overflows in the
`SetReadLimits` call and the stored read duration is -1, not a duration
between 0 and 98. -/
theorem SetFileIsComplete_window_overflow :
    SetReadLimits false 0 2 INT64_MAX = ⟨2, INT64_MAX⟩ ∧
    (SetFileIsComplete
      { Examples.readerAt 1000 Key.null true with
        mReadStartPosition := 2, mReadDuration := INT64_MAX,
        indexDuration := 100 }).mReadStartPosition = 2 ∧
    (SetFileIsComplete
      { Examples.readerAt 1000 Key.null true with
        mReadStartPosition := 2, mReadDuration := INT64_MAX,
        indexDuration := 100 }).mReadDuration = -1 ∧
    (SetFileIsComplete
      { Examples.readerAt 1000 Key.null true with
        mReadStartPosition := 2, mReadDuration := INT64_MAX,
        indexDuration := 100 }).mFileIsComplete = true := by
  decide

end Reader

end EssenceReader

/-! ## Frame conditions of the index-building calls -/

namespace EssenceChunkHelper

theorem chunk_append_left {h h1 : EssenceChunkHelper} {D : List EssenceChunk}
    {x y : EssenceChunk} (hD : h.mEssenceChunks = D ++ [x])
    (hD1 : h1.mEssenceChunks = D ++ [y]) {k : Nat} (hk : k < D.length) :
    h1.chunk k = h.chunk k := by
  unfold chunk
  rw [hD, hD1]
  simp [List.getD_eq_getElem?_getD, List.getElem?_append_left hk]

theorem chunk_append_last {h : EssenceChunkHelper} {D : List EssenceChunk}
    {x : EssenceChunk} (hD : h.mEssenceChunks = D ++ [x]) :
    h.chunk D.length = x := by
  unfold chunk
  rw [hD]
  simp [List.getD_eq_getElem?_getD]

/-- C26: `UpdateLastChunk(file_pos, is_end)` changes the index exactly when
it is not empty, its last chunk is incomplete and `file_pos` is at or past
the end of that chunk; it then sets the size of the last chunk to
`file_pos - file_position` and its completeness to `is_end` and changes
nothing else, and otherwise leaves the whole object as it was. The number of
chunks stays the same, no chunk shrinks, and a chunk that is complete or is
not the last one is not modified. -/
theorem UpdateLastChunk_frame (h : EssenceChunkHelper) (file_pos : Int) (is_end : Bool) :
    (h.UpdateLastChunk file_pos is_end =
      if h.mEssenceChunks ≠ [] ∧ h.back.is_complete = false ∧
          h.back.file_position + h.back.size ≤ file_pos then
        { h with mEssenceChunks := h.mEssenceChunks.dropLast ++
            [{ h.back with size := file_pos - h.back.file_position, is_complete := is_end }] }
      else h) ∧
    (h.UpdateLastChunk file_pos is_end).mEssenceChunks.length = h.mEssenceChunks.length ∧
    ∀ k, k < h.mEssenceChunks.length →
      (h.chunk k).size ≤ ((h.UpdateLastChunk file_pos is_end).chunk k).size ∧
      ((h.chunk k).is_complete = true ∨ k + 1 < h.mEssenceChunks.length →
        (h.UpdateLastChunk file_pos is_end).chunk k = h.chunk k) := by
  refine ⟨?_, ?_, ?_⟩
  · unfold UpdateLastChunk
    by_cases hc : h.mEssenceChunks ≠ [] ∧ h.back.is_complete = false ∧
        h.back.file_position + h.back.size ≤ file_pos
    · rw [if_pos hc, if_pos]
      simp only [Bool.and_eq_true, Bool.not_eq_true', decide_eq_true_eq, List.isEmpty_eq_false]
      exact ⟨⟨hc.1, hc.2.1⟩, hc.2.2⟩
    · rw [if_neg hc, if_neg]
      simp only [Bool.and_eq_true, Bool.not_eq_true', decide_eq_true_eq, List.isEmpty_eq_false]
      intro hx
      exact hc ⟨hx.1.1, hx.1.2, hx.2⟩
  · rcases (UpdateLastChunk_chunks h file_pos is_end).2 with he | ⟨D, x, hD, _, _, hD1⟩
    · rw [he]
    · rw [hD1, hD]; simp
  · intro k hk
    rcases (UpdateLastChunk_chunks h file_pos is_end).2 with he | ⟨D, x, hD, hinc, hle, hD1⟩
    · rw [he]; exact ⟨le_refl _, fun _ => rfl⟩
    · rw [hD] at hk
      simp only [List.length_append, List.length_singleton] at hk
      by_cases hlt : k < D.length
      · rw [chunk_append_left hD hD1 hlt]
        exact ⟨le_refl _, fun _ => rfl⟩
      · have hk2 : k = D.length := by omega
        subst hk2
        rw [chunk_append_last hD, chunk_append_last hD1]
        refine ⟨?_, ?_⟩
        · show x.size ≤ file_pos - x.file_position
          omega
        · rintro (hcomp | hlast)
          · rw [hinc] at hcomp; exact absurd hcomp (by decide)
          · rw [hD] at hlast
            simp only [List.length_append, List.length_singleton] at hlast
            omega

/-- In clip-wrapped mode `AppendChunk(partition, pos, llen, len)` appends one
complete chunk and sets `mNumIndexedPartitions` to `partition + 1` exactly
when the size of the chunk is representable and not negative; the size is
`len`, and `len - f` for the very first chunk with
`mAvidFirstFrameOffset = f > 0`, which has `file_position = pos + f`. In every
other case the `BMX_CHECK` fails and the object is left as it was. The
64-bit subtraction of `f` from the converted `len` lets a `len` of `2^63` or
more pass when `len - f` is below `2^63`. -/
theorem AppendChunk_clip_wrapped (h : EssenceChunkHelper) (bo pid : Nat) (pos : Int)
    (llen len : Nat) (hclip : h.isFrameWrapped = false) (hlen : (len : Int) < UINT64_MOD)
    (hf : h.mAvidFirstFrameOffset ≤ INT64_MAX) :
    (0 ≤ (if h.mAvidFirstFrameOffset > 0 ∧ h.mEssenceChunks = []
        then (len : Int) - h.mAvidFirstFrameOffset else (len : Int)) →
      (if h.mAvidFirstFrameOffset > 0 ∧ h.mEssenceChunks = []
        then (len : Int) - h.mAvidFirstFrameOffset else (len : Int)) < INT64_BOUND →
      ∃ h1 c, h.AppendChunk bo pid pos llen len = .ok h1 ∧
        h1.mEssenceChunks = h.mEssenceChunks ++ [c] ∧
        c.file_position = (if h.mAvidFirstFrameOffset > 0 ∧ h.mEssenceChunks = []
          then pos + h.mAvidFirstFrameOffset else pos) ∧
        c.size = (if h.mAvidFirstFrameOffset > 0 ∧ h.mEssenceChunks = []
          then (len : Int) - h.mAvidFirstFrameOffset else (len : Int)) ∧
        c.is_complete = true ∧ c.partition_id = pid ∧
        h1.mNumIndexedPartitions = pid + 1) ∧
    ((INT64_BOUND ≤ (if h.mAvidFirstFrameOffset > 0 ∧ h.mEssenceChunks = []
          then (len : Int) - h.mAvidFirstFrameOffset else (len : Int)) ∨
        (if h.mAvidFirstFrameOffset > 0 ∧ h.mEssenceChunks = []
          then (len : Int) - h.mAvidFirstFrameOffset else (len : Int)) < 0) →
      h.AppendChunk bo pid pos llen len = .error .checkFailed ∧
      h.applyOp (.append bo pid pos llen len) = h) := by
  have hadj : (decide (h.mAvidFirstFrameOffset > 0) && h.mEssenceChunks.isEmpty) = true ↔
      (h.mAvidFirstFrameOffset > 0 ∧ h.mEssenceChunks = []) := by
    simp [List.isEmpty_iff]
  have hsub : ∀ f : Int, 0 < f → f ≤ INT64_MAX →
      (0 ≤ (len : Int) - f → (len : Int) - f < INT64_BOUND →
        wrapInt64 (toInt64 (len : Int) - f) = (len : Int) - f) ∧
      ((INT64_BOUND ≤ (len : Int) - f ∨ (len : Int) - f < 0) →
        wrapInt64 (toInt64 (len : Int) - f) < 0) := by
    intro f hf0 hf1
    unfold INT64_MAX at hf1
    unfold UINT64_MOD at hlen
    unfold wrapInt64 toInt64 UINT64_MOD INT64_BOUND
    constructor
    · intro h0 h1
      split_ifs <;> omega
    · intro hbad
      split_ifs <;> omega
  have hplain : ((len : Int) < INT64_BOUND → toInt64 (len : Int) = len) ∧
      (INT64_BOUND ≤ (len : Int) → toInt64 (len : Int) < 0) := by
    unfold UINT64_MOD at hlen
    unfold toInt64 UINT64_MOD INT64_BOUND
    constructor
    · intro h1; split_ifs <;> omega
    · intro h1; split_ifs <;> omega
  constructor
  · intro hsz hsz1
    by_cases hc : h.mAvidFirstFrameOffset > 0 ∧ h.mEssenceChunks = []
    · rw [if_pos hc] at hsz hsz1
      simp only [if_pos hc]
      unfold AppendChunk
      simp only [hclip, Bool.false_eq_true, if_false, if_pos (hadj.2 hc),
        (hsub _ hc.1 hf).1 hsz hsz1]
      rw [if_pos (by omega)]
      exact ⟨_, _, rfl, rfl, rfl, rfl, rfl, rfl, rfl⟩
    · rw [if_neg hc] at hsz hsz1
      simp only [if_neg hc]
      unfold AppendChunk
      simp only [hclip, Bool.false_eq_true, if_false, if_neg (fun x => hc (hadj.1 x)),
        hplain.1 hsz1]
      rw [if_pos (by omega)]
      exact ⟨_, _, rfl, rfl, rfl, rfl, rfl, rfl, rfl⟩
  · intro hbad
    have hfail : h.AppendChunk bo pid pos llen len = .error .checkFailed := by
      by_cases hc : h.mAvidFirstFrameOffset > 0 ∧ h.mEssenceChunks = []
      · rw [if_pos hc] at hbad
        have := (hsub _ hc.1 hf).2 hbad
        unfold AppendChunk
        simp only [hclip, Bool.false_eq_true, if_false, if_pos (hadj.2 hc)]
        rw [if_neg (by omega)]
      · rw [if_neg hc] at hbad
        have : toInt64 (len : Int) < 0 := hplain.2 (by omega)
        unfold AppendChunk
        simp only [hclip, Bool.false_eq_true, if_false, if_neg (fun x => hc (hadj.1 x))]
        rw [if_neg (by omega)]
    refine ⟨hfail, ?_⟩
    simp only [applyOp, hfail]

theorem AppendChunk_clip_wrapped_witness :
    ∃ h1 c, (create false 8).AppendChunk 0 0 100 4 50 = .ok h1 ∧
      h1.mEssenceChunks = [] ++ [c] ∧ c.file_position = 108 ∧ c.size = 42 ∧
      c.is_complete = true ∧ c.partition_id = 0 ∧ h1.mNumIndexedPartitions = 0 + 1 :=
  (AppendChunk_clip_wrapped (create false 8) 0 0 100 4 50 rfl (by decide) (by decide)).1
    (by decide) (by decide)

/-- C25, failing input: the first chunk of a clip-wrapped file with
`mAvidFirstFrameOffset = 8` and a KLV length of `2^63`, which is not
representable as `int64_t`. The converted length is `INT64_MIN`; the 64-bit
subtraction of 8 wraps to `2^63 - 8`, so `BMX_CHECK(essence_chunk.size >= 0)`
passes and the chunk is appended, where the call should fail and leave the
object as it was. With a length of `2^63 + 8` the check fails. -/
theorem AppendChunk_size_wraps :
    ¬ Int64Range ((9223372036854775808 : Nat) : Int) ∧
    toInt64 ((9223372036854775808 : Nat) : Int) = -9223372036854775808 ∧
    (create false 8).AppendChunk 0 0 100 4 9223372036854775808 =
      .ok { create false 8 with
        mEssenceChunks := [⟨108, 0, 9223372036854775800, true, 0⟩]
        mNumIndexedPartitions := 1 } ∧
    (create false 8).AppendChunk 0 0 100 4 9223372036854775816 = .error .checkFailed :=
  ⟨by decide, by decide, rfl, rfl⟩

theorem UpdateLastChunk_frame_witness :
    ((Examples.growing 0).chunk 1).size ≤
        (((Examples.growing 0).UpdateLastChunk 250 false).chunk 1).size ∧
    ((Examples.growing 0).UpdateLastChunk 250 false).chunk 0 = (Examples.growing 0).chunk 0 :=
  ⟨((UpdateLastChunk_frame (Examples.growing 0) 250 false).2.2 1 (by decide)).1,
   ((UpdateLastChunk_frame (Examples.growing 0) 250 false).2.2 0 (by decide)).2
     (Or.inl (by decide))⟩

end EssenceChunkHelper

/-! ## The lookup behind `GetIndexedFilePosition` -/

namespace EssenceChunkHelper

end EssenceChunkHelper

namespace EssenceReader

end EssenceReader

/-! ## Partition lookup -/

namespace EssenceReader

namespace Reader

theorem toUInt64_of_nonneg {x : Int} (h0 : 0 ≤ x) (h1 : x < INT64_BOUND) : toUInt64 x = x := by
  unfold toUInt64 UINT64_MOD
  unfold INT64_BOUND at h1
  omega

/-- The loop of `GetPartitionId` stops at the first partition from its start
that lies past the file position, or at the end of the scanned range. -/
theorem partitionScan_spec (ps : List Partition) (fp : Int) :
    ∀ n i, i ≤ partitionScan ps fp n i ∧ partitionScan ps fp n i ≤ i + n ∧
      (∀ j, i ≤ j → j < partitionScan ps fp n i →
        ((ps.getD j default).thisPartition : Int) ≤ toUInt64 fp) ∧
      (partitionScan ps fp n i < i + n →
        ((ps.getD (partitionScan ps fp n i) default).thisPartition : Int) > toUInt64 fp) := by
  intro n
  induction n with
  | zero =>
    intro i
    simp only [partitionScan]
    exact ⟨le_refl _, le_refl _, fun j h1 h2 => by omega, fun h => by omega⟩
  | succ n ih =>
    intro i
    unfold partitionScan
    split
    · rename_i hgt
      exact ⟨le_refl _, by omega, fun j h1 h2 => by omega, fun _ => hgt⟩
    · rename_i hle
      obtain ⟨h1, h2, h3, h4⟩ := ih (i + 1)
      refine ⟨by omega, by omega, fun j hj1 hj2 => ?_, fun hlt => h4 (by omega)⟩
      rcases Nat.eq_or_lt_of_le hj1 with he | hl
      · subst he; omega
      · exact h3 j (by omega) hj2

/-- A scan started at an index before which no partition lies past the file
position stops where the scan from index 0 stops. -/
theorem partitionScan_from_hint (ps : List Partition) (fp : Int) (i : Nat)
    (hi : i ≤ ps.length)
    (hpre : ∀ j, j < i → ((ps.getD j default).thisPartition : Int) ≤ toUInt64 fp) :
    partitionScan ps fp (ps.length - i) i = partitionScan ps fp ps.length 0 := by
  obtain ⟨a1, a2, a3, a4⟩ := partitionScan_spec ps fp (ps.length - i) i
  obtain ⟨b1, b2, b3, b4⟩ := partitionScan_spec ps fp ps.length 0
  rcases Nat.lt_trichotomy (partitionScan ps fp (ps.length - i) i)
      (partitionScan ps fp ps.length 0) with hlt | heq | hgt
  · have h1 := b3 _ (Nat.zero_le _) hlt
    have h2 := a4 (by omega)
    omega
  · exact heq
  · have h2 := b4 (by omega)
    by_cases hc : partitionScan ps fp ps.length 0 < i
    · have := hpre _ hc
      omega
    · have := a3 _ (by omega) hgt
      omega

/-- One call of `GetPartitionId` from a hint before which every partition
starts at or before the previous file position: the result is that of the
scan from index 0, and the hint left has the same property. -/
theorem GetPartitionId_from_hint (r : Reader) (fp : Int) (hne : r.partitions ≠ [])
    (hid : r.mPreviousPartitionId < r.partitions.length)
    (hpre : ∀ j, j < r.mPreviousPartitionId →
      ((r.partitions.getD j default).thisPartition : Int) ≤ r.mPreviousFilePosition)
    (h0 : 0 ≤ fp) (h1 : fp < INT64_BOUND) :
    (GetPartitionId r fp).1 = partitionIdFromStart r.partitions fp ∧
    (GetPartitionId r fp).2.partitions = r.partitions ∧
    (GetPartitionId r fp).2.mPreviousPartitionId = (GetPartitionId r fp).1 ∧
    (GetPartitionId r fp).2.mPreviousFilePosition = fp ∧
    (GetPartitionId r fp).1 < r.partitions.length ∧
    (∀ j, j < (GetPartitionId r fp).1 →
      ((r.partitions.getD j default).thisPartition : Int) ≤ fp) := by
  have hlen : 0 < r.partitions.length := List.length_pos.mpr hne
  have hu := toUInt64_of_nonneg h0 h1
  obtain ⟨b1, b2, b3, b4⟩ := partitionScan_spec r.partitions fp r.partitions.length 0
  have hraw : partitionScan
      (if fp < r.mPreviousFilePosition then
        { r with mPreviousPartitionId := 0, mPreviousFilePosition := 0 } else r).partitions fp
      ((if fp < r.mPreviousFilePosition then
        { r with mPreviousPartitionId := 0, mPreviousFilePosition := 0 }
          else r).partitions.length -
        (if fp < r.mPreviousFilePosition then
          { r with mPreviousPartitionId := 0, mPreviousFilePosition := 0 }
            else r).mPreviousPartitionId)
      (if fp < r.mPreviousFilePosition then
        { r with mPreviousPartitionId := 0, mPreviousFilePosition := 0 }
          else r).mPreviousPartitionId =
      partitionScan r.partitions fp r.partitions.length 0 := by
    by_cases hc : fp < r.mPreviousFilePosition
    · simp only [if_pos hc, Nat.sub_zero]
    · simp only [if_neg hc]
      refine partitionScan_from_hint r.partitions fp _ (by omega) (fun j hj => ?_)
      have := hpre j hj
      omega
  have hparts : (if fp < r.mPreviousFilePosition then
      ({ r with mPreviousPartitionId := 0, mPreviousFilePosition := 0 } : Reader)
        else r).partitions = r.partitions := by
    split <;> rfl
  have hres : (GetPartitionId r fp).1 = partitionIdFromStart r.partitions fp := by
    unfold GetPartitionId partitionIdFromStart
    dsimp only
    rw [hraw]
  refine ⟨hres, ?_, rfl, rfl, ?_, ?_⟩
  · unfold GetPartitionId
    dsimp only
    exact hparts
  · rw [hres]
    unfold partitionIdFromStart
    split <;> omega
  · rw [hres]
    unfold partitionIdFromStart
    intro j hj
    have := b3 j (Nat.zero_le _)
    split at hj
    · have := this (by omega); omega
    · have := this (by omega); omega

/-- With the partitions in increasing order of `ThisPartition`, the scan from
index 0 returns the largest index of a partition that starts at or before the
file position, and 0 when there is none. -/
theorem partitionIdFromStart_largest (ps : List Partition) (fp : Int) (hne : ps ≠ [])
    (hsorted : ∀ i j, i ≤ j → j < ps.length →
      (ps.getD i default).thisPartition ≤ (ps.getD j default).thisPartition)
    (h0 : 0 ≤ fp) (h1 : fp < INT64_BOUND) :
    partitionIdFromStart ps fp < ps.length ∧
    (∀ j, j < ps.length → ((ps.getD j default).thisPartition : Int) ≤ fp →
      j ≤ partitionIdFromStart ps fp ∧
      ((ps.getD (partitionIdFromStart ps fp) default).thisPartition : Int) ≤ fp) ∧
    ((∀ j, j < ps.length → fp < ((ps.getD j default).thisPartition : Int)) →
      partitionIdFromStart ps fp = 0) := by
  have hlen : 0 < ps.length := List.length_pos.mpr hne
  have hu := toUInt64_of_nonneg h0 h1
  obtain ⟨b1, b2, b3, b4⟩ := partitionScan_spec ps fp ps.length 0
  unfold partitionIdFromStart
  refine ⟨by split <;> omega, ?_, ?_⟩
  · intro j hj hle
    have hpos : partitionScan ps fp ps.length 0 > 0 := by
      by_contra hz
      have hz0 : partitionScan ps fp ps.length 0 = 0 := by omega
      have h4 := b4 (by omega)
      rw [hz0] at h4
      have hs : ((ps.getD 0 default).thisPartition : Int) ≤ (ps.getD j default).thisPartition :=
        by exact_mod_cast hsorted 0 j (Nat.zero_le _) hj
      omega
    rw [if_pos hpos]
    refine ⟨?_, ?_⟩
    · by_contra hgt
      have hraw : partitionScan ps fp ps.length 0 ≤ j := by omega
      have h4 := b4 (by omega)
      have hs : ((ps.getD (partitionScan ps fp ps.length 0) default).thisPartition : Int) ≤
          (ps.getD j default).thisPartition := by exact_mod_cast hsorted _ j hraw hj
      omega
    · have := b3 (partitionScan ps fp ps.length 0 - 1) (Nat.zero_le _) (by omega)
      omega
  · intro hall
    have hz : ¬ partitionScan ps fp ps.length 0 > 0 := by
      intro hpos
      have := b3 0 (le_refl _) hpos
      have := hall 0 hlen
      omega
    rw [if_neg hz]
    omega

/-- The results of a sequence of calls from such a hint are those of the scan
from index 0. -/
theorem getPartitionIds_from_hint (fps : List Int) :
    ∀ r : Reader, r.partitions ≠ [] →
      r.mPreviousPartitionId < r.partitions.length →
      (∀ j, j < r.mPreviousPartitionId →
        ((r.partitions.getD j default).thisPartition : Int) ≤ r.mPreviousFilePosition) →
      (∀ fp ∈ fps, 0 ≤ fp ∧ fp < INT64_BOUND) →
      (getPartitionIds r fps).1 = fps.map (partitionIdFromStart r.partitions) := by
  induction fps with
  | nil => intro r _ _ _ _; rfl
  | cons fp rest ih =>
    intro r hne hid hpre hfps
    have hfp := hfps fp (List.mem_cons_self _ _)
    obtain ⟨e1, e2, e3, e4, e5, e6⟩ := GetPartitionId_from_hint r fp hne hid hpre hfp.1 hfp.2
    have hrest := ih (GetPartitionId r fp).2 (by rw [e2]; exact hne) (by rw [e2, e3]; exact e5)
      (by rw [e2, e3, e4]; exact e6) (fun q hq => hfps q (List.mem_cons_of_mem _ hq))
    unfold getPartitionIds
    simp only [List.map_cons]
    rw [hrest, e1, e2]

/-- C27: for a non-empty partition list in increasing order of
`ThisPartition` and a sequence of `GetPartitionId` calls with file positions
that are non-negative `int64_t` values, started with the hint index 0 of a
fresh reader, every call returns what the scan from index 0 returns, which is
the largest index of a partition with `ThisPartition ≤ file_pos`, and 0 when
there is none. -/
theorem getPartitionIds_eq_scan (r : Reader) (fps : List Int)
    (hne : r.partitions ≠ [])
    (hsorted : ∀ i j, i ≤ j → j < r.partitions.length →
      (r.partitions.getD i default).thisPartition ≤ (r.partitions.getD j default).thisPartition)
    (hid : r.mPreviousPartitionId = 0)
    (hfps : ∀ fp ∈ fps, 0 ≤ fp ∧ fp < INT64_BOUND) :
    (getPartitionIds r fps).1 = fps.map (partitionIdFromStart r.partitions) ∧
    ∀ fp ∈ fps,
      partitionIdFromStart r.partitions fp < r.partitions.length ∧
      (∀ j, j < r.partitions.length →
        ((r.partitions.getD j default).thisPartition : Int) ≤ fp →
        j ≤ partitionIdFromStart r.partitions fp ∧
        ((r.partitions.getD (partitionIdFromStart r.partitions fp) default).thisPartition : Int)
          ≤ fp) ∧
      ((∀ j, j < r.partitions.length →
          fp < ((r.partitions.getD j default).thisPartition : Int)) →
        partitionIdFromStart r.partitions fp = 0) := by
  refine ⟨getPartitionIds_from_hint fps r hne ?_ ?_ hfps, fun fp hmem => ?_⟩
  · rw [hid]; exact List.length_pos.mpr hne
  · intro j hj; rw [hid] at hj; omega
  · exact partitionIdFromStart_largest r.partitions fp hne hsorted (hfps fp hmem).1
      (hfps fp hmem).2

theorem getPartitionIds_eq_scan_witness :
    (getPartitionIds Examples.threePartitions [1500, 200, 6000, 1000, 999]).1 =
      [1, 0, 2, 1, 0] :=
  (getPartitionIds_eq_scan Examples.threePartitions [1500, 200, 6000, 1000, 999]
    (by decide)
    (by
      intro i j hij hj
      have hj3 : j < 3 := hj
      interval_cases j <;> interval_cases i <;> decide)
    rfl (by decide)).1.trans (by decide)

end Reader

end EssenceReader

/-! ## Clip-wrapped reads with image padding -/

namespace EssenceReader

theorem toUInt32_of_range {x : Int} (h0 : 0 ≤ x) (h1 : x ≤ 4294967295) : toUInt32 x = x := by
  unfold toUInt32; omega

/-- The payload after the bytes of an edit unit are stored behind it, the
padding at its head is moved away and the size is raised by the bytes kept. -/
theorem payload_after_strip (P D R X : List Nat) (a cnt : Nat) (h : a + cnt ≤ D.length) :
    ((P ++ D ++ R).take P.length ++ ((P ++ D ++ R).drop (P.length + a)).take cnt ++ X).take
      (P.length + cnt) = P ++ (D.drop a).take cnt := by
  have h1 : (P ++ D ++ R).take P.length = P := by
    rw [List.append_assoc, List.take_left']
    rfl
  have h2 : ((P ++ D ++ R).drop (P.length + a)).take cnt = (D.drop a).take cnt := by
    rw [List.append_assoc, ← List.drop_drop, List.drop_left', List.drop_append_of_le_length
      (by omega), List.take_append_of_le_length (by rw [List.length_drop]; omega)]
    rfl
  rw [h1, h2, List.append_assoc, List.take_append, List.take_append_of_le_length
    (by rw [List.length_take, List.length_drop]; omega), List.take_of_length_le
    (by rw [List.length_take, List.length_drop]; omega)]

theorem payload_after_strip_of_length (P D R X : List Nat) (s a cnt : Nat)
    (hP : P.length = s) (h : a + cnt ≤ D.length) :
    ((P ++ D ++ R).take s ++ ((P ++ D ++ R).drop (s + a)).take cnt ++ X).take (s + cnt) =
      P ++ (D.drop a).take cnt := by
  subst hP
  exact payload_after_strip P D R X a cnt h

theorem payload_after_append (P D R : List Nat) (s m : Nat) (hP : P.length = s)
    (h : m ≤ D.length) : (P ++ D ++ R).take (s + m) = P ++ D.take m := by
  subst hP
  rw [List.append_assoc, List.take_append, List.take_append_of_le_length h]

/-- With offsets whose sum does not wrap, an edit unit of `N ≥ a + b` bytes
that the file delivers in full adds its bytes `[a, N - b)` to the payload. -/
theorem readClipWrappedUnit_payload (a b : Nat) (tr : Bool) (fileRead : Int → Nat → List Nat)
    (pos : Int) (frame : Frame) (fp : Int) (N k : Nat)
    (hs : frame.size ≤ frame.buffer.length) (hab : a + b ≤ N) (hN : N ≤ 4294967295)
    (hread : N ≤ (fileRead fp N).length) :
    ∃ f, readClipWrappedUnit a b tr fileRead pos frame fp (N : Int) k = .ok (f, fp + (N : Int)) ∧
      f.payload = frame.payload ++ (((fileRead fp N).take N).drop a).take (N - a - b) ∧
      f.size = frame.size + (N - a - b) := by
  have e1 : toUInt32 ((a : Int) + (b : Int)) = (a : Int) + (b : Int) :=
    toUInt32_of_range (by omega) (by omega)
  have e2 : (toUInt32 (N : Int)).toNat = N := by
    rw [toUInt32_of_range (by omega) (by omega)]; simp
  have e3 : ((fileRead fp N).take N).length = N := by
    rw [List.length_take]; omega
  have e4 : (toUInt32 ((N : Int) - (b : Int) - (a : Int))).toNat = N - a - b := by
    rw [toUInt32_of_range (by omega) (by omega)]; omega
  have e5 : (toUInt32 ((N : Int) - (b : Int))).toNat = N - b := by
    rw [toUInt32_of_range (by omega) (by omega)]; omega
  unfold readClipWrappedUnit
  rw [if_neg (by rw [e1]; omega), if_neg (by omega)]
  simp only [e2, e3]
  rw [if_neg (by simp)]
  have hPl : (frame.buffer.take frame.size).length = frame.size := by
    rw [List.length_take]; omega
  refine ⟨_, rfl, ?_, ?_⟩
  · by_cases ha : a > 0
    · simp only [if_pos ha, e4]
      split
      all_goals
        simp only [Frame.payload, Frame.IncrementSize, Frame.moveAvailable, Frame.writeAvailable,
          Frame.Grow, e3]
        rw [List.take_append_of_le_length hs]
        exact payload_after_strip_of_length _ _ _ _ _ _ _ hPl (by rw [e3]; omega)
    · have ha0 : a = 0 := by omega
      subst ha0
      simp only [if_neg ha, e5]
      split
      all_goals
        simp only [Frame.payload, Frame.IncrementSize, Frame.moveAvailable, Frame.writeAvailable,
          Frame.Grow, e3]
        rw [List.take_append_of_le_length hs]
        simp only [Nat.sub_zero, List.drop_zero]
        exact payload_after_append _ _ _ _ _ hPl (by rw [e3]; omega)
  · by_cases ha : a > 0
    · simp only [if_pos ha, e4]
      split <;> rfl
    · have ha0 : a = 0 := by omega
      subst ha0
      simp only [if_neg ha, e5]
      split <;> rfl

/-- With offsets whose sum does not wrap, an edit unit shorter than the
padding fails the first `BMX_CHECK`. -/
theorem readClipWrappedUnit_short (a b : Nat) (tr : Bool) (fileRead : Int → Nat → List Nat)
    (pos : Int) (frame : Frame) (fp size : Int) (k : Nat)
    (hab : a + b ≤ 4294967295) (hN : size < (a : Int) + (b : Int)) :
    readClipWrappedUnit a b tr fileRead pos frame fp size k = .error .checkFailed := by
  unfold readClipWrappedUnit
  rw [if_pos (by rw [toUInt32_of_range (by omega) (by omega)]; omega)]

/-- The fields of a frame after the block that records the first-time fields
when the frame is empty. -/
theorem first_fields_of_ite {F5 f : Frame} {pos v : Int} {tr : Bool}
    (hf : (if F5.IsEmpty = true then
        { F5 with ec_position := pos, temporal_reordering := tr, cp_file_position := v,
                  file_position := v }
      else F5) = f) :
    (f.IsEmpty = true → f.ec_position = pos ∧ f.cp_file_position = v ∧ f.file_position = v) ∧
    (f.IsEmpty = false →
      f.ec_position = F5.ec_position ∧ f.cp_file_position = F5.cp_file_position ∧
      f.file_position = F5.file_position) := by
  subst hf
  by_cases hc : F5.IsEmpty = true
  · rw [if_pos hc]
    refine ⟨fun _ => ⟨rfl, rfl, rfl⟩, fun he => ?_⟩
    have : F5.IsEmpty = false := he
    rw [hc] at this
    exact absurd this (by decide)
  · rw [if_neg hc]
    exact ⟨fun he => absurd he hc, fun _ => ⟨rfl, rfl, rfl⟩⟩

/-- The first-time fields of the frame after the body of the loop: when the
frame is empty at the test they are the position read and the file position
of the first byte kept, which lies `mImageStartOffset` bytes behind the start
of the edit unit; otherwise they are left as they were. -/
theorem readClipWrappedUnit_fields {a b : Nat} {tr : Bool} {fileRead : Int → Nat → List Nat}
    {pos : Int} {frame : Frame} {fp size : Int} {k : Nat} {f : Frame} {cur : Int}
    (hok : readClipWrappedUnit a b tr fileRead pos frame fp size k = .ok (f, cur)) :
    cur = fp + size ∧
    (f.IsEmpty = true →
      f.ec_position = pos ∧ f.cp_file_position = fp + (a : Int) ∧
      f.file_position = fp + (a : Int)) ∧
    (f.IsEmpty = false →
      f.ec_position = frame.ec_position ∧ f.cp_file_position = frame.cp_file_position ∧
      f.file_position = frame.file_position) := by
  unfold readClipWrappedUnit at hok
  split at hok
  · simp at hok
  · split at hok
    · simp at hok
    · dsimp only at hok
      split at hok
      · simp at hok
      · rename_i hlen
        simp only [Except.ok.injEq, Prod.mk.injEq] at hok
        obtain ⟨hf, hcur⟩ := hok
        have hlen2 : ((List.take (toUInt32 size).toNat
            (fileRead fp (toUInt32 size).toNat)).length : Int) = size := by
          by_contra hne; exact hlen hne
        have key := first_fields_of_ite hf
        refine ⟨by rw [← hcur, hlen2], fun he => ?_, fun he => ?_⟩
        · obtain ⟨k1, k2, k3⟩ := key.1 he
          rw [hlen2] at k2 k3
          refine ⟨k1, ?_, ?_⟩
          · rw [k2]; split <;> omega
          · rw [k3]; split <;> omega
        · obtain ⟨k1, k2, k3⟩ := key.2 he
          rw [k1, k2, k3]
          split <;> exact ⟨rfl, rfl, rfl⟩

/-- In a clip-wrapped read of one edit unit with image padding
(`mImageStartOffset` or `mImageEndOffset` not zero), when the first-time
fields are recorded (the frame is empty at the test of the source),
`ec_position` is the position read, and `cp_file_position` and
`file_position` are the file position of the first byte kept in the payload:
the position the chunk index gives for the edit unit plus
`mImageStartOffset`. -/
theorem clipWrappedIteration_first_fields (a b : Nat) (tr : Bool)
    (fileRead : Int → Nat → List Nat) (fuel : Nat) (haveConstantEditUnitSize : Bool)
    (getEditUnit : Int → Except BMXException (Int × Int)) (E pos : Int) (frame : Frame)
    (remaining : Nat) (fp N : Int) (f : Frame) (cur n : Int)
    (hpad : a ≠ 0 ∨ b ≠ 0) (hunit : getEditUnit pos = .ok (fp, N))
    (hok : clipWrappedIteration a b tr fileRead fuel haveConstantEditUnitSize getEditUnit E pos
      (some frame) remaining = .ok (some (some f, cur, n)))
    (hempty : f.IsEmpty = true) :
    n = 1 ∧ cur = fp + N ∧ f.ec_position = pos ∧ f.cp_file_position = fp + (a : Int) ∧
      f.file_position = fp + (a : Int) := by
  unfold clipWrappedIteration at hok
  rw [if_pos hpad] at hok
  have hg : GetEditUnitGroup fuel haveConstantEditUnitSize getEditUnit E pos 1 =
      .ok (some (fp, N, 1)) := by
    unfold GetEditUnitGroup
    rw [if_neg (by simp), if_pos (by simp), hunit]
  rw [hg] at hok
  dsimp only at hok
  split at hok
  · simp at hok
  · rename_i f1 c1 hstep
    simp only [Except.ok.injEq, Option.some.injEq, Prod.mk.injEq] at hok
    obtain ⟨hf, hc, hn⟩ := hok
    subst hf hc
    have := readClipWrappedUnit_fields hstep
    exact ⟨hn.symm, this.1, this.2.1 hempty⟩

theorem clipWrappedIteration_first_fields_witness :
    (1 : Int) = 1 ∧ (1072 : Int) = 1048 + 24 ∧
    (⟨Examples.byteFile 1048 24, 0, 1, 2, false, 1056, 1056⟩ : Frame).ec_position = 2 ∧
    (⟨Examples.byteFile 1048 24, 0, 1, 2, false, 1056, 1056⟩ : Frame).cp_file_position =
      1048 + ((8 : Nat) : Int) ∧
    (⟨Examples.byteFile 1048 24, 0, 1, 2, false, 1056, 1056⟩ : Frame).file_position =
      1048 + ((8 : Nat) : Int) :=
  clipWrappedIteration_first_fields 8 16 false Examples.byteFile 0 true
    (contiguousUnits 1000 24) 24 2 Examples.createdFrame 1 1048 24
    ⟨Examples.byteFile 1048 24, 0, 1, 2, false, 1056, 1056⟩ 1072 1 (by decide) rfl rfl rfl

/-- An edit unit that is all padding: edit units of 24 bytes stored from file
position 1000, `mImageStartOffset = 8`, `mImageEndOffset = 16`. The read of edit unit
2, which the index places at file position 1048, records `ec_position = 2`
but `cp_file_position = file_position = 1056`, the position behind the
padding at the head of the edit unit, not 1048. -/
theorem clipWrappedIteration_file_position_behind_padding :
    contiguousUnits 1000 24 2 = .ok (1048, 24) ∧
    ∃ f, clipWrappedIteration 8 16 false Examples.byteFile 0 true
        (contiguousUnits 1000 24) 24 2 (some Examples.createdFrame) 1 =
        .ok (some (some f, 1072, 1)) ∧ f.ec_position = 2 ∧ f.cp_file_position = 1056 ∧
        f.file_position = 1056 ∧ f.file_position ≠ 1048 :=
  ⟨rfl, _, rfl, rfl, rfl, rfl, by decide⟩

/-- C23, failing input: edit units of 100 bytes stored from file position 1000,
`mImageStartOffset = 8`, `mImageEndOffset = 16`, and a clip-wrapped `Read(1)`
of edit unit 2, which the chunk index places at file position 1200. The test
`frame->IsEmpty()` that guards the first-time fields follows `IncrementSize`:
the read keeps 76 bytes, so the frame is not empty at the test and
`ec_position`, `cp_file_position` and `file_position` are not written. They
keep the values the frame was created with, whatever these are, where they
should be 2 and 1200. -/
theorem clipWrappedIteration_fields_not_recorded :
    contiguousUnits 1000 100 2 = .ok (1200, 100) ∧
    (∀ f0 : Frame, ∃ f, clipWrappedIteration 8 16 false Examples.byteFile 0 true
        (contiguousUnits 1000 100) 100 2 (some f0) 1 = .ok (some (some f, 1300, 1)) ∧
      f.size = f0.size + 76 ∧ f.ec_position = f0.ec_position ∧
      f.cp_file_position = f0.cp_file_position ∧ f.file_position = f0.file_position) ∧
    ∃ f, clipWrappedIteration 8 16 false Examples.byteFile 0 true
        (contiguousUnits 1000 100) 100 2 (some Examples.createdFrame) 1 =
        .ok (some (some f, 1300, 1)) ∧ f.size = 76 ∧ f.ec_position = -1 ∧
        f.cp_file_position = -1 ∧ f.file_position = -1 :=
  ⟨rfl, fun _ => ⟨_, rfl, rfl, rfl, rfl, rfl⟩, _, rfl, rfl, rfl, rfl, rfl⟩

/-- C15, failing input: a clip-wrapped file without image padding whose edit
units of 10 bytes are stored without a gap from file position 1000, the read
window [0, 100), position -3 and `Read(10)`. `Read` returns 7 samples with
`first_sample_offset = 3` and has `ReadClipWrappedSamples(7)` read from
position 0. That call reads the 7 edit units in one group and raises the size
of the frame before it tests `frame->IsEmpty()`, so `ec_position` is not
written: it keeps the value the frame was created with, whatever it is (-1
for `createdFrame`), where `ReadFrameWrappedSamples` writes the start
position 0. -/
theorem Read_preroll_clip_wrapped :
    Read ⟨0, 100, -3⟩ 10 = .ok ⟨7, 0, 3, ⟨0, 100, 10⟩⟩ ∧
    (∀ f0 : Frame, ∃ f, ReadClipWrappedSamples 0 0 false Examples.byteFile 100 true
        (contiguousUnits 1000 10) 10 8 0 (some f0) 7 = .ok (some (some f, 7)) ∧
      f.size = f0.size + 70 ∧ f.ec_position = f0.ec_position) ∧
    ∃ f, ReadClipWrappedSamples 0 0 false Examples.byteFile 100 true
        (contiguousUnits 1000 10) 10 8 0 (some Examples.createdFrame) 7 =
        .ok (some (some f, 7)) ∧ f.num_samples = 7 ∧ f.size = 70 ∧ f.ec_position = -1 :=
  ⟨rfl, fun _ => ⟨_, rfl, rfl, rfl⟩, _, rfl, rfl, rfl, rfl⟩

/-- C22, failing input: `mImageStartOffset = 4294967288`,
`mImageEndOffset = 16`, an edit unit of `N = 100` bytes at file position 1000.
The sum of the offsets is larger than `N`, but the 32-bit sum is 8, so
`BMX_CHECK(size >= mImageStartOffset + mImageEndOffset)` passes: the read does
not fail, and the size of the frame is raised by
`(uint32_t)(100 - 16 - 4294967288) = 92`. -/
theorem clipWrappedIteration_padding_sum_wraps :
    (100 : Int) < 4294967288 + 16 ∧ toUInt32 (4294967288 + 16) = 8 ∧
    ∃ f, clipWrappedIteration 4294967288 16 false Examples.byteFile 0 true
        (contiguousUnits 1000 100) 100 0 (some Examples.createdFrame) 1 =
        .ok (some (some f, 1100, 1)) ∧ f.size = 92 :=
  ⟨by decide, by decide, _, rfl, rfl⟩

end EssenceReader

/-! ## The last-known anchor -/

namespace EssenceReader

namespace Reader

theorem SetFileIsComplete_anchor (r : Reader) : r.SetFileIsComplete.anchor = r.anchor := by
  unfold SetFileIsComplete SetHaveFooter anchor
  cases r.mHaveFooter <;> rfl

theorem GetPartitionId_anchor (r : Reader) (file_position : Int) :
    (GetPartitionId r file_position).2.anchor = r.anchor := by
  unfold GetPartitionId anchor
  dsimp only
  split <;> rfl

theorem ReadNextPartition_anchor (env : Env) (r : Reader) (key : Key) (llen len : Nat) :
    (ReadNextPartition env r key llen len).2.anchor = r.anchor := by
  unfold ReadNextPartition
  dsimp only
  repeat' split
  all_goals rfl

theorem ReadNextPartition_anchor_of_eq {env : Env} {r r2 : Reader} {key : Key} {llen len : Nat}
    {res : Except ReaderError Unit}
    (h : ReadNextPartition env r key llen len = (res, r2)) : r2.anchor = r.anchor := by
  have hv := ReadNextPartition_anchor env r key llen len
  rw [h] at hv
  exact hv

/-- The loop of `SeekContentPackageStart` leaves the content-package start
and the last-known anchor as they are; when it succeeds the look-ahead KL is a
KL that `readNextNonFillerKL` returned. -/
theorem seekLoop_anchor (env : Env) (hsk : Bool) :
    ∀ (fuel : Nat) (r : Reader) (pid : Nat) (res : Except ReaderError Unit) (r1 : Reader),
      seekLoop env hsk fuel r pid = some (res, r1) →
      r1.anchor = r.anchor ∧
        (res = .ok () →
          ∃ c kl c1, env.readNextNonFillerKL c = .ok (kl, c1) ∧ r1.mNextLLen = kl.llen) := by
  intro fuel
  induction fuel with
  | zero => intro r pid res r1 h; simp [seekLoop] at h
  | succ fuel ih =>
    intro r pid res r1 h
    have transfer : ∀ (rmid : Reader) (pid1 : Nat), rmid.anchor = r.anchor →
        seekLoop env hsk fuel rmid pid1 = some (res, r1) →
        r1.anchor = r.anchor ∧
        (res = .ok () →
          ∃ c kl c1, env.readNextNonFillerKL c = .ok (kl, c1) ∧ r1.mNextLLen = kl.llen) := by
      intro rmid pid1 h1 hrun
      have := ih rmid pid1 res r1 hrun
      rw [h1] at this
      exact this
    have done : ∀ (e : ReaderError) (rmid : Reader), rmid.anchor = r.anchor →
        some ((Except.error e : Except ReaderError Unit), rmid) = some (res, r1) →
        r1.anchor = r.anchor ∧
        (res = .ok () →
          ∃ c kl c1, env.readNextNonFillerKL c = .ok (kl, c1) ∧ r1.mNextLLen = kl.llen) := by
      intro e rmid h1 heq
      simp only [Option.some.injEq, Prod.mk.injEq] at heq
      obtain ⟨hres, hr⟩ := heq
      subst hr
      subst hres
      exact ⟨h1, fun hh => by simp at hh⟩
    rw [seekLoop] at h
    split at h
    · (refine done _ _ ?_ h; rfl)
    · rename_i kl cursor hread
      dsimp only at h
      split at h
      · split at h
        · (refine transfer _ _ ?_ h; exact (GetPartitionId_anchor _ _).trans rfl)
        · split at h
          · rename_i e r2 hrnp
            have hv := ReadNextPartition_anchor_of_eq hrnp
            split at hv <;> exact done e r2 hv h
          · rename_i u r2 hrnp
            have hv := ReadNextPartition_anchor_of_eq hrnp
            split at hv <;> exact transfer r2 _ hv h
      · split at h
        · split at h
          · (refine transfer _ _ ?_ h; rfl)
          · (refine transfer _ _ ?_ h; rfl)
        · split at h
          · split at h
            · split at h
              · (refine done _ _ ?_ h; rfl)
              · (refine transfer _ _ ?_ h; rfl)
            · split at h
              · (refine transfer _ _ ?_ h; rfl)
              · (refine transfer _ _ ?_ h; rfl)
          · split at h
            · split at h
              · (refine transfer _ _ ?_ h; rfl)
              · split at h
                · (refine done _ _ ?_ h; rfl)
                · rename_i helper happ
                  simp only [Option.some.injEq, Prod.mk.injEq] at h
                  obtain ⟨hres, hr⟩ := h
                  subst hr
                  subst hres
                  refine ⟨?_, fun _ => ⟨_, _, _, hread, ?_⟩⟩
                  · cases hsk <;> rfl
                  · cases hsk <;> rfl
            · split at h
              · split at h
                · (refine done _ _ ?_ h; rfl)
                · (refine transfer _ _ ?_ h; exact (SetFileIsComplete_anchor _).trans rfl)
              · (refine transfer _ _ ?_ h; rfl)

/-- The effect of `SeekContentPackageStart` on the content-package start and
the last-known anchor. -/
theorem SeekContentPackageStart_anchor (env : Env)
    (fuel : Nat) (r r1 : Reader) (res : Except ReaderError Unit)
    (h : SeekContentPackageStart env fuel r = some (res, r1)) :
    r1.anchor = r.anchor ∧
        (res = .ok () →
          ∃ c kl c1, env.readNextNonFillerKL c = .ok (kl, c1) ∧ r1.mNextLLen = kl.llen) := by
  have hfirst : ∀ (res0 : Except ReaderError Unit) (r0 : Reader),
      (if r.mNextKey.isPartitionPack then
        if r.mFileIsComplete then ((.ok () : Except ReaderError Unit), r.skip r.mNextLen)
        else ReadNextPartition env r r.mNextKey r.mNextLLen r.mNextLen
      else (.ok (), r)) = (res0, r0) → r0.anchor = r.anchor := by
    intro res0 r0 hf
    split at hf
    · split at hf
      · simp only [Prod.mk.injEq] at hf
        obtain ⟨_, rfl⟩ := hf
        rfl
      · exact ReadNextPartition_anchor_of_eq hf
    · simp only [Prod.mk.injEq] at hf
      obtain ⟨_, rfl⟩ := hf
      rfl
  unfold SeekContentPackageStart at h
  dsimp only at h
  split at h
  · rename_i e r0 hf
    have hv := hfirst _ _ hf
    simp only [Option.some.injEq, Prod.mk.injEq] at h
    obtain ⟨hres, hr⟩ := h
    subst hr
    subst hres
    exact ⟨hv, fun hh => by simp at hh⟩
  · rename_i u r0 hf
    have hv := hfirst _ _ hf
    split at h
    · have hl := seekLoop_anchor env _ fuel _ _ res r1 h
      rw [GetPartitionId_anchor] at hl
      exact ⟨hl.1.trans hv, hl.2⟩
    · have hl := seekLoop_anchor env _ fuel _ _ res r1 h
      exact ⟨hl.1.trans hv, hl.2⟩

/-- The effect of `SetContentPackageStart` on the content-package start and
the last-known anchor. -/
theorem SetContentPackageStart_anchor {env : Env} {r r2 : Reader} {base fp : Int}
    {atKey : Bool} {res : Except ReaderError Unit}
    (h : SetContentPackageStart env r base fp atKey = (res, r2)) :
    r2.mBasePosition = base ∧
    r.mLastKnownBasePosition ≤ r2.mLastKnownBasePosition ∧
    r2.cursor = r.cursor ∧
    (res = .ok () → r2.mAtCPStart = true ∧
      r2.mLastKnownBasePosition = max r.mLastKnownBasePosition base) ∧
    (r.mLastKnownBasePosition < r2.mLastKnownBasePosition →
      r2.mLastKnownBasePosition = r2.mBasePosition ∧
      r2.mLastKnownFilePosition = r2.mFilePosition) ∧
    ((∃ e, res = .error e) →
      env.isFrameWrapped = true ∧ atKey = false ∧ r.mNextLLen = 0) ∧
    (atKey = true → r2.mFilePosition = (if fp < 0 then r.cursor else fp)) := by
  unfold SetContentPackageStart at h
  simp only at h
  split at h
  · rename_i hc
    simp only [Prod.mk.injEq] at h
    obtain ⟨hres, hr⟩ := h
    subst hr
    subst hres
    simp only [Bool.and_eq_true, Bool.not_eq_true', beq_iff_eq] at hc
    refine ⟨rfl, le_refl _, rfl, fun hh => by simp at hh, fun hh => absurd hh (lt_irrefl _),
      fun _ => ⟨hc.1.1, hc.1.2, hc.2⟩, fun hk => ?_⟩
    simp [hc.1.2] at hk
  · simp only [Prod.mk.injEq] at h
    obtain ⟨hres, hr⟩ := h
    subst hr
    subst hres
    by_cases hb : base > r.mLastKnownBasePosition
    · have hm : max r.mLastKnownBasePosition base = base := max_eq_right (le_of_lt hb)
      cases atKey <;> simp [hb, hm, ResetNextKL, SetNextKL, le_of_lt hb]
    · have hm : max r.mLastKnownBasePosition base = r.mLastKnownBasePosition :=
        max_eq_left (not_lt.mp hb)
      cases atKey <;> simp [hb, hm, ResetNextKL, SetNextKL]

theorem anchor_eq {r1 r : Reader} (h : r1.anchor = r.anchor) :
    r1.mBasePosition = r.mBasePosition ∧ r1.mFilePosition = r.mFilePosition ∧
    r1.mLastKnownBasePosition = r.mLastKnownBasePosition ∧
    r1.mLastKnownFilePosition = r.mLastKnownFilePosition := by
  simpa [anchor, Prod.mk.injEq] using h

/-- The effect of `ReadFirstEssenceKL` on the content-package start and the
last-known anchor. -/
theorem ReadFirstEssenceKL_anchor (env : Env) (fuel : Nat) (r r1 : Reader)
    (res : Except ReaderError KL) (h : ReadFirstEssenceKL env fuel r = some (res, r1)) :
    r.mLastKnownBasePosition ≤ r1.mLastKnownBasePosition ∧
    (∀ kl, res = .ok kl →
      r1.mAtCPStart = true ∧ r.mBasePosition ≤ r1.mBasePosition ∧
      r1.mBasePosition ≤ r.mBasePosition + 1 ∧
      (r.mBasePosition ≤ r.mLastKnownBasePosition →
        r1.mBasePosition ≤ r1.mLastKnownBasePosition)) ∧
    ((∃ e, res = .error e) →
      (∀ c kl c1, env.readNextNonFillerKL c = .ok (kl, c1) → kl.llen ≠ 0) →
      r1.mBasePosition = r.mBasePosition ∧
      r1.mLastKnownBasePosition = r.mLastKnownBasePosition) := by
  unfold ReadFirstEssenceKL at h
  split at h
  · rename_i hat
    split at h
    · simp at h
    · rename_i e r0 hs
      simp only [Option.some.injEq, Prod.mk.injEq] at h
      obtain ⟨hres, hr⟩ := h
      subst hr
      subst hres
      obtain ⟨ha, _⟩ := SeekContentPackageStart_anchor env fuel r r0 _ hs
      obtain ⟨a1, _, a3, _⟩ := anchor_eq ha
      exact ⟨le_of_eq a3.symm, fun kl hk => by simp at hk, fun _ _ => ⟨a1, a3⟩⟩
    · rename_i u r0 hs
      obtain ⟨ha, hl⟩ := SeekContentPackageStart_anchor env fuel r r0 _ hs
      obtain ⟨a1, _, a3, _⟩ := anchor_eq ha
      split at h
      · rename_i e r2 hset
        simp only [Option.some.injEq, Prod.mk.injEq] at h
        obtain ⟨hres, hr⟩ := h
        subst hr
        subst hres
        obtain ⟨b1, b2, _, b4, _, b6, _⟩ := SetContentPackageStart_anchor hset
        have hz := (b6 ⟨e, rfl⟩).2.2
        refine ⟨by show r.mLastKnownBasePosition ≤ r2.mLastKnownBasePosition; omega,
          fun kl hk => by simp at hk, fun _ hll => ?_⟩
        obtain ⟨c, kl, c1, hread, hlen⟩ := hl rfl
        have := hll c kl c1 hread
        omega
      · rename_i u2 r2 hset
        simp only [Option.some.injEq, Prod.mk.injEq] at h
        obtain ⟨hres, hr⟩ := h
        subst hr
        subst hres
        obtain ⟨b1, b2, _, b4, _, _, _⟩ := SetContentPackageStart_anchor hset
        obtain ⟨b41, b42⟩ := b4 rfl
        refine ⟨by omega, fun kl _ => ⟨b41, by omega, by omega, fun _ => ?_⟩,
          fun hh => ?_⟩
        · rw [b42, b1]; exact le_max_right _ _
        · obtain ⟨e, he⟩ := hh
          simp at he
  · rename_i hat
    have hat1 : r.mAtCPStart = true := by simpa using hat
    split at h
    · split at h
      · simp only [Option.some.injEq, Prod.mk.injEq] at h
        obtain ⟨hres, hr⟩ := h
        subst hr
        subst hres
        exact ⟨le_refl _, fun kl hk => by simp at hk, fun _ _ => ⟨rfl, rfl⟩⟩
      · dsimp only at h
        split at h
        · simp only [Option.some.injEq, Prod.mk.injEq] at h
          obtain ⟨hres, hr⟩ := h
          subst hr
          subst hres
          refine ⟨le_refl _, fun kl _ => ⟨hat1, le_refl _, by show r.mBasePosition ≤ _; omega,
            fun hi => hi⟩, fun hh => ?_⟩
          obtain ⟨e, he⟩ := hh
          simp at he
        · split at h
          · simp only [Option.some.injEq, Prod.mk.injEq] at h
            obtain ⟨hres, hr⟩ := h
            subst hr
            subst hres
            exact ⟨le_refl _, fun kl hk => by simp at hk, fun _ _ => ⟨rfl, rfl⟩⟩
          · simp only [Option.some.injEq, Prod.mk.injEq] at h
            obtain ⟨hres, hr⟩ := h
            subst hr
            subst hres
            refine ⟨le_refl _, fun kl _ => ⟨hat1, le_refl _,
              by show r.mBasePosition ≤ _; omega, fun hi => hi⟩, fun hh => ?_⟩
            obtain ⟨e, he⟩ := hh
            simp at he
    · simp only [Option.some.injEq, Prod.mk.injEq] at h
      obtain ⟨hres, hr⟩ := h
      subst hr
      subst hres
      refine ⟨le_refl _, fun kl _ => ⟨hat1, le_refl _, by omega, fun hi => hi⟩, fun hh => ?_⟩
      obtain ⟨e, he⟩ := hh
      simp at he

/-- The effect of `ReadNonfirstEssenceKL` on the content-package start and
the last-known anchor. -/
theorem ReadNonfirstEssenceKL_anchor (env : Env) (r r1 : Reader)
    (res : Except ReaderError (Option KL)) (h : ReadNonfirstEssenceKL env r = (res, r1)) :
    r.mLastKnownBasePosition ≤ r1.mLastKnownBasePosition ∧
    (∀ kl, res = .ok (some kl) → r1.anchor = r.anchor ∧ r1.mAtCPStart = false) ∧
    (res = .ok none →
      (r1.mBasePosition = r.mBasePosition + 1 ∧ r1.mAtCPStart = true ∧
        r1.mBasePosition ≤ r1.mLastKnownBasePosition) ∨
      (r1.mBasePosition = r.mBasePosition ∧
        r1.mLastKnownBasePosition = r.mLastKnownBasePosition ∧ r1.mAtCPStart = false)) ∧
    ((∃ e, res = .error e) →
      (∀ c kl c1, env.readKL c = .ok (kl, c1) → kl.llen ≠ 0) →
      r1.mBasePosition = r.mBasePosition ∧
      r1.mLastKnownBasePosition = r.mLastKnownBasePosition) := by
  unfold ReadNonfirstEssenceKL at h
  split at h
  · simp only [Prod.mk.injEq] at h
    obtain ⟨hres, hr⟩ := h
    subst hr
    subst hres
    exact ⟨le_refl _, fun kl hk => by simp at hk, fun hk => by simp at hk,
      fun _ _ => ⟨rfl, rfl⟩⟩
  · rename_i hpre
    have hat : r.mAtCPStart = false := by
      by_contra hne
      exact hpre (fun hh => hne hh.2)
    split at h
    · simp only [Prod.mk.injEq] at h
      obtain ⟨hres, hr⟩ := h
      subst hr
      subst hres
      exact ⟨le_refl _, fun kl hk => by simp at hk, fun hk => by simp at hk,
        fun _ _ => ⟨rfl, rfl⟩⟩
    · rename_i kl cursor hread
      dsimp only at h
      split at h
      · split at h
        · rename_i e r2 hset
          simp only [Prod.mk.injEq] at h
          obtain ⟨hres, hr⟩ := h
          subst hr
          subst hres
          obtain ⟨b1, b2, _, b4, _, b6, _⟩ := SetContentPackageStart_anchor hset
          have hz := (b6 ⟨e, rfl⟩).2.2
          refine ⟨b2, fun kl hk => by simp at hk, fun hk => by simp at hk, fun _ hll => ?_⟩
          have := hll _ _ _ hread
          exact absurd hz this
        · rename_i u r2 hset
          simp only [Prod.mk.injEq] at h
          obtain ⟨hres, hr⟩ := h
          subst hr
          subst hres
          obtain ⟨b1, b2, _, b4, _, _, _⟩ := SetContentPackageStart_anchor hset
          obtain ⟨b41, b42⟩ := b4 rfl
          refine ⟨b2, fun kl hk => by simp at hk, fun _ => Or.inl ⟨b1, b41, ?_⟩, fun hh => ?_⟩
          · rw [b42, b1]; exact le_max_right _ _
          · obtain ⟨e, he⟩ := hh
            simp at he
      · split at h
        · simp only [Prod.mk.injEq] at h
          obtain ⟨hres, hr⟩ := h
          subst hr
          subst hres
          refine ⟨?_, fun kl hk => by simp at hk, fun _ => Or.inr ⟨?_, ?_, ?_⟩, fun hh => ?_⟩
          · split <;> exact le_refl _
          · split <;> rfl
          · split <;> rfl
          · split <;> exact hat
          · obtain ⟨e, he⟩ := hh
            simp at he
        · simp only [Prod.mk.injEq] at h
          obtain ⟨hres, hr⟩ := h
          subst hr
          subst hres
          refine ⟨le_refl _, fun kl _ => ⟨rfl, hat⟩, fun hk => by simp at hk, fun hh => ?_⟩
          obtain ⟨e, he⟩ := hh
          simp at he

end Reader

end EssenceReader

/-! ## The high-water mark of the reader -/

namespace EssenceReader

namespace Reader

theorem ReadFirstEssenceKL_high_water (env : Env)
    (hll : ∀ c kl c1, env.readNextNonFillerKL c = .ok (kl, c1) → kl.llen ≠ 0)
    (fuel : Nat) (r r2 : Reader) (res : Except ReaderError KL)
    (hrun : ReadFirstEssenceKL env fuel r = some (res, r2)) :
    r.mLastKnownBasePosition ≤ r2.mLastKnownBasePosition ∧
    (r.mBasePosition ≤ r.mLastKnownBasePosition →
      r2.mBasePosition ≤ r2.mLastKnownBasePosition) := by
  obtain ⟨a1, a2, a3⟩ := ReadFirstEssenceKL_anchor env fuel r r2 res hrun
  refine ⟨a1, fun hi => ?_⟩
  cases res with
  | ok kl => exact (a2 kl rfl).2.2.2 hi
  | error e =>
    obtain ⟨b1, b2⟩ := a3 ⟨e, rfl⟩ hll
    omega

theorem ReadNonfirstEssenceKL_high_water (env : Env)
    (hkl : ∀ c kl c1, env.readKL c = .ok (kl, c1) → kl.llen ≠ 0)
    (r r2 : Reader) (res : Except ReaderError (Option KL))
    (hrun : ReadNonfirstEssenceKL env r = (res, r2)) :
    r.mLastKnownBasePosition ≤ r2.mLastKnownBasePosition ∧
    (r.mBasePosition ≤ r.mLastKnownBasePosition →
      r2.mBasePosition ≤ r2.mLastKnownBasePosition) := by
  obtain ⟨a1, a2, a3, a4⟩ := ReadNonfirstEssenceKL_anchor env r r2 res hrun
  refine ⟨a1, fun hi => ?_⟩
  cases res with
  | ok o =>
    cases o with
    | none =>
      rcases a3 rfl with hh | hh
      · exact hh.2.2
      · omega
    | some kl =>
      obtain ⟨b1, _, b3, _⟩ := anchor_eq (a2 kl rfl).1
      omega
  | error e =>
    obtain ⟨b1, b2⟩ := a4 ⟨e, rfl⟩ hkl
    omega

/-- One call of the alphabet keeps the content-package position at or below
the last-known base position and does not lower the latter, when the KLV
source returns KLs with a length field of at least one byte. -/
theorem runOp_high_water (env : Env)
    (hkl : ∀ c kl c1, env.readKL c = .ok (kl, c1) → kl.llen ≠ 0)
    (hll : ∀ c kl c1, env.readNextNonFillerKL c = .ok (kl, c1) → kl.llen ≠ 0)
    (fuel : Nat) (r r1 : Reader) (op : Op) (h : runOp env fuel r op = some r1) :
    r.mLastKnownBasePosition ≤ r1.mLastKnownBasePosition ∧
    (r.mBasePosition ≤ r.mLastKnownBasePosition →
      r1.mBasePosition ≤ r1.mLastKnownBasePosition) := by
  cases op with
  | readFirstEssenceKL =>
    simp only [runOp, Option.map_eq_some'] at h
    obtain ⟨⟨res, r2⟩, hrun, hr⟩ := h
    simp only at hr
    subst hr
    exact ReadFirstEssenceKL_high_water env hll fuel r r2 res hrun
  | readNonfirstEssenceKL =>
    simp only [runOp, Option.some.injEq] at h
    cases hrun : ReadNonfirstEssenceKL env r with
    | mk res r2 =>
      rw [hrun] at h
      dsimp only at h
      subst h
      exact ReadNonfirstEssenceKL_high_water env hkl r r2 res hrun
  | readEssenceKL first_element =>
    simp only [runOp, Option.map_eq_some'] at h
    obtain ⟨⟨res, r2⟩, hrun, hr⟩ := h
    simp only at hr
    subst hr
    unfold ReadEssenceKL at hrun
    split at hrun
    · split at hrun
      · simp at hrun
      · rename_i e r3 hf
        simp only [Option.some.injEq, Prod.mk.injEq] at hrun
        obtain ⟨_, hr⟩ := hrun
        subst hr
        exact ReadFirstEssenceKL_high_water env hll fuel r r3 _ hf
      · rename_i kl r3 hf
        simp only [Option.some.injEq, Prod.mk.injEq] at hrun
        obtain ⟨_, hr⟩ := hrun
        subst hr
        exact ReadFirstEssenceKL_high_water env hll fuel r r3 _ hf
    · simp only [Option.some.injEq] at hrun
      exact ReadNonfirstEssenceKL_high_water env hkl r r2 res hrun
  | seekContentPackageStart =>
    simp only [runOp, Option.map_eq_some'] at h
    obtain ⟨⟨res, r2⟩, hrun, hr⟩ := h
    simp only at hr
    subst hr
    obtain ⟨b1, _, b3, _⟩ := anchor_eq (SeekContentPackageStart_anchor env fuel r r2 res hrun).1
    omega
  | resetState =>
    simp only [runOp, Option.some.injEq] at h
    subst h
    exact ⟨le_refl _, fun hi => hi⟩
  | seekIndexed base_position file_position =>
    simp only [runOp, Option.some.injEq] at h
    cases hrun : SetContentPackageStart env { r with cursor := file_position } base_position
        file_position true with
    | mk res r2 =>
      rw [hrun] at h
      dsimp only at h
      subst h
      obtain ⟨b1, b2, _, b4, _, b6, _⟩ := SetContentPackageStart_anchor hrun
      refine ⟨b2, fun _ => ?_⟩
      cases res with
      | ok u =>
        rw [(b4 rfl).2, b1]; exact le_max_right _ _
      | error e =>
        have := (b6 ⟨e, rfl⟩).2.1
        simp at this
  | seekFirst =>
    simp only [runOp] at h
    split at h
    · simp at h
    · rename_i e r2 hs
      simp only [Option.some.injEq] at h
      subst h
      obtain ⟨b1, _, b3, _⟩ := anchor_eq (SeekContentPackageStart_anchor env fuel r r2 _ hs).1
      exact ⟨le_of_eq b3.symm, fun hi => by
        show r2.mBasePosition ≤ r2.mLastKnownBasePosition
        omega⟩
    · rename_i u r2 hs
      obtain ⟨ha, hl⟩ := SeekContentPackageStart_anchor env fuel r r2 _ hs
      obtain ⟨b1, _, b3, _⟩ := anchor_eq ha
      split at h
      · rename_i e r3 hset
        simp only [Option.some.injEq] at h
        subst h
        obtain ⟨c1, c2, _, c4, _, c6, _⟩ := SetContentPackageStart_anchor hset
        have hz := (c6 ⟨e, rfl⟩).2.2
        obtain ⟨c, kl, c1, hread, hlen⟩ := hl rfl
        have := hll c kl c1 hread
        omega
      · rename_i u2 r3 hset
        simp only [Option.some.injEq] at h
        subst h
        obtain ⟨c1, c2, _, c4, _, _, _⟩ := SetContentPackageStart_anchor hset
        refine ⟨by omega, fun _ => ?_⟩
        rw [(c4 rfl).2, c1]; exact le_max_right _ _
  | moveCursor position =>
    simp only [runOp, Option.some.injEq] at h
    subst h
    exact ⟨le_refl _, fun hi => hi⟩

/-- The invariant along a sequence of calls. -/
theorem runOps_high_water (env : Env)
    (hkl : ∀ c kl c1, env.readKL c = .ok (kl, c1) → kl.llen ≠ 0)
    (hll : ∀ c kl c1, env.readNextNonFillerKL c = .ok (kl, c1) → kl.llen ≠ 0)
    (fuel : Nat) (ops : List Op) :
    ∀ r r1 : Reader, runOps env fuel r ops = some r1 →
      r.mLastKnownBasePosition ≤ r1.mLastKnownBasePosition ∧
      (r.mBasePosition ≤ r.mLastKnownBasePosition →
        r1.mBasePosition ≤ r1.mLastKnownBasePosition) := by
  induction ops with
  | nil =>
    intro r r1 h
    simp only [runOps, Option.some.injEq] at h
    subst h
    exact ⟨le_refl _, fun hi => hi⟩
  | cons op ops ih =>
    intro r r1 h
    simp only [runOps] at h
    split at h
    · simp at h
    · rename_i r2 hop
      obtain ⟨a1, a2⟩ := runOp_high_water env hkl hll fuel r r2 op hop
      obtain ⟨b1, b2⟩ := ih r2 r1 h
      exact ⟨le_trans a1 b1, fun hi => b2 (a2 hi)⟩

/-- C28: in every state reached from a state with
`mBasePosition ≤ mLastKnownBasePosition` (the constructor sets both to -1) by
calls of the KL functions, seeks and resets, `mBasePosition` is at most
`mLastKnownBasePosition`; no call lowers `mLastKnownBasePosition`; and when
`SetContentPackageStart` raises it, it becomes the new `mBasePosition` and
`mLastKnownFilePosition` becomes the new `mFilePosition`. The KLV source
returns KLs whose length field has at least one byte. -/
theorem last_known_high_water (env : Env)
    (hkl : ∀ c kl c1, env.readKL c = .ok (kl, c1) → kl.llen ≠ 0)
    (hll : ∀ c kl c1, env.readNextNonFillerKL c = .ok (kl, c1) → kl.llen ≠ 0)
    (fuel : Nat) (ops : List Op) (r0 r : Reader)
    (hinit : r0.mBasePosition ≤ r0.mLastKnownBasePosition)
    (hrun : runOps env fuel r0 ops = some r) :
    r.mBasePosition ≤ r.mLastKnownBasePosition ∧
    r0.mLastKnownBasePosition ≤ r.mLastKnownBasePosition ∧
    (∀ op r1, runOp env fuel r op = some r1 →
      r.mLastKnownBasePosition ≤ r1.mLastKnownBasePosition ∧
      r1.mBasePosition ≤ r1.mLastKnownBasePosition) ∧
    (∀ base fp atKey,
      r.mLastKnownBasePosition ≤
        (SetContentPackageStart env r base fp atKey).2.mLastKnownBasePosition ∧
      (r.mLastKnownBasePosition <
          (SetContentPackageStart env r base fp atKey).2.mLastKnownBasePosition →
        (SetContentPackageStart env r base fp atKey).2.mLastKnownBasePosition = base ∧
        (SetContentPackageStart env r base fp atKey).2.mBasePosition = base ∧
        (SetContentPackageStart env r base fp atKey).2.mLastKnownFilePosition =
          (SetContentPackageStart env r base fp atKey).2.mFilePosition)) := by
  obtain ⟨a1, a2⟩ := runOps_high_water env hkl hll fuel ops r0 r hrun
  refine ⟨a2 hinit, a1, fun op r1 hop => ?_, fun base fp atKey => ?_⟩
  · obtain ⟨b1, b2⟩ := runOp_high_water env hkl hll fuel r r1 op hop
    exact ⟨b1, b2 (a2 hinit)⟩
  · cases hset : SetContentPackageStart env r base fp atKey with
    | mk res r2 =>
      obtain ⟨c1, c2, _, _, c5, _, _⟩ := SetContentPackageStart_anchor hset
      refine ⟨c2, fun hlt => ?_⟩
      obtain ⟨d1, d2⟩ := c5 hlt
      exact ⟨by rw [d1, c1], c1, d2⟩

/-- The KLs of a table source have the length fields of the table. -/
theorem tableEnv_llen (table : List (Int × KL)) (frameWrapped : Bool)
    (ht : ∀ p ∈ table, p.2.llen ≠ 0) :
    (∀ c kl c1, (Examples.tableEnv table frameWrapped).readKL c = .ok (kl, c1) →
      kl.llen ≠ 0) ∧
    (∀ c kl c1, (Examples.tableEnv table frameWrapped).readNextNonFillerKL c = .ok (kl, c1) →
      kl.llen ≠ 0) := by
  have hmem : ∀ (t : List (Int × KL)) (c : Int) (kl : KL),
      t.lookup c = some kl → ∃ k, (k, kl) ∈ t := by
    intro t
    induction t with
    | nil => intro c kl h; simp [List.lookup] at h
    | cons p t ih =>
      intro c kl h
      obtain ⟨k, v⟩ := p
      unfold List.lookup at h
      split at h
      · simp only [Option.some.injEq] at h
        subst h
        exact ⟨k, List.mem_cons_self _ _⟩
      · obtain ⟨k1, hk1⟩ := ih c kl h
        exact ⟨k1, List.mem_cons_of_mem _ hk1⟩
  have key : ∀ c kl c1,
      (match table.lookup c with
        | some kl => (.ok (kl, c + 16 + (kl.llen : Int)) : Except ReaderError (KL × Int))
        | none => .error .source) = .ok (kl, c1) → kl.llen ≠ 0 := by
    intro c kl c1 h
    split at h
    · rename_i kl0 hl
      simp only [Except.ok.injEq, Prod.mk.injEq] at h
      obtain ⟨k, hk⟩ := hmem table c kl0 hl
      rw [← h.1]
      exact ht _ hk
    · simp at h
  exact ⟨key, key⟩

theorem last_known_high_water_witness :
    ((runOps (Examples.tableEnv Examples.twoPackages true) 10
        (Examples.readerAt 1000 Key.null false)
        [.readEssenceKL true, .moveCursor 1120, .readEssenceKL false, .moveCursor 1180,
          .readEssenceKL false]).get rfl).mBasePosition ≤
      ((runOps (Examples.tableEnv Examples.twoPackages true) 10
        (Examples.readerAt 1000 Key.null false)
        [.readEssenceKL true, .moveCursor 1120, .readEssenceKL false, .moveCursor 1180,
          .readEssenceKL false]).get rfl).mLastKnownBasePosition ∧
    (Examples.readerAt 1000 Key.null false).mLastKnownBasePosition ≤
      ((runOps (Examples.tableEnv Examples.twoPackages true) 10
        (Examples.readerAt 1000 Key.null false)
        [.readEssenceKL true, .moveCursor 1120, .readEssenceKL false, .moveCursor 1180,
          .readEssenceKL false]).get rfl).mLastKnownBasePosition :=
  ⟨(last_known_high_water (Examples.tableEnv Examples.twoPackages true)
      (tableEnv_llen Examples.twoPackages true (by decide)).1
      (tableEnv_llen Examples.twoPackages true (by decide)).2 10
      [.readEssenceKL true, .moveCursor 1120, .readEssenceKL false, .moveCursor 1180,
        .readEssenceKL false]
      (Examples.readerAt 1000 Key.null false) _ (by decide) rfl).1,
   (last_known_high_water (Examples.tableEnv Examples.twoPackages true)
      (tableEnv_llen Examples.twoPackages true (by decide)).1
      (tableEnv_llen Examples.twoPackages true (by decide)).2 10
      [.readEssenceKL true, .moveCursor 1120, .readEssenceKL false, .moveCursor 1180,
        .readEssenceKL false]
      (Examples.readerAt 1000 Key.null false) _ (by decide) rfl).2.1⟩

end Reader

end EssenceReader

/-! ## Seeking from the last-known anchor -/

namespace EssenceReader

namespace Reader

/-- The inner loop of `SeekEssence` ends either at the start of the next
content package, one position further, or in front of a partition pack, at
the same position. -/
theorem skipPackageLoop_anchor (env : Env) :
    ∀ (n : Nat) (r : Reader) (cp : Int) (cp1 : Int) (r1 : Reader),
      skipPackageLoop env n r cp = some (.ok cp1, r1) →
      (r1.mBasePosition = r.mBasePosition + 1 ∧ r1.mAtCPStart = true) ∨
      (r1.mBasePosition = r.mBasePosition ∧ r1.mAtCPStart = false) := by
  intro n
  induction n with
  | zero => intro r cp cp1 r1 h; simp [skipPackageLoop] at h
  | succ n ih =>
    intro r cp cp1 r1 h
    rw [skipPackageLoop] at h
    split at h
    · simp at h
    · rename_i r2 hrun
      simp only [Option.some.injEq, Prod.mk.injEq, Except.ok.injEq] at h
      obtain ⟨_, hr⟩ := h
      subst hr
      rcases (ReadNonfirstEssenceKL_anchor env r r2 _ hrun).2.2.1 rfl with hh | hh
      · exact Or.inl ⟨hh.1, hh.2.1⟩
      · exact Or.inr ⟨hh.1, hh.2.2⟩
    · rename_i kl r2 hrun
      obtain ⟨ha, _⟩ := (ReadNonfirstEssenceKL_anchor env r r2 _ hrun).2.1 kl rfl
      obtain ⟨b1, _, _, _⟩ := anchor_eq ha
      have := ih (r2.skip kl.len) _ cp1 r1 h
      rw [← b1]
      exact this

/-- The loop of `SeekEssence` advances the content-package position by single
steps: started at or before the target, with the reader at a content-package
start when it is at the target, a normal return leaves the reader at the
start of the target content package. -/
theorem seekWalkLoop_reaches (env : Env) (index : IndexTable) (fuel n : Nat) (target : Int) :
    ∀ (m : Nat) (r r1 : Reader),
      r.mBasePosition ≤ target → (r.mBasePosition = target → r.mAtCPStart = true) →
      seekWalkLoop env index fuel n target m r = some (.ok (), r1) →
      r1.mBasePosition = target ∧ r1.mAtCPStart = true := by
  intro m
  induction m with
  | zero => intro r r1 _ _ h; simp [seekWalkLoop] at h
  | succ m ih =>
    intro r r1 hle hat h
    rw [seekWalkLoop] at h
    split at h
    · rename_i hlt
      split at h
      · simp at h
      · simp at h
      · rename_i kl r2 hfirst
        obtain ⟨_, a2, _⟩ := ReadFirstEssenceKL_anchor env fuel r r2 _ hfirst
        obtain ⟨c1, c2, c3, _⟩ := a2 kl rfl
        split at h
        · rename_i hlt2
          split at h
          · simp at h
          · simp at h
          · rename_i cp r3 hskip
            have hs := skipPackageLoop_anchor env n _ _ cp r3 hskip
            have hb : (r2.skip kl.len).ResetState.mBasePosition = r2.mBasePosition := rfl
            rw [hb] at hs
            split at h
            · simp at h
            · rename_i off helper hoff
              split at h
              · simp at h
              · refine ih _ r1 ?_ ?_ h
                · show r3.mBasePosition ≤ target
                  omega
                · intro he
                  show r3.mAtCPStart = true
                  have he2 : r3.mBasePosition = target := he
                  rcases hs with hh | hh
                  · exact hh.2
                  · omega
        · rename_i hge
          exact ih r2 r1 (by omega) (fun _ => c1) h
    · rename_i hge
      simp only [Option.some.injEq, Prod.mk.injEq] at h
      obtain ⟨_, hr⟩ := h
      subst hr
      have : r.mBasePosition = target := by omega
      exact ⟨this, hat this⟩

/-- C29, as amended: `SeekEssence(target, for_read = true)` on a reader that
has been positioned before (`mBasePosition ≥ 0`), with a target that the
index table and the chunk index do not resolve and
`mBasePosition < mLastKnownBasePosition < target`, rewinds to the last-known
anchor (the walk starts at a content-package start with `mBasePosition`
equal to the last-known base position, at the last-known file position) and
walks forward from there; on normal return `mBasePosition` is the target and
`mAtCPStart` is true. -/
theorem SeekEssence_from_anchor (env : Env) (index : IndexTable) (fuel n m : Nat)
    (r r1 : Reader) (target p : Int)
    (hidx : (GetIndexedFilePosition index r.mEssenceChunkHelper target).1 = .ok p)
    (hp : p < 0) (hpos : 0 ≤ r.mBasePosition)
    (hlt : r.mBasePosition < r.mLastKnownBasePosition)
    (hanchor : r.mLastKnownBasePosition < target)
    (hok : SeekEssence env index fuel n m r target true = some (.ok (), r1)) :
    r1.mBasePosition = target ∧ r1.mAtCPStart = true ∧
    ∃ r0 : Reader, r0.mBasePosition = r.mLastKnownBasePosition ∧
      r0.mFilePosition = r.mLastKnownFilePosition ∧ r0.cursor = r.mLastKnownFilePosition ∧
      r0.mAtCPStart = true ∧
      seekWalkLoop env index fuel n target m r0 = some (.ok (), r1) := by
  unfold SeekEssence at hok
  split at hok
  · simp at hok
  · simp at hok
  · rename_i u r2 hbody
    simp only [Option.some.injEq, Prod.mk.injEq] at hok
    obtain ⟨_, hr⟩ := hok
    subst hr
    unfold seekEssenceBody at hbody
    rw [if_neg (by omega)] at hbody
    rw [if_neg (by simp; intro _; omega)] at hbody
    cases hg : GetIndexedFilePosition index r.mEssenceChunkHelper target with
    | mk res helper =>
      rw [hg] at hidx hbody
      dsimp only at hidx
      subst hidx
      dsimp only at hbody
      rw [if_neg (by omega)] at hbody
      split at hbody
      · simp at hbody
      · rw [if_neg (by simp)] at hbody
        have h1 : ¬ r.mBasePosition < 0 := by omega
        have h3 : ¬ ¬ (r.mLastKnownBasePosition < target) := not_not.mpr hanchor
        simp only [if_neg h1, if_pos hlt, if_neg h3] at hbody
        cases hset : SetContentPackageStart env
            { ({ r with mEssenceChunkHelper := helper } : Reader) with
              cursor := r.mLastKnownFilePosition }
            r.mLastKnownBasePosition r.mLastKnownFilePosition true with
        | mk res2 r0 =>
          rw [hset] at hbody
          obtain ⟨b1, _, b3, b4, _, b6, b7⟩ := SetContentPackageStart_anchor hset
          cases res2 with
          | error e =>
            have := (b6 ⟨e, rfl⟩).2.1
            simp at this
          | ok u2 =>
            have hfp : r0.mFilePosition = r.mLastKnownFilePosition := by
              rw [b7 rfl]
              split <;> rfl
            have hwalk := seekWalkLoop_reaches env index fuel n target m r0 r2
              (by rw [b1]; omega) (fun _ => (b4 rfl).1)
            cases u
            exact ⟨(hwalk hbody).1, (hwalk hbody).2, r0, b1, hfp, b3, (b4 rfl).1, hbody⟩

theorem SeekEssence_from_anchor_witness :
    ((SeekEssence (Examples.tableEnv Examples.threePackages true) Examples.noIndex 10 10 10
        (Examples.walker 0 1 1180) 2 true).get rfl).2.mBasePosition = 2 ∧
    ((SeekEssence (Examples.tableEnv Examples.threePackages true) Examples.noIndex 10 10 10
        (Examples.walker 0 1 1180) 2 true).get rfl).2.mAtCPStart = true :=
  ⟨(SeekEssence_from_anchor (Examples.tableEnv Examples.threePackages true) Examples.noIndex
      10 10 10 (Examples.walker 0 1 1180) _ 2 (-1) rfl (by decide) (by decide) (by decide)
      (by decide) rfl).1,
   (SeekEssence_from_anchor (Examples.tableEnv Examples.threePackages true) Examples.noIndex
      10 10 10 (Examples.walker 0 1 1180) _ 2 (-1) rfl (by decide) (by decide) (by decide)
      (by decide) rfl).2.1⟩

/-- Counterexample to C29: the reader is at content package 0, the last-known
anchor is content package 2 and the target is 2, which the index table does
not resolve. `BMX_ASSERT(mLastKnownBasePosition < base_position)` fails and
`SeekEssence` throws instead of rewinding to the anchor. -/
theorem SeekEssence_anchor_at_target :
    (GetIndexedFilePosition Examples.noIndex
      (Examples.walker 0 2 1360).mEssenceChunkHelper 2).1 = .ok (-1) ∧
    0 ≤ (Examples.walker 0 2 1360).mBasePosition ∧
    (Examples.walker 0 2 1360).mBasePosition <
      (Examples.walker 0 2 1360).mLastKnownBasePosition ∧
    (Examples.walker 0 2 1360).mLastKnownBasePosition ≤ 2 ∧
    (SeekEssence (Examples.tableEnv Examples.threePackages true) Examples.noIndex 10 10 10
      (Examples.walker 0 2 1360) 2 true).map (fun out => out.1) =
      some (.error .assertFailed) :=
  ⟨rfl, by decide, by decide, by decide, rfl⟩

end Reader

end EssenceReader

/-! ## Chunk index of a complete frame-wrapped file -/

namespace EssenceChunkHelper

open EssenceReader

/-- The index built for the example file: the chunks of the two body
partitions, from the keys at 1100 and 2170 to the partition ends 2000 and
3000. -/
theorem CreateEssenceChunkIndex_example :
    CreateEssenceChunkIndex (Examples.tableEnv Examples.completeFile true)
      (fun cursor => decide (3200 ≤ cursor)) 3200 Examples.completePartitions 3201
      (create true 0) =
    some (.ok ⟨true, 0, [⟨1100, 0, 900, true, 1⟩, ⟨2170, 900, 830, true, 2⟩], 0, 3, true⟩) :=
  rfl

end EssenceChunkHelper

/-! ## Re-application of the read limits -/

namespace EssenceReader

/-- A position that `LegitimisePosition` has returned is returned unchanged. -/
theorem LegitimisePosition_fixed {D x : Int} (hD : 0 ≤ D) :
    LegitimisePosition D (LegitimisePosition D x) = LegitimisePosition D x := by
  unfold LegitimisePosition
  split_ifs <;> omega

theorem LegitimisePosition_range {D : Int} (hD : 0 ≤ D) (x : Int) :
    0 ≤ LegitimisePosition D x ∧ LegitimisePosition D x ≤ D := by
  unfold LegitimisePosition
  split_ifs <;> omega

theorem LegitimisePosition_mono {D x y : Int} (hD : 0 ≤ D) (h : x ≤ y) :
    LegitimisePosition D x ≤ LegitimisePosition D y := by
  unfold LegitimisePosition
  split_ifs <;> omega

/-- C31: `SetReadLimits` is idempotent on its own output. For an index table
of duration `D` (a 64-bit value that is not negative), complete or not, and
every start and duration for which `start + duration - 1` is representable,
a call of `SetReadLimits` with the read start and read duration stored by
`SetReadLimits(start, duration)` stores the same two values again. -/
theorem SetReadLimits_idempotent (index_complete : Bool) (D start duration : Int)
    (hD : 0 ≤ D) (hD64 : D ≤ INT64_MAX)
    (hsum : Int64Range (start + duration - 1)) :
    SetReadLimits index_complete D
        (SetReadLimits index_complete D start duration).mReadStartPosition
        (SetReadLimits index_complete D start duration).mReadDuration =
      SetReadLimits index_complete D start duration := by
  cases index_complete
  · simp only [SetReadLimits, Bool.false_eq_true, if_false]
    congr 1 <;> split_ifs <;> omega
  · have hw : wrapInt64 (start + duration - 1) = start + duration - 1 := toInt64_of_range hsum
    simp only [SetReadLimits, if_true, hw, LegitimisePosition_fixed hD]
    by_cases hz : duration ≤ 0 ∨ D = 0
    · simp only [if_pos hz]
      simp
    · simp only [if_neg hz]
      have hm := LegitimisePosition_mono (x := start) (y := start + duration - 1) hD (by omega)
      have hr := LegitimisePosition_range hD (start + duration - 1)
      have hlt : LegitimisePosition D (start + duration - 1) < D := by
        unfold LegitimisePosition
        split_ifs <;> omega
      have e : LegitimisePosition D start +
          (LegitimisePosition D (start + duration - 1) - LegitimisePosition D start + 1) - 1 =
          LegitimisePosition D (start + duration - 1) := by omega
      have hw2 : wrapInt64 (LegitimisePosition D (start + duration - 1)) =
          LegitimisePosition D (start + duration - 1) := by
        apply toInt64_of_range
        unfold Int64Range INT64_BOUND
        unfold INT64_MAX at hD64
        omega
      rw [e, hw2, LegitimisePosition_fixed hD, if_neg (by omega)]

theorem SetReadLimits_idempotent_witness :
    SetReadLimits true 100 (SetReadLimits true 100 90 50).mReadStartPosition
        (SetReadLimits true 100 90 50).mReadDuration = SetReadLimits true 100 90 50 ∧
    SetReadLimits true 100 90 50 = ⟨90, 10⟩ :=
  ⟨SetReadLimits_idempotent true 100 90 50 (by decide) (by decide) (by decide), by decide⟩

end EssenceReader

/-! ## The assertion of `Read` -/

namespace EssenceReader

/-- When the 64-bit sum `mPosition + num_samples` is positive it has not
overflowed: the sum of a 64-bit position and a 32-bit count is representable. -/
theorem position_sum_representable {p : Int} {n : Nat} (hp : Int64Range p)
    (hn : (n : Int) < 4294967296) (hpos : ¬ wrapInt64 (p + (n : Int)) ≤ 0) :
    Int64Range (p + (n : Int)) := by
  unfold Int64Range INT64_BOUND at hp ⊢
  unfold wrapInt64 toInt64 UINT64_MOD INT64_BOUND at hpos
  split at hpos <;> omega

/-- C32: in `Read(n)` with `n >= 1` the assertion `read_num_samples > 0` holds.
For every 64-bit position and every window with `read_start >= 0`,
`read_duration >= 1` and a representable end, when the three conditions that
skip the read are false (the third with the 64-bit sum of the machine) the sum
`position + n` is representable, the pre-roll offset `-position` of a negative
position is below `n` and is stored unchanged as `first_sample_offset`, and
`Read` returns a sample count between 1 and `n`, the number of positions from
`max(position, 0)` to `min(position + n, window end)`. -/
theorem Read_assertion_holds (s : ReadState) (n : Nat)
    (hn1 : 1 ≤ n) (hn : (n : Int) < 4294967296) (hp : Int64Range s.mPosition)
    (hrs : 0 ≤ s.mReadStartPosition) (hrd : 1 ≤ s.mReadDuration)
    (hwin : Int64Range (s.mReadStartPosition + s.mReadDuration))
    (hclip : ¬ (s.mReadDuration = 0 ∨
      s.mPosition ≥ wrapInt64 (s.mReadStartPosition + s.mReadDuration) ∨
      wrapInt64 (s.mPosition + (n : Int)) ≤ 0)) :
    Int64Range (s.mPosition + (n : Int)) ∧
    (s.mPosition < 0 → -s.mPosition < (n : Int)) ∧
    ∃ r, Read s n = .ok r ∧
      r.first_sample_offset = (if s.mPosition < 0 then -s.mPosition else 0) ∧
      1 ≤ r.read_num_samples ∧ r.read_num_samples ≤ (n : Int) ∧
      r.read_num_samples =
        min (s.mPosition + (n : Int)) (s.mReadStartPosition + s.mReadDuration) -
          max s.mPosition 0 := by
  have hw : wrapInt64 (s.mReadStartPosition + s.mReadDuration) =
      s.mReadStartPosition + s.mReadDuration := toInt64_of_range hwin
  have hsum : Int64Range (s.mPosition + (n : Int)) :=
    position_sum_representable hp hn (fun h => hclip (Or.inr (Or.inr h)))
  have hws : wrapInt64 (s.mPosition + (n : Int)) = s.mPosition + (n : Int) :=
    toInt64_of_range hsum
  rw [hw, hws] at hclip
  refine ⟨hsum, fun h => by omega, ?_⟩
  by_cases hneg : s.mPosition < 0
  · refine ⟨_, Read_eq_of_neg s n hneg (by omega) hn (by omega) (by rw [hw]; omega), ?_, ?_, ?_, ?_⟩
    · rw [if_pos hneg]
    · show 1 ≤ min ((n : Int) + s.mPosition) (wrapInt64 (s.mReadStartPosition + s.mReadDuration))
      rw [hw]; omega
    · show min ((n : Int) + s.mPosition) (wrapInt64 (s.mReadStartPosition + s.mReadDuration)) ≤ _
      rw [hw]; omega
    · show min ((n : Int) + s.mPosition) (wrapInt64 (s.mReadStartPosition + s.mReadDuration)) = _
      rw [hw]; omega
  · obtain ⟨r, hr⟩ := Read_returns_of_nonneg s n (by omega) hn1 hn
    obtain ⟨_, _, hfso, hnum⟩ := Read_ok_of_nonneg (by omega) hn hr
    rw [hw, hws, if_neg hclip] at hnum
    refine ⟨r, hr, ?_, ?_, ?_, ?_⟩
    · rw [if_neg hneg]; exact hfso
    · rw [hnum]; omega
    · rw [hnum]; omega
    · rw [hnum]; omega

theorem Read_assertion_holds_witness :
    Int64Range (-3 + ((10 : Nat) : Int)) ∧
    ((-3 : Int) < 0 → -(-3 : Int) < ((10 : Nat) : Int)) ∧
    ∃ r, Read ⟨2, 5, -3⟩ 10 = .ok r ∧
      r.first_sample_offset = (if (-3 : Int) < 0 then -(-3 : Int) else 0) ∧
      1 ≤ r.read_num_samples ∧ r.read_num_samples ≤ ((10 : Nat) : Int) ∧
      r.read_num_samples = min (-3 + ((10 : Nat) : Int)) (2 + 5) - max (-3) 0 :=
  Read_assertion_holds ⟨2, 5, -3⟩ 10 (by decide) (by decide) (by decide) (by decide)
    (by decide) (by decide) (by decide)

end EssenceReader

/-! ## Termination and range of the binary search -/

namespace EssenceReader

/-- With fewer than 2^31 candidates the loop looks up edit units of
`[position, position + M)` only: from a state with
`1 <= left <= right <= last <= M` it gives the same result for two lookup
functions that agree on that range. -/
theorem editUnitGroupLoop_local {g1 g2 : Int → Except BMXException (Int × Int)}
    {E first position M : Int} (hM : M < 2147483648)
    (hagree : ∀ j, 0 ≤ j → j < M → g1 (position + j) = g2 (position + j)) :
    ∀ (fuel : Nat) (left right last : Int),
      1 ≤ left → left ≤ right → right ≤ last → last ≤ M →
      editUnitGroupLoop g1 E first position fuel left right last =
        editUnitGroupLoop g2 E first position fuel left right last := by
  intro fuel
  induction fuel with
  | zero => intros; rfl
  | succ fuel ih =>
    intro left right last h1 hlr hrl hlM
    simp only [editUnitGroupLoop]
    by_cases hne : right = left
    · simp [hne]
    · have hpos : position + right - 1 = position + (right - 1) := by omega
      have hg := hagree (right - 1) (by omega) (by omega)
      rw [← hpos] at hg
      have e1 : toUInt32 (left + right) = left + right := by unfold toUInt32; omega
      have e2 : toUInt32 (right + last + 1) = right + last + 1 := by unfold toUInt32; omega
      simp only [ne_eq, hne, not_false_eq_true, if_true, hg, e1, e2]
      cases g2 (position + right - 1) with
      | error e => rfl
      | ok p =>
        obtain ⟨rfp, rsz⟩ := p
        dsimp only
        split_ifs
        all_goals first
          | rfl
          | exact ih left ((left + right) / 2) right h1 (by omega) (by omega) (by omega)
          | exact ih right ((right + last + 1) / 2) last (by omega) (by omega) (by omega) hlM

/-- With fewer than 2^31 candidates the loop ends, whatever the lookups
answer: from a state with `1 <= left <= right <= last <= M`,
`(last - left) * (M + 1) + (right - left) + 1` iterations are enough. -/
theorem editUnitGroupLoop_ends {g : Int → Except BMXException (Int × Int)}
    {E first position : Int} {M : Nat} (hM : (M : Int) < 2147483648) :
    ∀ (fuel : Nat) (left right last : Int),
      1 ≤ left → left ≤ right → right ≤ last → last ≤ (M : Int) →
      (last - left).toNat * (M + 1) + (right - left).toNat < fuel →
      editUnitGroupLoop g E first position fuel left right last ≠ .ok none := by
  intro fuel
  induction fuel with
  | zero => intro _ _ _ _ _ _ _ h; omega
  | succ fuel ih =>
    intro left right last h1 hlr hrl hlM hfuel
    simp only [editUnitGroupLoop]
    by_cases hne : right = left
    · simp [hne]
    · have e1 : toUInt32 (left + right) = left + right := by unfold toUInt32; omega
      have e2 : toUInt32 (right + last + 1) = right + last + 1 := by unfold toUInt32; omega
      simp only [ne_eq, hne, not_false_eq_true, if_true, e1, e2]
      cases g (position + right - 1) with
      | error e => simp
      | ok p =>
        obtain ⟨rfp, rsz⟩ := p
        dsimp only
        have hgap : editUnitGroupLoop g E first position fuel left ((left + right) / 2) right ≠
            .ok none := by
          refine ih left ((left + right) / 2) right h1 (by omega) (by omega) (by omega) ?_
          have hmul : (right - left).toNat * (M + 1) ≤ (last - left).toNat * (M + 1) :=
            Nat.mul_le_mul_right _ (by omega)
          omega
        have hcont : editUnitGroupLoop g E first position fuel right
            ((right + last + 1) / 2) last ≠ .ok none := by
          refine ih right ((right + last + 1) / 2) last (by omega) (by omega) (by omega) hlM ?_
          have hmul : ((last - right).toNat + 1) * (M + 1) ≤ (last - left).toNat * (M + 1) :=
            Nat.mul_le_mul_right _ (by omega)
          rw [Nat.add_mul, Nat.one_mul] at hmul
          omega
        split_ifs
        all_goals first
          | exact hgap
          | exact hcont
          | simp

/-- For `max_samples < 2^31` the binary search of `GetEditUnitGroup` ends
whatever the lookups answer (`max_samples * (max_samples + 1)` iterations are
enough), and it looks up edit units of `[position, position + max_samples)`
only: two lookup functions that agree on this range give the same result. -/
theorem GetEditUnitGroup_search_in_range (haveConstantEditUnitSize : Bool) (E position : Int)
    (max_samples : Nat) (hmax : (max_samples : Int) < 2147483648) :
    (∀ (g : Int → Except BMXException (Int × Int)) (fuel : Nat),
      max_samples * (max_samples + 1) ≤ fuel →
      GetEditUnitGroup fuel haveConstantEditUnitSize g E position max_samples ≠ .ok none) ∧
    (∀ (g1 g2 : Int → Except BMXException (Int × Int)) (fuel : Nat),
      (∀ j, 0 ≤ j → j < (max_samples : Int) → g1 (position + j) = g2 (position + j)) →
      GetEditUnitGroup fuel haveConstantEditUnitSize g1 E position max_samples =
        GetEditUnitGroup fuel haveConstantEditUnitSize g2 E position max_samples) := by
  constructor
  · intro g fuel hfuel
    unfold GetEditUnitGroup
    by_cases hpos : max_samples > 0
    · rw [if_neg (not_not.mpr hpos)]
      split_ifs
      · cases g position with
        | error e => simp
        | ok p => simp
      · cases g position with
        | error e => simp
        | ok p =>
          obtain ⟨ffp, fsz⟩ := p
          dsimp only
          have hloop : editUnitGroupLoop g E ffp position fuel 1 (max_samples : Int)
              (max_samples : Int) ≠ .ok none := by
            refine editUnitGroupLoop_ends hmax fuel 1 _ _ (le_refl _) (by omega) (le_refl _)
              (le_refl _) ?_
            have e : ((max_samples : Int) - 1).toNat = max_samples - 1 := by omega
            rw [e]
            have hm : (max_samples - 1) * (max_samples + 1) + (max_samples + 1) =
                max_samples * (max_samples + 1) := by
              obtain ⟨k, hk⟩ : ∃ k, max_samples = k + 1 := ⟨max_samples - 1, by omega⟩
              subst hk
              simp only [Nat.add_sub_cancel]
              ring
            omega
          cases hres : editUnitGroupLoop g E ffp position fuel 1 (max_samples : Int)
              (max_samples : Int) with
          | error e => simp
          | ok o =>
            cases o with
            | none => exact absurd hres hloop
            | some left => simp
    · rw [if_pos hpos]
      simp
  · intro g1 g2 fuel hagree
    unfold GetEditUnitGroup
    by_cases hpos : max_samples > 0
    · have h0 : g1 position = g2 position := by
        have := hagree 0 (le_refl _) (by omega)
        simpa using this
      rw [h0]
      cases g2 position with
      | error e => rfl
      | ok p =>
        obtain ⟨ffp, fsz⟩ := p
        dsimp only
        rw [editUnitGroupLoop_local hmax hagree fuel 1 _ _ (le_refl _) (by omega) (le_refl _)
          (le_refl _)]
    · rw [if_pos hpos, if_pos hpos]

/-- When every lookup is answered "contiguous" and 2^31 is the last
candidate, the loop does not end: from every state with `right` different
from `left` each iteration moves `left` to `right` and `right` to
`(right + 2^31 + 1) mod 2^32 / 2`, which is never `right` again. -/
theorem editUnitGroupLoop_never_ends (start E position : Int) :
    ∀ (fuel : Nat) (left right : Int), right ≠ left → 0 ≤ right → right < 4294967296 →
      editUnitGroupLoop (wrappedUnits start E position) E start position fuel
        left right 2147483648 = .ok none := by
  intro fuel
  induction fuel with
  | zero => intros; rfl
  | succ fuel ih =>
    intro left right hne h0 h32
    have hpos : position + right - 1 - position = right - 1 := by omega
    rw [editUnitGroupLoop, if_pos hne]
    simp only [wrappedUnits, hpos, ne_eq, not_true_eq_false, if_false, gt_iff_lt, lt_self_iff_false]
    refine ih right _ ?_ ?_ ?_ <;> (unfold toUInt32; omega)

/-- C33, failing input: an index table of 2^31 edit units of 10 bytes stored
without a gap from file position 1000, and `GetEditUnitGroup(0, 2^31)`. The
first iteration of the binary search leaves `left = 2^31` and `right = 0`
(the 32-bit sum `right + last + 1` has wrapped), the second looks up edit
unit `-1`, which is outside `[0, 2^31)`, and the call ends with the exception
of that lookup, whatever the iteration bound. With 2^31 - 1 edit units and
`max_samples = 2^31 - 1` the whole group is returned. -/
theorem GetEditUnitGroup_search_leaves_range :
    (∀ fuel, editUnitGroupLoop (indexedUnits 1000 10 2147483648) 10 1000 0 (fuel + 1)
        1 2147483648 2147483648 =
      editUnitGroupLoop (indexedUnits 1000 10 2147483648) 10 1000 0 fuel
        2147483648 0 2147483648) ∧
    (∀ fuel, GetEditUnitGroup (fuel + 2) true (indexedUnits 1000 10 2147483648) 10 0
        2147483648 = .error .notFound) ∧
    GetEditUnitGroup 100 true (indexedUnits 1000 10 2147483647) 10 0 2147483647 =
      .ok (some (1000, 21474836470, 2147483647)) := by
  refine ⟨fun fuel => ?_, fun fuel => ?_, rfl⟩
  · rfl
  · rfl

/-- With 2^31 candidates and every lookup answered "contiguous",
`GetEditUnitGroup` does not return within any number of iterations. -/
theorem GetEditUnitGroup_never_ends (start E position : Int) (fuel : Nat) :
    GetEditUnitGroup fuel true (wrappedUnits start E position) E position 2147483648 =
      .ok none := by
  have h := editUnitGroupLoop_never_ends start E position fuel 1 2147483648 (by decide)
    (by decide) (by decide)
  unfold GetEditUnitGroup
  simp only [wrappedUnits, sub_self, toUInt32, Int.zero_emod, mul_zero, add_zero] at h ⊢
  simp [h]

end EssenceReader

/-! ## The completion flags -/

namespace EssenceChunkHelper

theorem UpdateLastChunk_mIsComplete (h : EssenceChunkHelper) (fp : Int) (e : Bool) :
    (h.UpdateLastChunk fp e).mIsComplete = h.mIsComplete := by
  unfold UpdateLastChunk
  split <;> rfl

theorem AppendChunk_mIsComplete {h h1 : EssenceChunkHelper} {bo pid : Nat} {fp : Int}
    {llen len : Nat} (hh : h.AppendChunk bo pid fp llen len = .ok h1) :
    h1.mIsComplete = h.mIsComplete := by
  unfold AppendChunk at hh
  dsimp only at hh
  repeat' split at hh
  all_goals (cases hh <;> rfl)

theorem EssenceOffsetUpdate_mIsComplete {h h1 : EssenceChunkHelper} {o : Int}
    (hh : h.EssenceOffsetUpdate o = .ok h1) : h1.mIsComplete = h.mIsComplete := by
  unfold EssenceOffsetUpdate at hh
  repeat' split at hh
  all_goals first
    | (simp only [Except.ok.injEq] at hh; subst hh; rfl)
    | simp at hh

theorem FilePositionUpdate_mIsComplete {h h1 : EssenceChunkHelper} {o : Int}
    (hh : h.FilePositionUpdate o = .ok h1) : h1.mIsComplete = h.mIsComplete := by
  unfold FilePositionUpdate at hh
  repeat' split at hh
  all_goals first
    | (simp only [Except.ok.injEq] at hh; subst hh; rfl)
    | simp at hh

theorem HaveFilePosition_mIsComplete (h : EssenceChunkHelper) (o : Int) :
    (h.HaveFilePosition o).2.mIsComplete = h.mIsComplete := by
  unfold HaveFilePosition
  split
  · rfl
  · split
    · rfl
    · rename_i h1 hu
      exact EssenceOffsetUpdate_mIsComplete hu

theorem GetFilePosition_mIsComplete (h : EssenceChunkHelper) (o : Int) :
    (h.GetFilePosition o).2.mIsComplete = h.mIsComplete := by
  unfold GetFilePosition
  split
  · rfl
  · rename_i h1 hu
    split <;> exact EssenceOffsetUpdate_mIsComplete hu

theorem GetFilePositionSpan_mIsComplete (h : EssenceChunkHelper) (o size : Int) :
    (h.GetFilePositionSpan o size).2.mIsComplete = h.mIsComplete := by
  cases hu : h.EssenceOffsetUpdate o with
  | error e =>
    have e1 : (h.GetFilePositionSpan o size).2 = h := by
      unfold GetFilePositionSpan
      rw [hu]
    rw [e1]
  | ok h1 =>
    have e1 : (h.GetFilePositionSpan o size).2 = h1 := by
      unfold GetFilePositionSpan
      rw [hu]
      dsimp only
      repeat' split
      all_goals rfl
    rw [e1]
    exact EssenceOffsetUpdate_mIsComplete hu

theorem GetEssenceOffset_mIsComplete (h : EssenceChunkHelper) (fp : Int) :
    (h.GetEssenceOffset fp).2.mIsComplete = h.mIsComplete := by
  unfold GetEssenceOffset
  split
  · rfl
  · rename_i h1 hu
    split <;> exact FilePositionUpdate_mIsComplete hu

end EssenceChunkHelper

namespace EssenceReader

theorem GetIndexedFilePosition_mIsComplete (index : IndexTable) (h : EssenceChunkHelper)
    (base : Int) : (GetIndexedFilePosition index h base).2.mIsComplete = h.mIsComplete := by
  unfold GetIndexedFilePosition
  split
  · dsimp only
    have hh := EssenceChunkHelper.HaveFilePosition_mIsComplete h (index.getEditUnitOffset base)
    split
    · rename_i h1 heq
      rw [heq] at hh
      rw [EssenceChunkHelper.GetFilePosition_mIsComplete]
      exact hh
    · rename_i h1 heq
      rw [heq] at hh
      exact hh
  · rfl

namespace Reader

theorem FlagsStep_refl (r : Reader) : FlagsStep r r := ⟨⟨id, id, id⟩, id⟩

theorem FlagsStep_trans {a b c : Reader} (h1 : FlagsStep a b) (h2 : FlagsStep b c) :
    FlagsStep a c :=
  ⟨⟨fun h => h2.1.1 (h1.1.1 h), fun h => h2.1.2.1 (h1.1.2.1 h),
    fun h => h2.1.2.2 (h1.1.2.2 h)⟩, fun h => h2.2 (h1.2 h)⟩

theorem FlagsStep_of_flags {r r1 : Reader} (h : r1.flags = r.flags) : FlagsStep r r1 := by
  simp only [flags, Prod.mk.injEq] at h
  obtain ⟨h1, h2, h3⟩ := h
  unfold FlagsStep FlagsKept FlagsInv
  rw [h1, h2, h3]
  exact ⟨⟨id, id, id⟩, id⟩

theorem SetHaveFooter_step (r : Reader) : FlagsStep r r.SetHaveFooter := by
  unfold FlagsStep FlagsKept FlagsInv SetHaveFooter
  simp

theorem SetFileIsComplete_step (r : Reader) : FlagsStep r r.SetFileIsComplete := by
  unfold FlagsStep FlagsKept FlagsInv SetFileIsComplete SetHaveFooter
  cases hf : r.mHaveFooter <;> simp [hf]

theorem GetPartitionId_flags (r : Reader) (file_position : Int) :
    (GetPartitionId r file_position).2.flags = r.flags := by
  unfold GetPartitionId flags
  dsimp only
  split <;> rfl

theorem ReadNextPartition_step (env : Env) (r : Reader) (key : Key) (llen len : Nat) :
    FlagsStep r (ReadNextPartition env r key llen len).2 := by
  unfold ReadNextPartition
  dsimp only
  repeat' split
  all_goals try dsimp only
  all_goals first
    | exact FlagsStep_refl r
    | exact FlagsStep_of_flags rfl
    | (refine FlagsStep_trans ?_ (SetHaveFooter_step _); exact FlagsStep_of_flags rfl)
    | (refine FlagsStep_trans ?_ (SetFileIsComplete_step _)
       refine FlagsStep_trans ?_ (SetHaveFooter_step _)
       exact FlagsStep_of_flags rfl)

theorem SetContentPackageStart_flags (env : Env) (r : Reader) (base fp : Int) (atKey : Bool) :
    (SetContentPackageStart env r base fp atKey).2.flags = r.flags := by
  unfold SetContentPackageStart
  dsimp only
  split
  · rfl
  · by_cases hb : base > r.mLastKnownBasePosition
    · cases atKey <;> cases hc : r.mEssenceChunkHelper.mIsComplete <;>
        simp [flags, hb, hc, ResetNextKL, SetNextKL,
          EssenceChunkHelper.UpdateLastChunk_mIsComplete]
    · cases atKey <;> simp [flags, hb, ResetNextKL, SetNextKL]

theorem FlagsStep_of_fields {r r1 : Reader}
    (h1 : r1.mFileIsComplete = r.mFileIsComplete) (h2 : r1.mHaveFooter = r.mHaveFooter)
    (h3 : r1.mEssenceChunkHelper.mIsComplete = r.mEssenceChunkHelper.mIsComplete) :
    FlagsStep r r1 :=
  FlagsStep_of_flags (by simp only [flags, h1, h2, h3])

theorem ReadNextPartition_step_of_eq {env : Env} {r r2 : Reader} {key : Key} {llen len : Nat}
    {res : Except ReaderError Unit}
    (h : ReadNextPartition env r key llen len = (res, r2)) : FlagsStep r r2 := by
  have hv := ReadNextPartition_step env r key llen len
  rw [h] at hv
  exact hv

/-- The loop of `SeekContentPackageStart` keeps the completion flags that are
true and the relation between them. -/
theorem seekLoop_step (env : Env) (hsk : Bool) :
    ∀ (fuel : Nat) (r : Reader) (pid : Nat) (res : Except ReaderError Unit) (r1 : Reader),
      seekLoop env hsk fuel r pid = some (res, r1) → FlagsStep r r1 := by
  intro fuel
  induction fuel with
  | zero => intro r pid res r1 h; simp [seekLoop] at h
  | succ fuel ih =>
    intro r pid res r1 h
    have transfer : ∀ (rmid : Reader) (pid1 : Nat), FlagsStep r rmid →
        seekLoop env hsk fuel rmid pid1 = some (res, r1) → FlagsStep r r1 :=
      fun rmid pid1 h1 hrun => FlagsStep_trans h1 (ih rmid pid1 res r1 hrun)
    have done : ∀ (res0 : Except ReaderError Unit) (rmid : Reader), FlagsStep r rmid →
        some (res0, rmid) = some (res, r1) → FlagsStep r r1 := by
      intro res0 rmid h1 heq
      simp only [Option.some.injEq, Prod.mk.injEq] at heq
      obtain ⟨_, hr⟩ := heq
      subst hr
      exact h1
    rw [seekLoop] at h
    split at h
    · (refine done _ _ ?_ h; exact FlagsStep_of_flags rfl)
    · rename_i kl cursor hread
      dsimp only at h
      split at h
      · split at h
        · (refine transfer _ _ ?_ h
           exact FlagsStep_of_flags ((GetPartitionId_flags _ _).trans rfl))
        · split at h
          · rename_i e r2 hrnp
            refine done _ r2 (FlagsStep_trans ?_ (ReadNextPartition_step_of_eq hrnp)) h
            split <;> exact FlagsStep_of_fields rfl rfl
              (by first | rfl | exact EssenceChunkHelper.UpdateLastChunk_mIsComplete _ _ _)
          · rename_i u r2 hrnp
            refine transfer r2 _ (FlagsStep_trans ?_ (ReadNextPartition_step_of_eq hrnp)) h
            split <;> exact FlagsStep_of_fields rfl rfl
              (by first | rfl | exact EssenceChunkHelper.UpdateLastChunk_mIsComplete _ _ _)
      · split at h
        · split at h
          · (refine transfer _ _ ?_ h; exact FlagsStep_of_flags rfl)
          · (refine transfer _ _ ?_ h; exact FlagsStep_of_flags rfl)
        · split at h
          · split at h
            · split at h
              · (refine done _ _ ?_ h; exact FlagsStep_of_flags rfl)
              · (refine transfer _ _ ?_ h; exact FlagsStep_of_flags rfl)
            · split at h
              · (refine transfer _ _ ?_ h; exact FlagsStep_of_flags rfl)
              · (refine transfer _ _ ?_ h; exact FlagsStep_of_flags rfl)
          · split at h
            · split at h
              · (refine transfer _ _ ?_ h; exact FlagsStep_of_flags rfl)
              · split at h
                · (refine done _ _ ?_ h; exact FlagsStep_of_flags rfl)
                · rename_i helper happ
                  have hc : helper.mIsComplete = r.mEssenceChunkHelper.mIsComplete := by
                    repeat' split at happ
                    all_goals first
                      | exact EssenceChunkHelper.AppendChunk_mIsComplete happ
                      | (cases happ; rfl)
                  refine done _ _ ?_ h
                  cases hsk <;> exact FlagsStep_of_fields rfl rfl hc
            · split at h
              · split at h
                · (refine done _ _ ?_ h; exact FlagsStep_of_flags rfl)
                · have h1 : FlagsStep r ({ r with cursor := cursor } : Reader) :=
                    FlagsStep_of_flags rfl
                  have h2 := SetFileIsComplete_step ({ r with cursor := cursor } : Reader)
                  have h3 : FlagsStep (SetFileIsComplete { r with cursor := cursor })
                      ((SetFileIsComplete { r with cursor := cursor }).skip kl.len) :=
                    FlagsStep_of_flags rfl
                  exact transfer _ _ (FlagsStep_trans h1 (FlagsStep_trans h2 h3)) h
              · (refine transfer _ _ ?_ h; exact FlagsStep_of_flags rfl)

/-- The function `SeekContentPackageStart` keeps the completion flags that are
true and the relation between them. -/
theorem SeekContentPackageStart_step (env : Env) (fuel : Nat) (r r1 : Reader)
    (res : Except ReaderError Unit)
    (h : SeekContentPackageStart env fuel r = some (res, r1)) : FlagsStep r r1 := by
  have hfirst : ∀ (res0 : Except ReaderError Unit) (r0 : Reader),
      (if r.mNextKey.isPartitionPack then
        if r.mFileIsComplete then ((.ok () : Except ReaderError Unit), r.skip r.mNextLen)
        else ReadNextPartition env r r.mNextKey r.mNextLLen r.mNextLen
      else (.ok (), r)) = (res0, r0) → FlagsStep r r0 := by
    intro res0 r0 hf
    split at hf
    · split at hf
      · simp only [Prod.mk.injEq] at hf
        obtain ⟨_, rfl⟩ := hf
        exact FlagsStep_of_flags rfl
      · exact ReadNextPartition_step_of_eq hf
    · simp only [Prod.mk.injEq] at hf
      obtain ⟨_, rfl⟩ := hf
      exact FlagsStep_refl _
  unfold SeekContentPackageStart at h
  dsimp only at h
  split at h
  · rename_i e r0 hf
    have hv := hfirst _ _ hf
    simp only [Option.some.injEq, Prod.mk.injEq] at h
    obtain ⟨_, hr⟩ := h
    subst hr
    exact hv
  · rename_i u r0 hf
    have hv := hfirst _ _ hf
    have hreset : FlagsStep r0 r0.ResetNextKL := FlagsStep_of_flags rfl
    split at h
    · have hl := seekLoop_step env _ fuel _ _ res r1 h
      exact FlagsStep_trans hv (FlagsStep_trans hreset
        (FlagsStep_trans (FlagsStep_of_flags (GetPartitionId_flags _ _)) hl))
    · have hl := seekLoop_step env _ fuel _ _ res r1 h
      exact FlagsStep_trans hv (FlagsStep_trans hreset hl)

theorem SetContentPackageStart_step_of_eq {env : Env} {r r2 : Reader} {base fp : Int}
    {atKey : Bool} {res : Except ReaderError Unit}
    (h : SetContentPackageStart env r base fp atKey = (res, r2)) : FlagsStep r r2 := by
  have hf := SetContentPackageStart_flags env r base fp atKey
  rw [h] at hf
  exact FlagsStep_of_flags hf

theorem FlagsStep_ite {r a b : Reader} {c : Prop} [Decidable c] (ha : FlagsStep r a)
    (hb : FlagsStep r b) : FlagsStep r (if c then a else b) := by
  split
  · exact ha
  · exact hb

/-- The function `ReadFirstEssenceKL` keeps the completion flags that are true
and the relation between them. -/
theorem ReadFirstEssenceKL_step (env : Env) (fuel : Nat) (r r1 : Reader)
    (res : Except ReaderError KL) (h : ReadFirstEssenceKL env fuel r = some (res, r1)) :
    FlagsStep r r1 := by
  unfold ReadFirstEssenceKL at h
  split at h
  · split at h
    · simp at h
    · rename_i e r0 hs
      simp only [Option.some.injEq, Prod.mk.injEq] at h
      obtain ⟨_, hr⟩ := h
      subst hr
      exact FlagsStep_trans (SeekContentPackageStart_step env fuel r r0 _ hs)
        (FlagsStep_of_flags rfl)
    · rename_i u r0 hs
      have h0 := SeekContentPackageStart_step env fuel r r0 _ hs
      split at h
      · rename_i e r2 hset
        simp only [Option.some.injEq, Prod.mk.injEq] at h
        obtain ⟨_, hr⟩ := h
        subst hr
        exact FlagsStep_trans h0 (FlagsStep_trans (SetContentPackageStart_step_of_eq hset)
          (FlagsStep_of_flags rfl))
      · rename_i u2 r2 hset
        simp only [Option.some.injEq, Prod.mk.injEq] at h
        obtain ⟨_, hr⟩ := h
        subst hr
        exact FlagsStep_trans h0 (SetContentPackageStart_step_of_eq hset)
  · split at h
    · split at h
      · simp only [Option.some.injEq, Prod.mk.injEq] at h
        obtain ⟨_, hr⟩ := h
        subst hr
        exact FlagsStep_of_flags rfl
      · dsimp only at h
        split at h
        · simp only [Option.some.injEq, Prod.mk.injEq] at h
          obtain ⟨_, hr⟩ := h
          subst hr
          exact FlagsStep_of_flags rfl
        · split at h
          · simp only [Option.some.injEq, Prod.mk.injEq] at h
            obtain ⟨_, hr⟩ := h
            subst hr
            exact FlagsStep_of_flags rfl
          · simp only [Option.some.injEq, Prod.mk.injEq] at h
            obtain ⟨_, hr⟩ := h
            subst hr
            exact FlagsStep_of_flags rfl
    · simp only [Option.some.injEq, Prod.mk.injEq] at h
      obtain ⟨_, hr⟩ := h
      subst hr
      exact FlagsStep_of_flags rfl

/-- The function `ReadNonfirstEssenceKL` keeps the completion flags that are
true and the relation between them. -/
theorem ReadNonfirstEssenceKL_step (env : Env) (r : Reader) :
    FlagsStep r (ReadNonfirstEssenceKL env r).2 := by
  unfold ReadNonfirstEssenceKL
  split
  · exact FlagsStep_of_flags rfl
  · split
    · exact FlagsStep_of_flags rfl
    · rename_i kl cursor hread
      dsimp only
      split
      · split
        · rename_i e r2 hset
          have hs := SetContentPackageStart_step_of_eq hset
          refine FlagsStep_trans (FlagsStep_trans ?_ hs) ?_
          · exact FlagsStep_of_flags rfl
          · exact FlagsStep_of_flags rfl
        · rename_i u r2 hset
          have hs := SetContentPackageStart_step_of_eq hset
          refine FlagsStep_trans ?_ hs
          exact FlagsStep_of_flags rfl
      · split
        · have h2 : FlagsStep r
              ({ ({ r with cursor := cursor } : Reader) with
                mEssenceChunkHelper :=
                  (r.mEssenceChunkHelper.UpdateLastChunk
                    (cursor - mxfKey_extlen - (kl.llen : Int)) true) } : Reader) :=
            FlagsStep_of_fields rfl rfl
              (EssenceChunkHelper.UpdateLastChunk_mIsComplete _ _ _)
          exact FlagsStep_trans
            (FlagsStep_ite (FlagsStep_trans h2 (SetHaveFooter_step _)) h2)
            (FlagsStep_of_flags rfl)
        · exact FlagsStep_of_flags rfl

theorem ReadNonfirstEssenceKL_step_of_eq {env : Env} {r r1 : Reader}
    {res : Except ReaderError (Option KL)} (h : ReadNonfirstEssenceKL env r = (res, r1)) :
    FlagsStep r r1 := by
  have hv := ReadNonfirstEssenceKL_step env r
  rw [h] at hv
  exact hv

theorem ReadEssenceKL_step (env : Env) (fuel : Nat) (r r1 : Reader) (first_element : Bool)
    (res : Except ReaderError (Option KL))
    (h : ReadEssenceKL env fuel r first_element = some (res, r1)) : FlagsStep r r1 := by
  unfold ReadEssenceKL at h
  split at h
  · split at h
    · simp at h
    · rename_i e r0 hs
      simp only [Option.some.injEq, Prod.mk.injEq] at h
      obtain ⟨_, hr⟩ := h
      subst hr
      exact ReadFirstEssenceKL_step env fuel r _ _ hs
    · rename_i kl r0 hs
      simp only [Option.some.injEq, Prod.mk.injEq] at h
      obtain ⟨_, hr⟩ := h
      subst hr
      exact FlagsStep_trans (ReadFirstEssenceKL_step env fuel r _ _ hs) (FlagsStep_of_flags rfl)
  · simp only [Option.some.injEq] at h
    exact ReadNonfirstEssenceKL_step_of_eq h

/-- Every call of `Op` keeps the completion flags that are true and the
relation between them. -/
theorem runOp_step (env : Env) (fuel : Nat) (r r1 : Reader) (op : Op)
    (h : runOp env fuel r op = some r1) : FlagsStep r r1 := by
  cases op with
  | readFirstEssenceKL =>
    simp only [runOp, Option.map_eq_some'] at h
    obtain ⟨⟨res, r2⟩, hrun, hr⟩ := h
    subst hr
    exact ReadFirstEssenceKL_step env fuel r r2 res hrun
  | readNonfirstEssenceKL =>
    simp only [runOp, Option.some.injEq] at h
    subst h
    exact ReadNonfirstEssenceKL_step env r
  | readEssenceKL first_element =>
    simp only [runOp, Option.map_eq_some'] at h
    obtain ⟨⟨res, r2⟩, hrun, hr⟩ := h
    subst hr
    exact ReadEssenceKL_step env fuel r r2 first_element res hrun
  | seekContentPackageStart =>
    simp only [runOp, Option.map_eq_some'] at h
    obtain ⟨⟨res, r2⟩, hrun, hr⟩ := h
    subst hr
    exact SeekContentPackageStart_step env fuel r r2 res hrun
  | resetState =>
    simp only [runOp, Option.some.injEq] at h
    subst h
    exact FlagsStep_of_flags rfl
  | seekIndexed base_position file_position =>
    simp only [runOp, Option.some.injEq] at h
    subst h
    refine FlagsStep_trans ?_
      (FlagsStep_of_flags (SetContentPackageStart_flags _ _ _ _ _))
    exact FlagsStep_of_flags rfl
  | seekFirst =>
    simp only [runOp] at h
    split at h
    · simp at h
    · rename_i e r2 hs
      simp only [Option.some.injEq] at h
      subst h
      exact FlagsStep_trans (SeekContentPackageStart_step env fuel r r2 _ hs)
        (FlagsStep_of_flags rfl)
    · rename_i u r2 hs
      have h0 := SeekContentPackageStart_step env fuel r r2 _ hs
      split at h
      · rename_i e r3 hset
        simp only [Option.some.injEq] at h
        subst h
        exact FlagsStep_trans h0 (FlagsStep_trans (SetContentPackageStart_step_of_eq hset)
          (FlagsStep_of_flags rfl))
      · rename_i u2 r3 hset
        simp only [Option.some.injEq] at h
        subst h
        exact FlagsStep_trans h0 (SetContentPackageStart_step_of_eq hset)
  | moveCursor position =>
    simp only [runOp, Option.some.injEq] at h
    subst h
    exact FlagsStep_of_flags rfl

/-- The reading of the KLVs of a content package keeps the completion flags
that are true and the relation between them. -/
theorem contentPackageLoop_step (env : Env) (fuel : Nat) (size : Int) :
    ∀ (n : Nat) (r : Reader) (consumed : List KL) (cp : Int)
      (res : Except ReaderError (List KL × Int)) (r1 : Reader),
      contentPackageLoop env fuel size n r consumed cp = some (res, r1) → FlagsStep r r1 := by
  intro n
  induction n with
  | zero => intro r c cp res r1 h; simp [contentPackageLoop] at h
  | succ n ih =>
    intro r c cp res r1 h
    rw [contentPackageLoop] at h
    split at h
    · split at h
      · simp at h
      · rename_i e r2 hk
        simp only [Option.some.injEq, Prod.mk.injEq] at h
        obtain ⟨_, hr⟩ := h
        subst hr
        exact ReadEssenceKL_step env fuel r _ _ _ hk
      · rename_i r2 hk
        simp only [Option.some.injEq, Prod.mk.injEq] at h
        obtain ⟨_, hr⟩ := h
        subst hr
        exact ReadEssenceKL_step env fuel r _ _ _ hk
      · rename_i kl r2 hk
        have h0 := ReadEssenceKL_step env fuel r _ _ _ hk
        split at h
        · simp only [Option.some.injEq, Prod.mk.injEq] at h
          obtain ⟨_, hr⟩ := h
          subst hr
          exact h0
        · have h2 := ih _ _ _ _ _ h
          refine FlagsStep_trans h0 (FlagsStep_trans ?_ h2)
          exact FlagsStep_of_flags rfl
    · simp only [Option.some.injEq, Prod.mk.injEq] at h
      obtain ⟨_, hr⟩ := h
      subst hr
      exact FlagsStep_refl _

theorem readContentPackage_step (env : Env) (fuel n : Nat) (size : Int) (r r1 : Reader)
    (res : Except ReaderError (List KL))
    (h : readContentPackage env fuel n size r = some (res, r1)) : FlagsStep r r1 := by
  unfold readContentPackage at h
  split at h
  · simp at h
  · rename_i e r2 hl
    simp only [Option.some.injEq, Prod.mk.injEq] at h
    obtain ⟨_, hr⟩ := h
    subst hr
    exact contentPackageLoop_step env fuel size n r _ _ _ _ hl
  · rename_i consumed cp r2 hl
    have h0 := contentPackageLoop_step env fuel size n r _ _ _ _ hl
    split at h
    all_goals
      simp only [Option.some.injEq, Prod.mk.injEq] at h
      obtain ⟨_, hr⟩ := h
      subst hr
      exact h0

/-- The inner loop of `SeekEssence` keeps the completion flags that are true
and the relation between them. -/
theorem skipPackageLoop_step (env : Env) :
    ∀ (n : Nat) (r : Reader) (cp : Int) (res : Except ReaderError Int) (r1 : Reader),
      skipPackageLoop env n r cp = some (res, r1) → FlagsStep r r1 := by
  intro n
  induction n with
  | zero => intro r cp res r1 h; simp [skipPackageLoop] at h
  | succ n ih =>
    intro r cp res r1 h
    rw [skipPackageLoop] at h
    split at h
    · rename_i e r2 hk
      simp only [Option.some.injEq, Prod.mk.injEq] at h
      obtain ⟨_, hr⟩ := h
      subst hr
      exact ReadNonfirstEssenceKL_step_of_eq hk
    · rename_i r2 hk
      simp only [Option.some.injEq, Prod.mk.injEq] at h
      obtain ⟨_, hr⟩ := h
      subst hr
      exact ReadNonfirstEssenceKL_step_of_eq hk
    · rename_i kl r2 hk
      have h2 := ih _ _ _ _ h
      refine FlagsStep_trans (ReadNonfirstEssenceKL_step_of_eq hk) (FlagsStep_trans ?_ h2)
      exact FlagsStep_of_flags rfl

theorem GetEssenceOffset_flags_of_eq {h helper : EssenceChunkHelper} {fp : Int}
    {res : Except BMXException Int} (hg : h.GetEssenceOffset fp = (res, helper)) :
    helper.mIsComplete = h.mIsComplete := by
  have hc := EssenceChunkHelper.GetEssenceOffset_mIsComplete h fp
  rw [hg] at hc
  exact hc

theorem GetIndexedFilePosition_flags_of_eq {index : IndexTable} {h helper : EssenceChunkHelper}
    {base : Int} {res : Except BMXException Int}
    (hg : GetIndexedFilePosition index h base = (res, helper)) :
    helper.mIsComplete = h.mIsComplete := by
  have hc := GetIndexedFilePosition_mIsComplete index h base
  rw [hg] at hc
  exact hc

/-- The walk of `SeekEssence` over the content packages keeps the completion
flags that are true and the relation between them. -/
theorem seekWalkLoop_step (env : Env) (index : IndexTable) (fuel n : Nat) (base : Int) :
    ∀ (m : Nat) (r : Reader) (res : Except ReaderError Unit) (r1 : Reader),
      seekWalkLoop env index fuel n base m r = some (res, r1) → FlagsStep r r1 := by
  intro m
  induction m with
  | zero => intro r res r1 h; simp [seekWalkLoop] at h
  | succ m ih =>
    intro r res r1 h
    rw [seekWalkLoop] at h
    split at h
    · split at h
      · simp at h
      · rename_i e r2 hk
        simp only [Option.some.injEq, Prod.mk.injEq] at h
        obtain ⟨_, hr⟩ := h
        subst hr
        exact ReadFirstEssenceKL_step env fuel r _ _ hk
      · rename_i kl r2 hk
        have h0 := ReadFirstEssenceKL_step env fuel r _ _ hk
        split at h
        · split at h
          · simp at h
          · rename_i e r3 hs
            have h1 := skipPackageLoop_step env n _ _ _ _ hs
            simp only [Option.some.injEq, Prod.mk.injEq] at h
            obtain ⟨_, hr⟩ := h
            subst hr
            refine FlagsStep_trans h0 (FlagsStep_trans ?_ h1)
            exact FlagsStep_of_flags rfl
          · rename_i cp r3 hs
            have h1 := skipPackageLoop_step env n _ _ _ _ hs
            have h2 : FlagsStep r r3 := by
              refine FlagsStep_trans h0 (FlagsStep_trans ?_ h1)
              exact FlagsStep_of_flags rfl
            split at h
            · rename_i e helper hg
              have hc := GetEssenceOffset_flags_of_eq hg
              simp only [Option.some.injEq, Prod.mk.injEq] at h
              obtain ⟨_, hr⟩ := h
              subst hr
              exact FlagsStep_trans h2 (FlagsStep_of_fields rfl rfl hc)
            · rename_i off helper hg
              have hc := GetEssenceOffset_flags_of_eq hg
              have h3 : FlagsStep r ({ r3 with mEssenceChunkHelper := helper } : Reader) :=
                FlagsStep_trans h2 (FlagsStep_of_fields rfl rfl hc)
              split at h
              · simp only [Option.some.injEq, Prod.mk.injEq] at h
                obtain ⟨_, hr⟩ := h
                subst hr
                exact h3
              · exact FlagsStep_trans h3 (ih _ _ _ h)
        · exact FlagsStep_trans h0 (ih _ _ _ h)
    · simp only [Option.some.injEq, Prod.mk.injEq] at h
      obtain ⟨_, hr⟩ := h
      subst hr
      exact FlagsStep_refl _

/-- The `try` block of `SeekEssence` keeps the completion flags that are true
and the relation between them. -/
theorem seekEssenceBody_step (env : Env) (index : IndexTable) (fuel n m : Nat) (r r1 : Reader)
    (base : Int) (for_read : Bool) (res : Except ReaderError Unit)
    (h : seekEssenceBody env index fuel n m r base for_read = some (res, r1)) :
    FlagsStep r r1 := by
  unfold seekEssenceBody at h
  split at h
  · simp only [Option.some.injEq, Prod.mk.injEq] at h
    obtain ⟨_, hr⟩ := h
    subst hr
    exact FlagsStep_refl _
  · split at h
    · simp only [Option.some.injEq, Prod.mk.injEq] at h
      obtain ⟨_, hr⟩ := h
      subst hr
      exact FlagsStep_refl _
    · split at h
      · rename_i e helper hg
        have hc := GetIndexedFilePosition_flags_of_eq hg
        simp only [Option.some.injEq, Prod.mk.injEq] at h
        obtain ⟨_, hr⟩ := h
        subst hr
        exact FlagsStep_of_fields rfl rfl hc
      · rename_i fp helper hg
        have hc := GetIndexedFilePosition_flags_of_eq hg
        have h0 : FlagsStep r ({ r with mEssenceChunkHelper := helper } : Reader) :=
          FlagsStep_of_fields rfl rfl hc
        have hpos : ∀ (res0 : Except ReaderError Unit) (r2 : Reader),
            (if ({ r with mEssenceChunkHelper := helper } : Reader).mBasePosition < 0 then
              match SeekContentPackageStart env fuel { r with mEssenceChunkHelper := helper } with
              | none => none
              | some (.error e, r1) => some (.error e, r1)
              | some (.ok _, r1) => some (SetContentPackageStart env r1 0 (-1) false)
            else if ({ r with mEssenceChunkHelper := helper } : Reader).mBasePosition <
                ({ r with mEssenceChunkHelper := helper } : Reader).mLastKnownBasePosition then
              if ¬ (({ r with mEssenceChunkHelper := helper } : Reader).mLastKnownBasePosition <
                  base) then
                some (.error .assertFailed, ({ r with mEssenceChunkHelper := helper } : Reader))
              else
                some (SetContentPackageStart env
                  { ({ r with mEssenceChunkHelper := helper } : Reader) with
                    cursor := r.mLastKnownFilePosition }
                  r.mLastKnownBasePosition r.mLastKnownFilePosition true)
            else some (.ok (), ({ r with mEssenceChunkHelper := helper } : Reader))) =
              some (res0, r2) →
            FlagsStep r r2 := by
          intro res0 r2 hp
          split at hp
          · split at hp
            · simp at hp
            · rename_i e r3 hs
              simp only [Option.some.injEq, Prod.mk.injEq] at hp
              obtain ⟨_, hr⟩ := hp
              subst hr
              exact FlagsStep_trans h0 (SeekContentPackageStart_step env fuel _ _ _ hs)
            · rename_i u r3 hs
              simp only [Option.some.injEq] at hp
              exact FlagsStep_trans h0
                (FlagsStep_trans (SeekContentPackageStart_step env fuel _ _ _ hs)
                  (SetContentPackageStart_step_of_eq hp))
          · split at hp
            · split at hp
              · simp only [Option.some.injEq, Prod.mk.injEq] at hp
                obtain ⟨_, hr⟩ := hp
                subst hr
                exact h0
              · simp only [Option.some.injEq] at hp
                have hs := SetContentPackageStart_step_of_eq hp
                refine FlagsStep_trans (FlagsStep_trans h0 ?_) hs
                exact FlagsStep_of_flags rfl
            · simp only [Option.some.injEq, Prod.mk.injEq] at hp
              obtain ⟨_, hr⟩ := hp
              subst hr
              exact h0
        dsimp only at h
        split at h
        · simp only [Option.some.injEq] at h
          have hs := SetContentPackageStart_step_of_eq h
          refine FlagsStep_trans (FlagsStep_trans h0 ?_) hs
          exact FlagsStep_of_flags rfl
        · split at h
          · simp only [Option.some.injEq, Prod.mk.injEq] at h
            obtain ⟨_, hr⟩ := h
            subst hr
            exact h0
          · split at h
            · simp only [Option.some.injEq, Prod.mk.injEq] at h
              obtain ⟨_, hr⟩ := h
              subst hr
              exact h0
            · split at h
              · simp at h
              · rename_i e r2 hp
                simp only [Option.some.injEq, Prod.mk.injEq] at h
                obtain ⟨_, hr⟩ := h
                subst hr
                exact hpos _ _ hp
              · rename_i u r2 hp
                exact FlagsStep_trans (hpos _ _ hp)
                  (seekWalkLoop_step env index fuel n base m _ _ _ h)

/-- The function `SeekEssence` keeps the completion flags that are true and
the relation between them. -/
theorem SeekEssence_step (env : Env) (index : IndexTable) (fuel n m : Nat) (r r1 : Reader)
    (base : Int) (for_read : Bool) (res : Except ReaderError Unit)
    (h : SeekEssence env index fuel n m r base for_read = some (res, r1)) :
    FlagsStep r r1 := by
  unfold SeekEssence at h
  split at h
  · simp at h
  · rename_i e r2 hb
    simp only [Option.some.injEq, Prod.mk.injEq] at h
    obtain ⟨_, hr⟩ := h
    subst hr
    exact FlagsStep_trans (seekEssenceBody_step env index fuel n m r _ base for_read _ hb)
      (FlagsStep_of_flags rfl)
  · rename_i u r2 hb
    simp only [Option.some.injEq, Prod.mk.injEq] at h
    obtain ⟨_, hr⟩ := h
    subst hr
    exact seekEssenceBody_step env index fuel n m r _ base for_read _ hb

/-- Every call of `Call` keeps the completion flags that are true and the
relation between them. -/
theorem runCall_step (env : Env) (index : IndexTable) (fuel n m : Nat) (r r1 : Reader)
    (call : Call) (h : runCall env index fuel n m r call = some r1) : FlagsStep r r1 := by
  cases call with
  | walker op => exact runOp_step env fuel r r1 op h
  | seekEssence base_position for_read =>
    simp only [runCall, Option.map_eq_some'] at h
    obtain ⟨⟨res, r2⟩, hrun, hr⟩ := h
    subst hr
    exact SeekEssence_step env index fuel n m r r2 base_position for_read res hrun
  | readContentPackage size =>
    simp only [runCall, Option.map_eq_some'] at h
    obtain ⟨⟨res, r2⟩, hrun, hr⟩ := h
    subst hr
    exact readContentPackage_step env fuel n size r r2 res hrun
  | setReadLimits start_position duration =>
    simp only [runCall, Option.some.injEq] at h
    subst h
    exact FlagsStep_of_flags rfl
  | haveFilePosition essence_offset =>
    simp only [runCall, Option.some.injEq] at h
    subst h
    exact FlagsStep_of_fields rfl rfl (EssenceChunkHelper.HaveFilePosition_mIsComplete _ _)
  | getFilePosition essence_offset =>
    simp only [runCall, Option.some.injEq] at h
    subst h
    exact FlagsStep_of_fields rfl rfl (EssenceChunkHelper.GetFilePosition_mIsComplete _ _)
  | getFilePositionSpan essence_offset size =>
    simp only [runCall, Option.some.injEq] at h
    subst h
    exact FlagsStep_of_fields rfl rfl
      (EssenceChunkHelper.GetFilePositionSpan_mIsComplete _ _ _)
  | getEssenceOffset file_position =>
    simp only [runCall, Option.some.injEq] at h
    subst h
    exact FlagsStep_of_fields rfl rfl (EssenceChunkHelper.GetEssenceOffset_mIsComplete _ _)
  | setHaveFooter =>
    simp only [runCall, Option.some.injEq] at h
    subst h
    exact SetHaveFooter_step r
  | setFileIsComplete =>
    simp only [runCall, Option.some.injEq] at h
    subst h
    exact SetFileIsComplete_step r

/-- A sequence of calls keeps the completion flags that are true and the
relation between them. -/
theorem runCalls_step (fuel n m : Nat) :
    ∀ (calls : List (Env × IndexTable × Call)) (r r1 : Reader),
      runCalls fuel n m r calls = some r1 → FlagsStep r r1 := by
  intro calls
  induction calls with
  | nil =>
    intro r r1 h
    simp only [runCalls, Option.some.injEq] at h
    subst h
    exact FlagsStep_refl r
  | cons c calls ih =>
    intro r r1 h
    obtain ⟨env, index, call⟩ := c
    simp only [runCalls] at h
    split at h
    · simp at h
    · rename_i r2 hcall
      exact FlagsStep_trans (runCall_step env index fuel n m r r2 call hcall) (ih r2 r1 h)

/-- The constructor leaves the three completion flags equal to its argument
`file_is_complete`: `CreateEssenceChunkIndex`, which it calls for a complete
file, marks the chunk index complete when it returns. -/
theorem construct_flags {env : Env} {eof : Int → Bool} {fileSize : Int}
    {partitions : List Partition} {fuel : Nat} {avidFirstFrameOffset : Int}
    {indexTable : EssenceChunkHelper → Except ReaderError (Bool × Int × Int)} {cursor : Int}
    {file_is_complete : Bool} {r0 : Reader}
    (h : construct env eof fileSize partitions fuel avidFirstFrameOffset indexTable cursor
      file_is_complete = some (.ok r0)) :
    r0.flags = (file_is_complete, file_is_complete, file_is_complete) := by
  unfold construct at h
  dsimp only at h
  split at h
  · simp at h
  · simp at h
  · rename_i helper hcreated
    have hc : helper.mIsComplete = file_is_complete := by
      split at hcreated
      · rename_i hfic
        unfold EssenceChunkHelper.CreateEssenceChunkIndex at hcreated
        split at hcreated
        · simp at hcreated
        · simp at hcreated
        · simp only [Option.some.injEq, Except.ok.injEq] at hcreated
          subst hcreated
          exact hfic.symm
      · rename_i hfic
        simp only [Option.some.injEq, Except.ok.injEq] at hcreated
        subst hcreated
        simp only [Bool.not_eq_true] at hfic
        rw [hfic]
        rfl
    split at h
    · simp at h
    · simp only [Option.some.injEq, Except.ok.injEq] at h
      subst h
      simp only [flags, hc]

/-- C34: in every state that a constructed reader reaches by calls of the KL
functions, seeks, reads of content packages, lookups, `SetReadLimits`,
`SetHaveFooter` and `SetFileIsComplete`, `mFileIsComplete` implies
`mHaveFooter`, and `mHaveFooter` holds exactly when the chunk index is marked
complete; and a flag that is true in a reached state is true in every state
reached from it. -/
theorem completion_flags_invariant (env : Env) (eof : Int → Bool) (fileSize : Int)
    (partitions : List Partition) (fuel0 : Nat) (avidFirstFrameOffset : Int)
    (indexTable : EssenceChunkHelper → Except ReaderError (Bool × Int × Int)) (cursor : Int)
    (file_is_complete : Bool) (fuel n m : Nat)
    (calls calls1 : List (Env × IndexTable × Call)) (r0 r r1 : Reader)
    (hinit : construct env eof fileSize partitions fuel0 avidFirstFrameOffset indexTable cursor
      file_is_complete = some (.ok r0))
    (hrun : runCalls fuel n m r0 calls = some r)
    (hrun1 : runCalls fuel n m r calls1 = some r1) :
    (r.mFileIsComplete = true → r.mHaveFooter = true) ∧
    (r.mHaveFooter = true ↔ r.mEssenceChunkHelper.mIsComplete = true) ∧
    (r.mFileIsComplete = true → r1.mFileIsComplete = true) ∧
    (r.mHaveFooter = true → r1.mHaveFooter = true) ∧
    (r.mEssenceChunkHelper.mIsComplete = true →
      r1.mEssenceChunkHelper.mIsComplete = true) := by
  have h0 : FlagsInv r0 := by
    have hf := construct_flags hinit
    simp only [flags, Prod.mk.injEq] at hf
    obtain ⟨f1, f2, f3⟩ := hf
    unfold FlagsInv
    rw [f1, f2, f3]
    exact ⟨id, Iff.rfl⟩
  have hr : FlagsInv r := (runCalls_step fuel n m calls r0 r hrun).2 h0
  obtain ⟨k1, k2, k3⟩ := (runCalls_step fuel n m calls1 r r1 hrun1).1
  exact ⟨hr.1, hr.2, k1, k2, k3⟩

theorem completion_flags_invariant_witness :
    ∃ r0 r r1 : Reader,
      construct (Examples.tableEnv Examples.twoPackages true) (fun _ => false) 1432
        [⟨0, 1, 2, 0, 0, 0, false⟩] 0 0 (fun _ => .ok (false, 0, 0)) 1360 false =
        some (.ok r0) ∧
      runCalls 10 10 10 r0
        [(Examples.tableEnv Examples.twoPackages true, Examples.noIndex,
          .walker .readNonfirstEssenceKL)] = some r ∧
      runCalls 10 10 10 r
        [(Examples.tableEnv Examples.twoPackages true, Examples.noIndex, .walker .resetState),
         (Examples.tableEnv Examples.twoPackages true, Examples.noIndex,
          .walker (.moveCursor 1400)),
         (Examples.tableEnv Examples.twoPackages true, Examples.noIndex,
          .walker .seekContentPackageStart)] = some r1 ∧
      r0.flags = (false, false, false) ∧ r.flags = (false, true, true) ∧
      r1.flags = (true, true, true) ∧
      (r.mFileIsComplete = true → r.mHaveFooter = true) ∧
      (r.mHaveFooter = true ↔ r.mEssenceChunkHelper.mIsComplete = true) ∧
      (r.mFileIsComplete = true → r1.mFileIsComplete = true) ∧
      (r.mHaveFooter = true → r1.mHaveFooter = true) ∧
      (r.mEssenceChunkHelper.mIsComplete = true →
        r1.mEssenceChunkHelper.mIsComplete = true) :=
  ⟨_, _, _, rfl, rfl, rfl, rfl, rfl, rfl,
    completion_flags_invariant (Examples.tableEnv Examples.twoPackages true) (fun _ => false)
      1432 [⟨0, 1, 2, 0, 0, 0, false⟩] 0 0 (fun _ => .ok (false, 0, 0)) 1360 false 10 10 10
      [(Examples.tableEnv Examples.twoPackages true, Examples.noIndex,
        .walker .readNonfirstEssenceKL)]
      [(Examples.tableEnv Examples.twoPackages true, Examples.noIndex, .walker .resetState),
       (Examples.tableEnv Examples.twoPackages true, Examples.noIndex,
        .walker (.moveCursor 1400)),
       (Examples.tableEnv Examples.twoPackages true, Examples.noIndex,
        .walker .seekContentPackageStart)] _ _ _ rfl rfl rfl⟩

end Reader

end EssenceReader

end Bmx
